import Mathlib

/-!
Shallow embedding of the `OrderManagementSystem` class of the quantlab-suite
repository (order management & execution engine), together with proofs about
its order lifecycle, venue scoring, execution algorithms and ledgers.

Modelling conventions, used consistently below:
* JS `number` values that carry prices, fees and scores are embedded as `ℚ`;
  share quantities are `ℕ`.  `Rat` division by zero yields `0` where JS
  produces `NaN`/`Infinity`; no claim below depends on such a quotient.
* `Math.random()` draws are explicit parameters (`Rand`, `SubmitRand`);
  a draw `u` is valid when `0 ≤ u < 1`, which is exactly the contract of
  `Math.random()`.
* `Math.log` is transcendental, so it is an uninterpreted parameter
  `log : ℚ → ℚ` threaded through every definition that uses it.
* The timer callbacks (`setTimeout`/`setInterval`) of the source become an
  explicit task list inside the machine state; an environment-chosen event
  `Event.runTask i` fires the i-th scheduled callback.  This is a sound
  over-approximation of the JS event loop: every JS schedule is one of the
  modelled event sequences.
* Order ids `ORD_<n>` are embedded as the counter value `n : ℕ`.
-/

namespace QuantLab

inductive Side where
  | BUY | SELL
deriving DecidableEq, Repr

inductive OrderType where
  | MARKET | LIMIT | STOP | STOP_LIMIT | ICEBERG | TWAP | VWAP
deriving DecidableEq, Repr

inductive OrderStatus where
  | PENDING | SUBMITTED | PARTIALLY_FILLED | FILLED | CANCELLED | REJECTED
deriving DecidableEq, Repr

inductive TimeInForce where
  | GTC | IOC | FOK | DAY
deriving DecidableEq, Repr

/-- The five venues of the `venues` array of the source. -/
inductive Venue where
  | NYSE | NASDAQ | BATS | ARCA | IEX
deriving DecidableEq, Repr

/-- The `venueLatency` map. -/
def venueLatency : Venue → ℚ
  | .NYSE => 1/2
  | .NASDAQ => 3/10
  | .BATS => 1/5
  | .ARCA => 2/5
  | .IEX => 7/20

/-- The `venueFees` map. -/
def venueFees : Venue → ℚ
  | .NYSE => 25/10000
  | .NASDAQ => 20/10000
  | .BATS => 15/10000
  | .ARCA => 22/10000
  | .IEX => 9/10000

/-- The `venues` array, in declaration order. -/
def venues : List Venue := [.NYSE, .NASDAQ, .BATS, .ARCA, .IEX]

/-- The `Order` record of the ledger (field names of the source). -/
structure Order where
  id : ℕ
  symbol : String
  side : Side
  type : OrderType
  quantity : ℕ
  price : Option ℚ
  stopPrice : Option ℚ
  displayQuantity : Option ℕ
  timeInForce : TimeInForce
  status : OrderStatus
  fillQuantity : ℕ
  avgFillPrice : ℚ
  commission : ℚ
  timestamp : ℕ
deriving DecidableEq, Repr

/-- The immutable `Trade` record appended by `createTrade`. -/
structure Trade where
  id : ℕ
  orderId : ℕ
  symbol : String
  side : Side
  quantity : ℕ
  price : ℚ
  timestamp : ℕ
  commission : ℚ
  venue : Venue
deriving DecidableEq, Repr

/-- The argument of `submitOrder`: an `Order` minus the OMS-assigned fields. -/
structure OrderRequest where
  symbol : String
  side : Side
  type : OrderType
  quantity : ℕ
  price : Option ℚ
  stopPrice : Option ℚ
  displayQuantity : Option ℕ
  timeInForce : TimeInForce
deriving DecidableEq, Repr

/-- Random draws consumed while scoring venues and starting an order:
`liqU v` and `fillU v` are the `Math.random()` draws of `getLiquidityScore`
and `getFillProbability` for candidate `v`; `hVwapU` is the draw of
`calculateHistoricalVWAP`. -/
structure SubmitRand where
  liqU : Venue → ℚ
  fillU : Venue → ℚ
  hVwapU : ℚ

/-- Random draws consumed by one fired timer callback. -/
structure Rand where
  u1 : ℚ
  u2 : ℚ
deriving DecidableEq, Repr

/-- Validity of a `Math.random()` draw pair. -/
def Rand.Valid (r : Rand) : Prop :=
  0 ≤ r.u1 ∧ r.u1 < 1 ∧ 0 ≤ r.u2 ∧ r.u2 < 1

/-- The `simulateMarketPrice` helper: `100 + (Math.random() - 0.5) * 10`. -/
def simulateMarketPrice (u : ℚ) : ℚ := 100 + (u - 1/2) * 10

/-- The `calculateHistoricalVWAP` helper: `100 + (Math.random() - 0.5) * 5`. -/
def calculateHistoricalVWAP (u : ℚ) : ℚ := 100 + (u - 1/2) * 5

/-- The `getLiquidityScore` helper of the venue scorer. -/
def getLiquidityScore (r : SubmitRand) (venue : Venue) : ℚ :=
  let baseScore := r.liqU venue * 100
  let venueMultiplier : ℚ := if venue = .NYSE then 12/10 else if venue = .NASDAQ then 11/10 else 1
  min 100 (baseScore * venueMultiplier)

/-- The `getFillProbability` helper of the venue scorer. -/
def getFillProbability (r : SubmitRand) (order : Order) (venue : Venue) : ℚ :=
  let baseProb : ℚ := if order.type = .MARKET then 95 else if order.type = .LIMIT then 70 else 60
  let venueAdjustment := r.fillU venue * 20 - 10
  max 0 (min 100 (baseProb + venueAdjustment))

/-- The `getMarketImpact` helper of the venue scorer. -/
def getMarketImpact (log : ℚ → ℚ) (order : Order) (venue : Venue) : ℚ :=
  let baseImpact := log ((order.quantity : ℚ) / 1000) * (1/100)
  let venueMultiplier : ℚ := if venue = .IEX then 8/10 else 1
  max 0 (baseImpact * venueMultiplier)

/-- The `calculateVenueScore` composite scoring function. -/
def calculateVenueScore (log : ℚ → ℚ) (r : SubmitRand) (order : Order) (venue : Venue) : ℚ :=
  let latency := venueLatency venue
  let fees := venueFees venue
  let liquidityScore := getLiquidityScore r venue
  let fillProbability := getFillProbability r order venue
  let marketImpact := getMarketImpact log order venue
  let score := liquidityScore * (4/10) + fillProbability * (25/100) +
      (1 - fees) * 100 * (2/10) + (1/latency) * 10 * (15/100) - marketImpact * (1/10)
  max 0 score

/-- Stable insertion for a descending sort by score: an element is placed
before the first later-inserted element whose score it reaches.  Earlier list
elements are inserted first, so equal scores keep declaration order, exactly
as ECMAScript's stable `Array.prototype.sort` with comparator
`(a, b) => b.score - a.score`. -/
def insertByScore (x : Venue × ℚ) : List (Venue × ℚ) → List (Venue × ℚ)
  | [] => [x]
  | y :: ys => if x.2 ≥ y.2 then x :: y :: ys else y :: insertByScore x ys

/-- Stable descending sort by score, the model of
`venueScores.sort((a, b) => b.score - a.score)`. -/
def sortByScoreDesc : List (Venue × ℚ) → List (Venue × ℚ)
  | [] => []
  | x :: xs => insertByScore x (sortByScoreDesc xs)

/-- The `selectOptimalVenue` smart router: score every candidate, sort
descending (stably), take the first. -/
def selectOptimalVenue (log : ℚ → ℚ) (r : SubmitRand) (order : Order) : Venue :=
  let venueScores := venues.map (fun venue => (venue, calculateVenueScore log r order venue))
  ((sortByScoreDesc venueScores).headD (Venue.NYSE, 0)).1

/-- First element of maximal score of a list (ties keep the earliest). -/
def firstMaxByScore : List (Venue × ℚ) → Option (Venue × ℚ)
  | [] => none
  | x :: xs =>
    match firstMaxByScore xs with
    | none => some x
    | some y => if y.2 > x.2 then some y else some x

/-- The `calculateCommission` helper: `quantity * price * feeRate`. -/
def calculateCommission (quantity : ℕ) (price : ℚ) (venue : Venue) : ℚ :=
  (quantity : ℚ) * price * venueFees venue

/-- The `calculateSlippage` helper:
`max(0, ln(quantity/1000) * 0.0001 * (venue == IEX ? 0.7 : 1))`. -/
def calculateSlippage (log : ℚ → ℚ) (order : Order) (venue : Venue) : ℚ :=
  let baseSlippage := log ((order.quantity : ℚ) / 1000) * (1/10000)
  let venueMultiplier : ℚ := if venue = .IEX then 7/10 else 1
  max 0 (baseSlippage * venueMultiplier)

/-- The `getTimeInForceMs` helper (expiry window in milliseconds). -/
def getTimeInForceMs : TimeInForce → ℕ
  | .IOC => 1000
  | .FOK => 500
  | .DAY => 8 * 60 * 60 * 1000
  | .GTC => 24 * 60 * 60 * 1000

/-- The `getVolumeWeight` U-shaped volume profile of the VWAP algorithm. -/
def getVolumeWeight (slice totalSlices : ℕ) : ℚ :=
  let normalizedTime : ℚ := (slice : ℚ) / (totalSlices : ℚ)
  let uShape := (normalizedTime - 1/2) ^ 2 * 4 + 1/2
  uShape / (totalSlices : ℚ)

/-- The `calculateVWAPFillPrice` helper. -/
def calculateVWAPFillPrice (marketPrice : ℚ) (side : Side) (aggressiveness : ℚ) : ℚ :=
  let spread := marketPrice * (1/1000)
  let adjustment := spread * aggressiveness
  if side = .BUY then marketPrice + adjustment else marketPrice - adjustment

/-- One scheduled timer callback of an order's execution algorithm.  The
extra numeric fields are the closure variables the source keeps between
callback firings (`remainingQuantity`, `executedQuantity`, ...). -/
inductive Task where
  | marketFill (orderId : ℕ) (venue : Venue)
  | limitPoll (orderId : ℕ) (venue : Venue)
  | limitExpire (orderId : ℕ)
  | stopPoll (orderId : ℕ) (venue : Venue)
  | stopLimitPoll (orderId : ℕ) (venue : Venue)
  | icebergSlice (orderId : ℕ) (venue : Venue) (displayQuantity remaining totalFillQuantity : ℕ)
      (totalFillPrice : ℚ)
  | twapSlice (orderId : ℕ) (venue : Venue) (sliceSize executedQuantity : ℕ) (totalValue : ℚ)
      (sliceCount : ℕ)
  | vwapSlice (orderId : ℕ) (venue : Venue) (historicalVWAP : ℚ) (executedQuantity : ℕ)
      (totalValue : ℚ) (sliceCount : ℕ)
deriving DecidableEq, Repr

/-- Owning order id of a task. -/
def Task.oid : Task → ℕ
  | .marketFill orderId _ => orderId
  | .limitPoll orderId _ => orderId
  | .limitExpire orderId => orderId
  | .stopPoll orderId _ => orderId
  | .stopLimitPoll orderId _ => orderId
  | .icebergSlice orderId _ _ _ _ _ => orderId
  | .twapSlice orderId _ _ _ _ _ => orderId
  | .vwapSlice orderId _ _ _ _ _ => orderId

/-- Tasks whose firing can record a fill (everything except the
time-in-force expiry timeout). -/
def Task.fillCap : Task → Bool
  | .limitExpire _ => false
  | _ => true

/-- Recognizer for the expiry timeout of `processLimitOrder`. -/
def Task.isExpire : Task → Bool
  | .limitExpire _ => true
  | _ => false

/-- Recognizer for the polling interval of `processLimitOrder`. -/
def Task.isPoll : Task → Bool
  | .limitPoll _ _ => true
  | _ => false

/-- The mutable state of the `OrderManagementSystem` class: the order
ledger, the append-only trade ledger, the id counters and the scheduled
timer callbacks; `now` is the wall clock stamped onto new records. -/
structure OMS where
  orders : List Order
  trades : List Trade
  tasks : List Task
  orderIdCounter : ℕ
  tradeIdCounter : ℕ
  now : ℕ
deriving DecidableEq, Repr

/-- The freshly constructed system (`orderIdCounter = 1`, empty ledgers). -/
def OMS.init : OMS := ⟨[], [], [], 1, 1, 0⟩

/-- The `getOrder` query: `this.orders.get(orderId)`. -/
def getOrder (s : OMS) (orderId : ℕ) : Option Order :=
  s.orders.find? (fun o => o.id = orderId)

/-- The `this.orders.set(order.id, order)` update: replace the entry with
the same id, or append a new entry. -/
def setOrder (s : OMS) (o : Order) : OMS :=
  if s.orders.any (fun x => x.id = o.id) then
    { s with orders := s.orders.map (fun x => if x.id = o.id then o else x) }
  else
    { s with orders := s.orders ++ [o] }

/-- The `createTrade` helper: append one immutable `Trade`. -/
def createTrade (s : OMS) (order : Order) (quantity : ℕ) (price : ℚ) (venue : Venue) : OMS :=
  let trade : Trade :=
    { id := s.tradeIdCounter
      orderId := order.id
      symbol := order.symbol
      side := order.side
      quantity := quantity
      price := price
      timestamp := s.now
      commission := calculateCommission quantity price venue
      venue := venue }
  { s with trades := s.trades ++ [trade], tradeIdCounter := s.tradeIdCounter + 1 }

/-- The `executeTrade` fill recorder: append a trade, bump the cumulative
fill, recompute the volume-weighted average fill price, accrue commission
and set the status (`FILLED` when `fillQuantity >= quantity`). -/
def executeTrade (s : OMS) (order : Order) (quantity : ℕ) (price : ℚ) (venue : Venue) : OMS :=
  let s1 := createTrade s order quantity price venue
  let fillQuantity := order.fillQuantity + quantity
  let avgFillPrice :=
    (order.avgFillPrice * ((fillQuantity - quantity : ℕ) : ℚ) + price * (quantity : ℚ)) /
      (fillQuantity : ℚ)
  let commission := order.commission + calculateCommission quantity price venue
  let status : OrderStatus :=
    if fillQuantity ≥ order.quantity then .FILLED else .PARTIALLY_FILLED
  setOrder s1
    { order with
      fillQuantity := fillQuantity
      avgFillPrice := avgFillPrice
      commission := commission
      status := status }

/-- The `preTradeRiskCheck` validator.  `order.price || 100` and
`if (order.price)` follow JS truthiness: an absent or zero price falls back
to / skips the collar.  The velocity window filters the ledger on
`Date.now() - timestamp < 1000`; in `ℕ` the truncated subtraction agrees
with the JS comparison (a negative difference also passes `< 1000`). -/
def preTradeRiskCheck (s : OMS) (order : Order) : Bool :=
  if order.quantity > 50000 then false
  else
    let referencePrice : ℚ :=
      match order.price with
      | some p => if p = 0 then 100 else p
      | none => 100
    if (order.quantity : ℚ) * referencePrice > 5000000 then false
    else
      let collarViolated : Bool :=
        match order.price with
        | some p => if p = 0 then false else decide (|p - 100| / 100 > 1/10)
        | none => false
      if collarViolated then false
      else if (s.orders.filter (fun o => s.now - o.timestamp < 1000)).length > 10 then false
      else true

/-- The order record built at the top of `submitOrder` (status `PENDING`,
zero fill fields, fresh id from the counter). -/
def mkOrder (s : OMS) (req : OrderRequest) : Order :=
  { id := s.orderIdCounter
    symbol := req.symbol
    side := req.side
    type := req.type
    quantity := req.quantity
    price := req.price
    stopPrice := req.stopPrice
    displayQuantity := req.displayQuantity
    timeInForce := req.timeInForce
    status := .PENDING
    fillQuantity := 0
    avgFillPrice := 0
    commission := 0
    timestamp := s.now }

/-- The timers installed by `processOrder` for an accepted order, per order
type: `processMarketOrder` arms one fill timeout, `processLimitOrder` arms
the polling interval plus the time-in-force timeout, the stop variants arm
a trigger-polling interval, and the slicing algorithms arm their first
slice callback carrying the closure state.  `displayQuantity ||
Math.floor(quantity / 10)` follows JS truthiness (zero falls back too). -/
def dispatchTasks (s : OMS) (order : Order) (venue : Venue) (r : SubmitRand) : OMS :=
  match order.type with
  | .MARKET => { s with tasks := s.tasks ++ [.marketFill order.id venue] }
  | .LIMIT => { s with tasks := s.tasks ++ [.limitPoll order.id venue, .limitExpire order.id] }
  | .STOP => { s with tasks := s.tasks ++ [.stopPoll order.id venue] }
  | .STOP_LIMIT => { s with tasks := s.tasks ++ [.stopLimitPoll order.id venue] }
  | .ICEBERG =>
    let displayQuantity :=
      match order.displayQuantity with
      | some d => if d = 0 then order.quantity / 10 else d
      | none => order.quantity / 10
    { s with tasks := s.tasks ++ [.icebergSlice order.id venue displayQuantity order.quantity 0 0] }
  | .TWAP =>
    { s with tasks := s.tasks ++ [.twapSlice order.id venue (order.quantity / 20) 0 0 0] }
  | .VWAP =>
    let historicalVWAP := calculateHistoricalVWAP r.hVwapU
    { s with tasks := s.tasks ++ [.vwapSlice order.id venue historicalVWAP 0 0 0] }

/-- The `submitOrder` entry point: assign the next id, run the risk gate;
on failure record the order as `REJECTED`; on success select a venue,
record the order as `SUBMITTED` (as `processOrder` sets synchronously) and
arm the matching execution algorithm.  Returns the order id. -/
def submitOrder (log : ℚ → ℚ) (s : OMS) (req : OrderRequest) (r : SubmitRand) : ℕ × OMS :=
  let order := mkOrder s req
  let s0 := { s with orderIdCounter := s.orderIdCounter + 1 }
  if preTradeRiskCheck s0 order then
    let selectedVenue := selectOptimalVenue log r order
    let order1 := { order with status := OrderStatus.SUBMITTED }
    (order.id, dispatchTasks (setOrder s0 order1) order1 selectedVenue r)
  else
    (order.id, setOrder s0 { order with status := OrderStatus.REJECTED })

/-- Ghost observer of `submitOrder`'s control flow: the venue handed to
`processOrder`, or `none` when the risk gate rejects before the venue
scorer runs. -/
def submitVenueChoice (log : ℚ → ℚ) (s : OMS) (req : OrderRequest) (r : SubmitRand) :
    Option Venue :=
  let order := mkOrder s req
  let s0 := { s with orderIdCounter := s.orderIdCounter + 1 }
  if preTradeRiskCheck s0 order then some (selectOptimalVenue log r order) else none

/-- The `cancelOrder` entry point: succeeds exactly on an existing order in
status `SUBMITTED`; it does not clear any armed timer. -/
def cancelOrder (s : OMS) (orderId : ℕ) : Bool × OMS :=
  match getOrder s orderId with
  | some o =>
    if o.status = OrderStatus.SUBMITTED then
      (true, setOrder s { o with status := OrderStatus.CANCELLED })
    else (false, s)
  | none => (false, s)

/-- Fire one timer callback.  Returns the updated ledgers, the replacement
tasks for the fired slot (an interval that stays armed returns itself) and,
for the expiry timeout, the order id whose polling interval
`clearInterval` removes. -/
def fireTask (log : ℚ → ℚ) (s : OMS) (t : Task) (r : Rand) : OMS × List Task × Option ℕ :=
  match t with
  | .marketFill orderId venue =>
    match getOrder s orderId with
    | none => (s, [], none)
    | some order =>
      let marketPrice := 100 + (r.u1 - 1/2) * 10
      let slippage := calculateSlippage log order venue
      let fillPrice :=
        if order.side = .BUY then marketPrice * (1 + slippage)
        else marketPrice * (1 - slippage)
      (executeTrade s order order.quantity fillPrice venue, [], none)
  | .limitPoll orderId venue =>
    match getOrder s orderId with
    | none => (s, [t], none)
    | some order =>
      let currentPrice := simulateMarketPrice r.u1
      let shouldFill :=
        if order.side = .BUY then currentPrice ≤ order.price.getD 0
        else currentPrice ≥ order.price.getD 0
      if shouldFill ∧ r.u2 > 3/10 then
        (executeTrade s order order.quantity (order.price.getD 0) venue, [], none)
      else (s, [t], none)
  | .limitExpire orderId =>
    match getOrder s orderId with
    | none => (s, [], some orderId)
    | some order =>
      if order.status = .SUBMITTED then
        (setOrder s { order with status := .CANCELLED }, [], some orderId)
      else (s, [], some orderId)
  | .stopPoll orderId venue =>
    match getOrder s orderId with
    | none => (s, [t], none)
    | some order =>
      let currentPrice := simulateMarketPrice r.u1
      let shouldTrigger :=
        if order.side = .BUY then currentPrice ≥ order.stopPrice.getD 0
        else currentPrice ≤ order.stopPrice.getD 0
      if shouldTrigger then
        (setOrder s { order with type := .MARKET }, [.marketFill orderId venue], none)
      else (s, [t], none)
  | .stopLimitPoll orderId venue =>
    match getOrder s orderId with
    | none => (s, [t], none)
    | some order =>
      let currentPrice := simulateMarketPrice r.u1
      let shouldTrigger :=
        if order.side = .BUY then currentPrice ≥ order.stopPrice.getD 0
        else currentPrice ≤ order.stopPrice.getD 0
      if shouldTrigger then
        (setOrder s { order with type := .LIMIT },
          [.limitPoll orderId venue, .limitExpire orderId], none)
      else (s, [t], none)
  | .icebergSlice orderId venue displayQuantity remaining totalFillQuantity totalFillPrice =>
    match getOrder s orderId with
    | none => (s, [], none)
    | some order =>
      if remaining = 0 then (s, [], none)
      else
        let sliceQuantity := min displayQuantity remaining
        let fillPrice := order.price.getD 0 + (r.u1 - 1/2) * (2/100)
        let fillQuantity := ⌊(sliceQuantity : ℚ) * (8/10 + r.u2 * (2/10))⌋₊
        if fillQuantity = 0 then (s, [], none)
        else
          let totalFillPrice1 := totalFillPrice + fillPrice * (fillQuantity : ℚ)
          let totalFillQuantity1 := totalFillQuantity + fillQuantity
          let remaining1 := remaining - fillQuantity
          let s1 := createTrade s order fillQuantity fillPrice venue
          if remaining1 > 0 then
            (s1, [.icebergSlice orderId venue displayQuantity remaining1 totalFillQuantity1
              totalFillPrice1], none)
          else
            (setOrder s1
              { order with
                fillQuantity := totalFillQuantity1
                avgFillPrice := totalFillPrice1 / (totalFillQuantity1 : ℚ)
                status :=
                  if totalFillQuantity1 = order.quantity then .FILLED else .PARTIALLY_FILLED },
              [], none)
  | .twapSlice orderId venue sliceSize executedQuantity totalValue sliceCount =>
    match getOrder s orderId with
    | none => (s, [], none)
    | some order =>
      if sliceCount ≥ 20 then (s, [], none)
      else
        let currentSliceSize :=
          if sliceCount = 19 then order.quantity - executedQuantity else sliceSize
        let marketPrice := simulateMarketPrice r.u1
        let slippage := calculateSlippage log { order with quantity := currentSliceSize } venue
        let fillPrice :=
          if order.side = .BUY then marketPrice * (1 + slippage)
          else marketPrice * (1 - slippage)
        let executedQuantity1 := executedQuantity + currentSliceSize
        let totalValue1 := totalValue + fillPrice * (currentSliceSize : ℚ)
        let sliceCount1 := sliceCount + 1
        let s1 := createTrade s order currentSliceSize fillPrice venue
        if sliceCount1 < 20 then
          (s1, [.twapSlice orderId venue sliceSize executedQuantity1 totalValue1 sliceCount1],
            none)
        else
          (setOrder s1
            { order with
              fillQuantity := executedQuantity1
              avgFillPrice := totalValue1 / (executedQuantity1 : ℚ)
              status := .FILLED }, [], none)
  | .vwapSlice orderId venue historicalVWAP executedQuantity totalValue sliceCount =>
    match getOrder s orderId with
    | none => (s, [], none)
    | some order =>
      if sliceCount ≥ 15 then (s, [], none)
      else
        let volumeWeight := getVolumeWeight sliceCount 15
        let sliceSize := ⌊(order.quantity : ℚ) * volumeWeight⌋₊
        let marketPrice := simulateMarketPrice r.u1
        let vwapDeviation := (marketPrice - historicalVWAP) / historicalVWAP
        let aggressiveness : ℚ := if |vwapDeviation| > 2/100 then 8/10 else 5/10
        let fillPrice := calculateVWAPFillPrice marketPrice order.side aggressiveness
        let executedQuantity1 := executedQuantity + sliceSize
        let totalValue1 := totalValue + fillPrice * (sliceSize : ℚ)
        let sliceCount1 := sliceCount + 1
        let s1 := createTrade s order sliceSize fillPrice venue
        if sliceCount1 < 15 ∧ executedQuantity1 < order.quantity then
          (s1, [.vwapSlice orderId venue historicalVWAP executedQuantity1 totalValue1
            sliceCount1], none)
        else
          (setOrder s1
            { order with
              fillQuantity := executedQuantity1
              avgFillPrice := totalValue1 / (executedQuantity1 : ℚ)
              status :=
                if executedQuantity1 = order.quantity then .FILLED else .PARTIALLY_FILLED },
            [], none)

/-- One externally visible action on the system: a client call
(`submitOrder`/`cancelOrder`), the firing of the i-th scheduled timer, or a
clock tick. -/
inductive Event where
  | submit (req : OrderRequest) (r : SubmitRand)
  | cancel (orderId : ℕ)
  | runTask (i : ℕ) (r : Rand)
  | tick

/-- Validity of the random draws an event consumes (`Math.random()` always
lands in `[0, 1)`). -/
def Event.Valid : Event → Prop
  | .submit _ r =>
    (∀ v, 0 ≤ r.liqU v ∧ r.liqU v < 1 ∧ 0 ≤ r.fillU v ∧ r.fillU v < 1) ∧
      0 ≤ r.hVwapU ∧ r.hVwapU < 1
  | .runTask _ r => r.Valid
  | _ => True

/-- Small-step semantics of the system. -/
def stepEvent (log : ℚ → ℚ) (s : OMS) : Event → OMS
  | .submit req r => (submitOrder log s req r).2
  | .cancel orderId => (cancelOrder s orderId).2
  | .runTask i r =>
    match s.tasks.get? i with
    | none => s
    | some t =>
      let fired := fireTask log s t r
      let newTasks := s.tasks.take i ++ fired.2.1 ++ s.tasks.drop (i + 1)
      let newTasks :=
        match fired.2.2 with
        | some orderId =>
          newTasks.filter (fun t' =>
            !(match t' with | .limitPoll oid _ => oid = orderId | _ => false))
        | none => newTasks
      { fired.1 with tasks := newTasks }
  | .tick => { s with now := s.now + 1 }

/-- Reflexive-transitive closure of `stepEvent` over valid events. -/
inductive Steps (log : ℚ → ℚ) : OMS → OMS → Prop where
  | refl (s : OMS) : Steps log s s
  | tail {s1 s2 : OMS} (e : Event) : Steps log s1 s2 → e.Valid → Steps log s1 (stepEvent log s2 e)

/-- Cumulative executed quantity of the first `k` VWAP slices for a
requested quantity `q` under the 15-slice profile. -/
def vwapExec (q k : ℕ) : ℕ :=
  (Finset.range k).sum (fun i => ⌊(q : ℚ) * getVolumeWeight i 15⌋₊)

/-- Per-task invariant tying a scheduled callback's closure state to its
order: a fill-recording callback only ever runs before any fill has been
booked onto the order, and the slicing counters agree with the order's
requested quantity. -/
def TaskOrderInv : Task → Order → Prop
  | .marketFill _ _, o => o.fillQuantity = 0
  | .limitPoll _ _, o => o.fillQuantity = 0
  | .limitExpire _, _ => True
  | .stopPoll _ _, o => o.fillQuantity = 0
  | .stopLimitPoll _ _, o => o.fillQuantity = 0
  | .icebergSlice _ _ _ remaining totalFillQuantity _, o =>
    o.fillQuantity = 0 ∧ totalFillQuantity + remaining = o.quantity
  | .twapSlice _ _ sliceSize executedQuantity _ sliceCount, o =>
    o.fillQuantity = 0 ∧ sliceSize = o.quantity / 20 ∧
      executedQuantity = sliceCount * (o.quantity / 20) ∧ sliceCount < 20
  | .vwapSlice _ _ _ executedQuantity _ sliceCount, o =>
    o.fillQuantity = 0 ∧ executedQuantity = vwapExec o.quantity sliceCount ∧ sliceCount < 15

/-- Global invariant of every reachable OMS state. -/
structure Inv (s : OMS) : Prop where
  idLt : ∀ o ∈ s.orders, o.id < s.orderIdCounter
  idNodup : (s.orders.map Order.id).Nodup
  fillLe : ∀ o ∈ s.orders, o.fillQuantity ≤ o.quantity
  filledEq : ∀ o ∈ s.orders, o.status = .FILLED → o.fillQuantity = o.quantity
  eqFilled : ∀ o ∈ s.orders, o.fillQuantity = o.quantity → 0 < o.quantity → o.status = .FILLED
  zeroFill : ∀ o ∈ s.orders,
    o.status = .SUBMITTED ∨ o.status = .REJECTED ∨ o.status = .CANCELLED → o.fillQuantity = 0
  pfNoTask : ∀ o ∈ s.orders, o.status = .PARTIALLY_FILLED → ∀ t ∈ s.tasks, t.oid ≠ o.id
  taskOrder : ∀ t ∈ s.tasks,
    ∃ o ∈ s.orders, o.id = t.oid ∧ o.status ≠ .REJECTED ∧ TaskOrderInv t o
  fillCapUnique : ∀ oid : ℕ, s.tasks.countP (fun t => t.fillCap && t.oid == oid) ≤ 1
  expireShape : ∀ t ∈ s.tasks, t.isExpire = true →
    ∀ t' ∈ s.tasks, t'.oid = t.oid → t'.isExpire = true ∨ t'.isPoll = true
  tradeOrder : ∀ tr ∈ s.trades, ∃ o ∈ s.orders, o.id = tr.orderId ∧ o.status ≠ .REJECTED

/-- Intermediate machine state of a running TWAP order: the ledger holds
the single order, the child trades booked so far, and the rescheduled slice
callback. -/
def twapMid (o : Order) (v : Venue) (trs : List Trade) (tv : ℚ) (k c2 n : ℕ) : OMS :=
  { orders := [o]
    trades := trs
    tasks := [.twapSlice o.id v (o.quantity / 20) (k * (o.quantity / 20)) tv k]
    orderIdCounter := 2
    tradeIdCounter := c2
    now := n }

/-- Fill price of one TWAP slice of size `sz` under draw `r`. -/
def twapFillPrice (log : ℚ → ℚ) (r : Rand) (o : Order) (v : Venue) (sz : ℕ) : ℚ :=
  if o.side = .BUY then
    simulateMarketPrice r.u1 * (1 + calculateSlippage log { o with quantity := sz } v)
  else
    simulateMarketPrice r.u1 * (1 - calculateSlippage log { o with quantity := sz } v)

/-- The state reached from the fresh system by submitting one 100-share
market order under fixed random draws: a concrete reachable state used by
the witnesses. -/
def oneSubmitState : OMS :=
  stepEvent (fun _ => 0) OMS.init
    (.submit ⟨"AAPL", .BUY, .MARKET, 100, none, none, none, .GTC⟩
      ⟨fun _ => 1/2, fun _ => 1/2, 1/2⟩)

/-- Frame facts of one ledger mutation made on behalf of the order `oid`:
every other order survives untouched, every new trade carries `oid`, and
the order-id counter is unchanged. -/
def FrameOK (s s' : OMS) (oid : ℕ) : Prop :=
  (∀ x ∈ s.orders, x.id ≠ oid → x ∈ s'.orders) ∧
  (∀ tr ∈ s'.trades, tr ∈ s.trades ∨ tr.orderId = oid) ∧
  s'.orderIdCounter = s.orderIdCounter

/-- What persists of a rejected submission: the `REJECTED` order stays in
the ledger under its id, the id stays below the counter, and no trade
carries it. -/
def RejectedStays (oid : ℕ) (s : OMS) : Prop :=
  (∃ o ∈ s.orders, o.id = oid ∧ o.status = .REJECTED) ∧
  oid < s.orderIdCounter ∧
  ∀ tr ∈ s.trades, tr.orderId ≠ oid

/-- Which order fields an execution callback may rewrite: every identity
field except `type` is preserved exactly; `type` is either preserved or
rewritten to `MARKET` (stop trigger) or to `LIMIT` (stop-limit trigger). -/
def IdPreserved (o o' : Order) : Prop :=
  o'.id = o.id ∧ o'.symbol = o.symbol ∧ o'.side = o.side ∧
  o'.quantity = o.quantity ∧ o'.price = o.price ∧ o'.stopPrice = o.stopPrice ∧
  o'.displayQuantity = o.displayQuantity ∧ o'.timeInForce = o.timeInForce ∧
  (o'.type = o.type ∨ o'.type = .MARKET ∨ o'.type = .LIMIT)

/-- The recorded limit order, the venue chosen for it and the state after
submitting it on the fresh system: concrete data for the C8 witness. -/
def limitOrder1 : Order :=
  { id := 1
    symbol := "AAPL"
    side := .BUY
    type := .LIMIT
    quantity := 500
    price := some 100
    stopPrice := none
    displayQuantity := none
    timeInForce := .GTC
    status := .SUBMITTED
    fillQuantity := 0
    avgFillPrice := 0
    commission := 0
    timestamp := 0 }

def limitVenue1 : Venue :=
  selectOptimalVenue (fun _ => 0) ⟨fun _ => 1/2, fun _ => 1/2, 1/2⟩
    (mkOrder OMS.init ⟨"AAPL", .BUY, .LIMIT, 500, some 100, none, none, .GTC⟩)

def limitState1 : OMS :=
  { orders := [limitOrder1]
    trades := []
    tasks := [.limitPoll 1 limitVenue1, .limitExpire 1]
    orderIdCounter := 2
    tradeIdCounter := 1
    now := 0 }

theorem insertByScore_length (x : Venue × ℚ) (l : List (Venue × ℚ)) :
    (insertByScore x l).length = l.length + 1 := by
  induction l with
  | nil => rfl
  | cons y ys ih =>
    unfold insertByScore
    split
    · simp
    · simp [ih]

theorem sortByScoreDesc_length (l : List (Venue × ℚ)) :
    (sortByScoreDesc l).length = l.length := by
  induction l with
  | nil => rfl
  | cons x xs ih => simp [sortByScoreDesc, insertByScore_length, ih]

theorem firstMaxByScore_ne_none (x : Venue × ℚ) (xs : List (Venue × ℚ)) :
    firstMaxByScore (x :: xs) ≠ none := by
  unfold firstMaxByScore
  rcases firstMaxByScore xs with _ | y
  · simp
  · simp only []
    split <;> simp

theorem sortByScoreDesc_head (l : List (Venue × ℚ)) :
    (sortByScoreDesc l).head? = firstMaxByScore l := by
  induction l with
  | nil => rfl
  | cons x xs ih =>
    unfold sortByScoreDesc firstMaxByScore
    rcases hs : sortByScoreDesc xs with _ | ⟨y, ys⟩
    · have hx : xs = [] := by
        have := sortByScoreDesc_length xs
        rw [hs] at this
        exact List.eq_nil_of_length_eq_zero this.symm
      subst hx
      simp [insertByScore, firstMaxByScore]
    · rw [hs] at ih
      simp only [List.head?] at ih
      rw [← ih]
      unfold insertByScore
      by_cases h : y.2 > x.2
      · have hnot : ¬ x.2 ≥ y.2 := not_le.mpr h
        simp [hnot, h]
      · have hge : x.2 ≥ y.2 := not_lt.mp h
        simp [hge, h]

theorem firstMaxByScore_mem {l : List (Venue × ℚ)} {m : Venue × ℚ}
    (h : firstMaxByScore l = some m) : m ∈ l := by
  induction l generalizing m with
  | nil => simp [firstMaxByScore] at h
  | cons x xs ih =>
    unfold firstMaxByScore at h
    rcases hf : firstMaxByScore xs with _ | y <;> rw [hf] at h
    · simp at h
      rw [← h]
      exact List.mem_cons_self x xs
    · simp only [] at h
      split at h
      · injection h with h
        right
        rw [← h]
        exact ih hf
      · injection h with h
        rw [← h]
        exact List.mem_cons_self x xs

theorem firstMaxByScore_isMax {l : List (Venue × ℚ)} {m : Venue × ℚ}
    (h : firstMaxByScore l = some m) : ∀ z ∈ l, z.2 ≤ m.2 := by
  induction l generalizing m with
  | nil => simp [firstMaxByScore] at h
  | cons x xs ih =>
    unfold firstMaxByScore at h
    rcases hf : firstMaxByScore xs with _ | y <;> rw [hf] at h
    · have hxs : xs = [] := by
        cases xs with
        | nil => rfl
        | cons a as => exact absurd hf (firstMaxByScore_ne_none a as)
      subst hxs
      simp at h
      intro z hz
      simp at hz
      rw [hz, h]
    · simp only [] at h
      split at h
      case isTrue hgt =>
        injection h with h
        subst h
        intro z hz
        rcases List.mem_cons.mp hz with hz | hz
        · rw [hz]; exact le_of_lt hgt
        · exact ih hf z hz
      case isFalse hgt =>
        injection h with h
        subst h
        intro z hz
        rcases List.mem_cons.mp hz with hz | hz
        · rw [hz]
        · exact le_trans (ih hf z hz) (not_lt.mp hgt)

theorem firstMaxByScore_earliest {l : List (Venue × ℚ)} {m : Venue × ℚ}
    (h : firstMaxByScore l = some m) :
    ∃ i, l.get? i = some m ∧ ∀ j < i, ∀ z, l.get? j = some z → z.2 < m.2 := by
  induction l generalizing m with
  | nil => simp [firstMaxByScore] at h
  | cons x xs ih =>
    unfold firstMaxByScore at h
    rcases hf : firstMaxByScore xs with _ | y <;> rw [hf] at h
    · simp at h
      refine ⟨0, by simp [h], ?_⟩
      intro j hj
      omega
    · simp only [] at h
      split at h
      case isTrue hgt =>
        injection h with h
        subst h
        obtain ⟨i, hi, hlt⟩ := ih hf
        refine ⟨i + 1, by simpa using hi, ?_⟩
        intro j hj z hz
        cases j with
        | zero =>
          rw [List.get?_cons_zero] at hz
          injection hz with hz
          rw [← hz]
          exact hgt
        | succ j' =>
          rw [List.get?_cons_succ] at hz
          exact hlt j' (by omega) z hz
      case isFalse hgt =>
        injection h with h
        subst h
        refine ⟨0, by simp, ?_⟩
        intro j hj
        omega

theorem getOrder_mem {s : OMS} {oid : ℕ} {o : Order} (h : getOrder s oid = some o) :
    o ∈ s.orders ∧ o.id = oid := by
  unfold getOrder at h
  refine ⟨List.mem_of_find?_eq_some h, ?_⟩
  have := List.find?_some h
  simpa using this

theorem find?_id_eq_of_mem {l : List Order} (hnd : (l.map Order.id).Nodup) {o : Order}
    (ho : o ∈ l) : l.find? (fun x => x.id = o.id) = some o := by
  induction l with
  | nil => simp at ho
  | cons a as ih =>
    have hnd2 := List.nodup_cons.mp (show (a.id :: as.map Order.id).Nodup by simpa using hnd)
    rcases List.mem_cons.mp ho with h | h
    · subst h
      exact List.find?_cons_of_pos as (by simp)
    · have hne : ¬ (a.id = o.id) := by
        intro he
        exact hnd2.1 (he ▸ List.mem_map_of_mem Order.id h)
      rw [List.find?_cons_of_neg as (by simpa using hne)]
      exact ih hnd2.2 h

theorem getOrder_eq_of_mem {s : OMS} (hnd : (s.orders.map Order.id).Nodup) {o : Order}
    (ho : o ∈ s.orders) : getOrder s o.id = some o :=
  find?_id_eq_of_mem hnd ho

theorem find?_map_set {l : List Order} {o : Order} :
    (∃ x ∈ l, x.id = o.id) →
    (l.map (fun x => if x.id = o.id then o else x)).find? (fun x => x.id = o.id) = some o := by
  intro hx
  induction l with
  | nil => simp at hx
  | cons a as ih =>
    by_cases h : a.id = o.id
    · simp only [List.map_cons, if_pos h]
      exact List.find?_cons_of_pos _ (by simp)
    · simp only [List.map_cons, if_neg h]
      rw [List.find?_cons_of_neg _ (by simpa using h)]
      apply ih
      rcases hx with ⟨x, hmem, hid⟩
      rcases List.mem_cons.mp hmem with hx' | hx'
      · exact absurd (hx' ▸ hid) h
      · exact ⟨x, hx', hid⟩

theorem find?_map_set_other {l : List Order} {o : Order} {oid : ℕ} (hne : oid ≠ o.id) :
    (l.map (fun x => if x.id = o.id then o else x)).find? (fun x => x.id = oid) =
      l.find? (fun x => x.id = oid) := by
  induction l with
  | nil => rfl
  | cons a as ih =>
    by_cases h : a.id = o.id
    · simp only [List.map_cons, if_pos h]
      have h1 : ¬ (o.id = oid) := fun he => hne he.symm
      have h2 : ¬ (a.id = oid) := by rw [h]; exact h1
      rw [List.find?_cons_of_neg _ (by simpa using h1),
        List.find?_cons_of_neg _ (by simpa using h2)]
      exact ih
    · simp only [List.map_cons, if_neg h]
      by_cases h2 : a.id = oid
      · rw [List.find?_cons_of_pos _ (by simpa using h2),
          List.find?_cons_of_pos _ (by simpa using h2)]
      · rw [List.find?_cons_of_neg _ (by simpa using h2),
          List.find?_cons_of_neg _ (by simpa using h2)]
        exact ih

theorem getOrder_setOrder_self (s : OMS) (o : Order) :
    getOrder (setOrder s o) o.id = some o := by
  unfold getOrder setOrder
  split
  case isTrue h =>
    simp only []
    apply find?_map_set
    rcases List.any_eq_true.mp h with ⟨x, hmem, hid⟩
    exact ⟨x, hmem, by simpa using hid⟩
  case isFalse h =>
    simp only [List.find?_append]
    have hnone : s.orders.find? (fun x => x.id = o.id) = none := by
      rw [List.find?_eq_none]
      intro x hx
      have := (List.any_eq_true.not.mp h)
      push_neg at this
      simpa using this x hx
    rw [hnone]
    simp [List.find?]

theorem getOrder_setOrder_other (s : OMS) (o : Order) {oid : ℕ} (hne : oid ≠ o.id) :
    getOrder (setOrder s o) oid = getOrder s oid := by
  unfold getOrder setOrder
  split
  · exact find?_map_set_other hne
  · simp only [List.find?_append]
    have hnone : List.find? (fun x => x.id = oid) [o] = none := by
      rw [List.find?_cons_of_neg _ (by simpa using fun he => hne he.symm)]
      rfl
    rw [hnone, Option.or_none]

theorem mem_setOrder {s : OMS} {o x : Order} (hx : x ∈ (setOrder s o).orders) :
    x = o ∨ x ∈ s.orders := by
  unfold setOrder at hx
  split at hx
  · simp only [] at hx
    rcases List.mem_map.mp hx with ⟨y, hy, he⟩
    by_cases h : y.id = o.id
    · left; rw [← he, if_pos h]
    · right; rw [← he, if_neg h]; exact hy
  · rcases List.mem_append.mp hx with h | h
    · right; exact h
    · left; simpa using h

theorem setOrder_map_id {s : OMS} {o : Order} (hex : ∃ x ∈ s.orders, x.id = o.id) :
    (setOrder s o).orders.map Order.id = s.orders.map Order.id := by
  unfold setOrder
  rcases hex with ⟨x, hmem, hid⟩
  rw [if_pos (List.any_eq_true.mpr ⟨x, hmem, by simpa using hid⟩)]
  simp only [List.map_map]
  apply List.map_congr_left
  intro a _
  by_cases h : a.id = o.id
  · simp [h]
  · simp [h]

theorem setOrder_map_id_fresh {s : OMS} {o : Order} (hfr : ∀ x ∈ s.orders, x.id ≠ o.id) :
    (setOrder s o).orders.map Order.id = s.orders.map Order.id ++ [o.id] := by
  unfold setOrder
  rw [if_neg]
  · simp
  · intro h
    rcases List.any_eq_true.mp h with ⟨x, hmem, hid⟩
    exact hfr x hmem (by simpa using hid)

theorem get?_decomp {α : Type _} {l : List α} {i : ℕ} {t : α} (h : l.get? i = some t) :
    l = l.take i ++ t :: l.drop (i + 1) := by
  obtain ⟨hlen, hget⟩ := List.get?_eq_some.mp h
  have hgetElem : l[i] = t := hget
  conv_lhs => rw [← List.take_append_drop i l]
  rw [List.drop_eq_getElem_cons hlen, hgetElem]

theorem getVolumeWeight_nonneg (slice totalSlices : ℕ) : 0 ≤ getVolumeWeight slice totalSlices := by
  show 0 ≤ (((slice : ℚ) / (totalSlices : ℚ) - 1/2) ^ 2 * 4 + 1/2) / (totalSlices : ℚ)
  apply div_nonneg
  · positivity
  · exact Nat.cast_nonneg _

theorem vwapExec_succ (q k : ℕ) :
    vwapExec q (k + 1) = vwapExec q k + ⌊(q : ℚ) * getVolumeWeight k 15⌋₊ := by
  unfold vwapExec
  rw [Finset.sum_range_succ]

/-- Exact sum of the 15 U-shaped volume weights of the source. -/
theorem sumWeights15_eq :
    (Finset.range 15).sum (fun i => getVolumeWeight i 15) = 1129 / 1350 := by
  simp [Finset.sum_range_succ, getVolumeWeight]
  norm_num

theorem vwapExec_cast_le (q k : ℕ) (hk : k ≤ 15) :
    (vwapExec q k : ℚ) ≤ (q : ℚ) * (1129 / 1350) := by
  unfold vwapExec
  push_cast
  calc
    (Finset.range k).sum (fun i => (⌊(q : ℚ) * getVolumeWeight i 15⌋₊ : ℚ)) ≤
        (Finset.range k).sum (fun i => (q : ℚ) * getVolumeWeight i 15) := by
      apply Finset.sum_le_sum
      intro i _
      exact Nat.floor_le (mul_nonneg (Nat.cast_nonneg q) (getVolumeWeight_nonneg i 15))
    _ ≤ (Finset.range 15).sum (fun i => (q : ℚ) * getVolumeWeight i 15) := by
      apply Finset.sum_le_sum_of_subset_of_nonneg
      · exact Finset.range_subset.mpr hk
      · intro i _ _
        exact mul_nonneg (Nat.cast_nonneg q) (getVolumeWeight_nonneg i 15)
    _ = (q : ℚ) * (1129 / 1350) := by
      rw [← Finset.mul_sum, sumWeights15_eq]

theorem vwapExec_le (q k : ℕ) (hk : k ≤ 15) : vwapExec q k ≤ q := by
  have h := vwapExec_cast_le q k hk
  have h2 : ((q : ℚ)) * (1129 / 1350) ≤ (q : ℚ) := by
    have : (0 : ℚ) ≤ (q : ℚ) := by positivity
    nlinarith
  exact_mod_cast le_trans h h2

theorem Inv.init : Inv OMS.init := by
  constructor <;> simp [OMS.init]

theorem Task.fillCap_isExpire {t : Task} (h : t.fillCap = true) : t.isExpire = false := by
  cases t <;> simp_all [Task.fillCap, Task.isExpire]

theorem Task.isPoll_oid {t : Task} (h : t.isPoll = true) : ∃ v, t = .limitPoll t.oid v := by
  cases t <;> simp_all [Task.isPoll, Task.oid]

theorem Task.isPoll_fillCap {t : Task} (h : t.isPoll = true) : t.fillCap = true := by
  cases t <;> simp_all [Task.isPoll, Task.fillCap]

theorem Task.not_fillCap_isExpire {t : Task} (h : t.fillCap = false) : t.isExpire = true := by
  cases t <;> simp_all [Task.fillCap, Task.isExpire]

theorem mem_setOrder' {s : OMS} {o x : Order} (hx : x ∈ (setOrder s o).orders) :
    x = o ∨ (x ∈ s.orders ∧ x.id ≠ o.id) := by
  unfold setOrder at hx
  split at hx
  · simp only [] at hx
    rcases List.mem_map.mp hx with ⟨y, hy, he⟩
    by_cases h : y.id = o.id
    · left; rw [← he, if_pos h]
    · right
      refine ⟨?_, ?_⟩ <;> rw [← he, if_neg h]
      · exact hy
      · exact h
  case isFalse hany =>
    rcases List.mem_append.mp hx with h | h
    · right
      refine ⟨h, ?_⟩
      intro he
      exact (List.any_eq_true.not.mp hany) ⟨x, h, by simpa using he⟩
    · left; simpa using h

theorem mem_setOrder_keep {s : OMS} {o x : Order} (hx : x ∈ s.orders) (hne : x.id ≠ o.id) :
    x ∈ (setOrder s o).orders := by
  unfold setOrder
  split
  · simp only []
    rcases List.mem_map.mp (List.mem_map_of_mem (fun y => if y.id = o.id then o else y) hx)
      with ⟨y, _, _⟩
    have : (if x.id = o.id then o else x) = x := if_neg hne
    rw [← this]
    exact List.mem_map_of_mem _ hx
  · exact List.mem_append.mpr (Or.inl hx)

theorem mem_setOrder_self (s : OMS) (o : Order) : o ∈ (setOrder s o).orders := by
  have h := getOrder_setOrder_self s o
  exact (getOrder_mem h).1

/-- Shrinking the task list (and touching only `now`/`tradeIdCounter`-free
fields of nothing else) preserves the invariant. -/
theorem inv_tasks_sublist {s : OMS} (hInv : Inv s) {l : List Task} (hl : List.Sublist l s.tasks) :
    Inv { s with tasks := l } := by
  constructor
  · exact hInv.idLt
  · exact hInv.idNodup
  · exact hInv.fillLe
  · exact hInv.filledEq
  · exact hInv.eqFilled
  · exact hInv.zeroFill
  · intro o ho hpf t ht
    exact hInv.pfNoTask o ho hpf t (hl.subset ht)
  · intro t ht
    exact hInv.taskOrder t (hl.subset ht)
  · intro oid
    exact le_trans (hl.countP_le _) (hInv.fillCapUnique oid)
  · intro t ht he t' ht' hoid
    exact hInv.expireShape t (hl.subset ht) he t' (hl.subset ht') hoid
  · exact hInv.tradeOrder

theorem countP_slot {s : OMS} {i : ℕ} {t : Task} (hget : s.tasks.get? i = some t)
    (p : Task → Bool) :
    s.tasks.countP p =
      (s.tasks.take i).countP p + (s.tasks.drop (i + 1)).countP p + (if p t then 1 else 0) := by
  conv_lhs => rw [get?_decomp hget]
  rw [List.countP_append, List.countP_cons]
  omega

theorem mem_slot {s : OMS} {i : ℕ} {t' : Task}
    (hmem : t' ∈ s.tasks.take i ++ s.tasks.drop (i + 1)) : t' ∈ s.tasks := by
  rcases List.mem_append.mp hmem with h | h
  · exact (List.take_sublist i s.tasks).subset h
  · exact (List.drop_sublist (i + 1) s.tasks).subset h

theorem slot_sublist (s : OMS) (i : ℕ) {t : Task} (hget : s.tasks.get? i = some t) :
    List.Sublist (s.tasks.take i ++ s.tasks.drop (i + 1)) s.tasks := by
  conv_rhs => rw [get?_decomp hget]
  exact List.Sublist.append_left (List.Sublist.cons t (List.Sublist.refl _)) (s.tasks.take i)

/-- A fired fill-capable task leaves no other fill-capable task for the
same order in the remaining slots. -/
theorem no_other_fillCap {s : OMS} (hInv : Inv s) {i : ℕ} {t : Task}
    (hget : s.tasks.get? i = some t) (hcap : t.fillCap = true) {t' : Task}
    (hmem : t' ∈ s.tasks.take i ++ s.tasks.drop (i + 1)) (hoid : t'.oid = t.oid) :
    t'.fillCap = false := by
  by_contra hcontra
  have hcap' : t'.fillCap = true := by
    cases h : t'.fillCap
    · exact absurd h hcontra
    · rfl
  have hcount := countP_slot hget (fun x => x.fillCap && x.oid == t.oid)
  have h1 : (if (t.fillCap && t.oid == t.oid) = true then 1 else 0) = 1 := by
    simp [hcap]
  have hmem' : 1 ≤ (s.tasks.take i).countP (fun x => x.fillCap && x.oid == t.oid) +
      (s.tasks.drop (i + 1)).countP (fun x => x.fillCap && x.oid == t.oid) := by
    have hp : (t'.fillCap && t'.oid == t.oid) = true := by
      simp [hcap', hoid]
    rcases List.mem_append.mp hmem with h | h
    · have h3 : 0 < (s.tasks.take i).countP (fun x => x.fillCap && x.oid == t.oid) :=
        List.countP_pos_iff.mpr ⟨t', h, hp⟩
      omega
    · have h3 : 0 < (s.tasks.drop (i + 1)).countP (fun x => x.fillCap && x.oid == t.oid) :=
        List.countP_pos_iff.mpr ⟨t', h, hp⟩
      omega
  have := hInv.fillCapUnique t.oid
  rw [hcount] at this
  omega

/-- A fired non-poll fill-capable task (a market fill, a stop trigger poll
or a slicing callback) is the only task of its order. -/
theorem no_other_tasks {s : OMS} (hInv : Inv s) {i : ℕ} {t : Task}
    (hget : s.tasks.get? i = some t) (hcap : t.fillCap = true) (hpoll : t.isPoll = false)
    {t' : Task} (hmem : t' ∈ s.tasks.take i ++ s.tasks.drop (i + 1)) :
    t'.oid ≠ t.oid := by
  intro hoid
  have hcap' := no_other_fillCap hInv hget hcap hmem hoid
  have hexp : t'.isExpire = true := Task.not_fillCap_isExpire hcap'
  have := hInv.expireShape t' (mem_slot hmem) hexp t (List.get?_mem hget) hoid.symm
  rcases this with h | h
  · rw [Task.fillCap_isExpire hcap] at h
    exact Bool.noConfusion h
  · rw [hpoll] at h
    exact Bool.noConfusion h

theorem Task.isExpire_shape {t : Task} (h : t.isExpire = true) : t = .limitExpire t.oid := by
  cases t <;> simp_all [Task.isExpire, Task.oid]

theorem setOrder_trades (s : OMS) (o : Order) : (setOrder s o).trades = s.trades := by
  unfold setOrder
  split <;> rfl

theorem setOrder_tasks (s : OMS) (o : Order) : (setOrder s o).tasks = s.tasks := by
  unfold setOrder
  split <;> rfl

theorem setOrder_orderIdCounter (s : OMS) (o : Order) :
    (setOrder s o).orderIdCounter = s.orderIdCounter := by
  unfold setOrder
  split <;> rfl

theorem setOrder_tradeIdCounter (s : OMS) (o : Order) :
    (setOrder s o).tradeIdCounter = s.tradeIdCounter := by
  unfold setOrder
  split <;> rfl

theorem setOrder_now (s : OMS) (o : Order) : (setOrder s o).now = s.now := by
  unfold setOrder
  split <;> rfl

theorem createTrade_orders (s : OMS) (o : Order) (q : ℕ) (p : ℚ) (v : Venue) :
    (createTrade s o q p v).orders = s.orders := rfl

theorem createTrade_tasks (s : OMS) (o : Order) (q : ℕ) (p : ℚ) (v : Venue) :
    (createTrade s o q p v).tasks = s.tasks := rfl

theorem createTrade_orderIdCounter (s : OMS) (o : Order) (q : ℕ) (p : ℚ) (v : Venue) :
    (createTrade s o q p v).orderIdCounter = s.orderIdCounter := rfl

theorem setOrder_orders_createTrade (s : OMS) (o : Order) (q : ℕ) (p : ℚ) (v : Venue)
    (newO : Order) :
    (setOrder (createTrade s o q p v) newO).orders = (setOrder { s with
      trades := (createTrade s o q p v).trades,
      tradeIdCounter := s.tradeIdCounter + 1 } newO).orders := rfl

/-- Invariant preservation for the shared shape of every fill-booking
callback outcome: one trade appended for the fired task's order, the order
replaced by a terminally-statused update, the fired slot removed. -/
theorem inv_fire_fill {s : OMS} (hInv : Inv s) {i : ℕ} {t : Task}
    (hget : s.tasks.get? i = some t) (hcap : t.fillCap = true)
    {o : Order} (homem : o ∈ s.orders) (hoid : o.id = t.oid)
    {newO : Order}
    (hid : newO.id = o.id) (hqty : newO.quantity = o.quantity)
    (hfle : newO.fillQuantity ≤ newO.quantity)
    (hiff : newO.status = .FILLED ↔ newO.fillQuantity = newO.quantity)
    (hterm : newO.status = .FILLED ∨ newO.status = .PARTIALLY_FILLED)
    (hpfsafe : newO.status = .PARTIALLY_FILLED → t.isPoll = false)
    (q : ℕ) (p : ℚ) (v : Venue) :
    Inv { setOrder (createTrade s o q p v) newO with
          tasks := s.tasks.take i ++ s.tasks.drop (i + 1) } := by
  set s1 := createTrade s o q p v with hs1
  have hs1orders : s1.orders = s.orders := rfl
  have hex : ∃ x ∈ s1.orders, x.id = newO.id := ⟨o, homem, hid.symm⟩
  have hmapid : (setOrder s1 newO).orders.map Order.id = s.orders.map Order.id :=
    setOrder_map_id hex
  have hmemset : ∀ x ∈ (setOrder s1 newO).orders, x = newO ∨ (x ∈ s.orders ∧ x.id ≠ newO.id) := by
    intro x hx
    rcases mem_setOrder' hx with h | h
    · exact Or.inl h
    · exact Or.inr ⟨h.1, h.2⟩
  have hkeep : ∀ x ∈ s.orders, x.id ≠ newO.id → x ∈ (setOrder s1 newO).orders := by
    intro x hx hne
    exact mem_setOrder_keep (by rw [hs1orders]; exact hx) hne
  have hself : newO ∈ (setOrder s1 newO).orders := mem_setOrder_self s1 newO
  constructor
  · intro x hx
    simp only [setOrder_orderIdCounter, createTrade_orderIdCounter]
    rcases hmemset x hx with h | h
    · rw [h, hid]
      exact hInv.idLt o homem
    · exact hInv.idLt x h.1
  · simp only []
    rw [hmapid]
    exact hInv.idNodup
  · intro x hx
    rcases hmemset x hx with h | h
    · rw [h]; exact hfle
    · exact hInv.fillLe x h.1
  · intro x hx hst
    rcases hmemset x hx with h | h
    · rw [h] at hst ⊢; exact hiff.mp hst
    · exact hInv.filledEq x h.1 hst
  · intro x hx heq hpos
    rcases hmemset x hx with h | h
    · rw [h] at heq ⊢; exact hiff.mpr heq
    · exact hInv.eqFilled x h.1 heq hpos
  · intro x hx hst
    rcases hmemset x hx with h | h
    · rw [h] at hst
      rcases hterm with ht' | ht' <;> rcases hst with h2 | h2 | h2 <;> simp [ht'] at h2
    · exact hInv.zeroFill x h.1 hst
  · intro x hx hpf t' ht'
    rcases hmemset x hx with h | h
    · rw [h] at hpf ⊢
      rw [hid, hoid]
      exact no_other_tasks hInv hget hcap (hpfsafe hpf) ht'
    · intro he
      exact hInv.pfNoTask x h.1 hpf t' (mem_slot ht') he
  · intro t' ht'
    by_cases hcase : t'.oid = t.oid
    · have hcapf := no_other_fillCap hInv hget hcap ht' hcase
      have hshape := Task.isExpire_shape (Task.not_fillCap_isExpire hcapf)
      refine ⟨newO, hself, by rw [hid, hoid, hcase], ?_, ?_⟩
      · rcases hterm with h | h <;> rw [h] <;> simp
      · rw [hshape]
        trivial
    · obtain ⟨o'', ho''mem, ho''id, ho''st, ho''toi⟩ := hInv.taskOrder t' (mem_slot ht')
      refine ⟨o'', hkeep o'' ho''mem (by rw [hid]; intro he; exact hcase (by rw [← ho''id, he, hoid])), ho''id, ho''st, ho''toi⟩
  · intro oid
    simp only []
    exact le_trans ((slot_sublist s i hget).countP_le _) (hInv.fillCapUnique oid)
  · intro t' ht' hexp t'' ht'' hoid'
    exact hInv.expireShape t' (mem_slot ht') hexp t'' (mem_slot ht'') hoid'
  · intro tr htr
    have htrades : (setOrder s1 newO).trades = s.trades ++ [{
        id := s.tradeIdCounter
        orderId := o.id
        symbol := o.symbol
        side := o.side
        quantity := q
        price := p
        timestamp := s.now
        commission := calculateCommission q p v
        venue := v }] := setOrder_trades s1 newO
    simp only [htrades] at htr
    rcases List.mem_append.mp htr with h | h
    · obtain ⟨o'', ho''mem, ho''id, ho''st⟩ := hInv.tradeOrder tr h
      by_cases hcase : o''.id = newO.id
      · refine ⟨newO, hself, by rw [hcase] at ho''id; exact ho''id, ?_⟩
        rcases hterm with h2 | h2 <;> rw [h2] <;> simp
      · exact ⟨o'', hkeep o'' ho''mem hcase, ho''id, ho''st⟩
    · simp at h
      refine ⟨newO, hself, by rw [h, hid], ?_⟩
      rcases hterm with h2 | h2 <;> rw [h2] <;> simp

theorem id_unique {l : List Order} (hnd : (l.map Order.id).Nodup) {x y : Order}
    (hx : x ∈ l) (hy : y ∈ l) (he : x.id = y.id) : x = y :=
  List.inj_on_of_nodup_map hnd hx hy he

/-- Invariant preservation for a mid-flight slicing callback: one child
trade appended, the order untouched, the fired slot replaced by the
rescheduled callback of the same algorithm. -/
theorem inv_fire_slice {s : OMS} (hInv : Inv s) {i : ℕ} {t : Task}
    (hget : s.tasks.get? i = some t) (hcap : t.fillCap = true) (hpoll : t.isPoll = false)
    {o : Order} (homem : o ∈ s.orders) (hoid : o.id = t.oid)
    {t₂ : Task} (hcap2 : t₂.fillCap = true) (hoid2 : t₂.oid = t.oid)
    (hexp2 : t₂.isExpire = false)
    (htoi2 : TaskOrderInv t₂ o)
    (q : ℕ) (p : ℚ) (v : Venue) :
    Inv { createTrade s o q p v with
          tasks := s.tasks.take i ++ [t₂] ++ s.tasks.drop (i + 1) } := by
  have hmemtasks : ∀ t' ∈ s.tasks.take i ++ [t₂] ++ s.tasks.drop (i + 1),
      t' = t₂ ∨ t' ∈ s.tasks.take i ++ s.tasks.drop (i + 1) := by
    intro t' ht'
    rcases List.mem_append.mp ht' with h | h
    · rcases List.mem_append.mp h with h | h
      · exact Or.inr (List.mem_append.mpr (Or.inl h))
      · exact Or.inl (by simpa using h)
    · exact Or.inr (List.mem_append.mpr (Or.inr h))
  have hst : o.status ≠ .REJECTED := by
    obtain ⟨o', ho'mem, ho'id, ho'st, _⟩ := hInv.taskOrder t (List.get?_mem hget)
    have : o' = o := id_unique hInv.idNodup ho'mem homem (by rw [ho'id, hoid])
    rw [← this]
    exact ho'st
  have hnotpf : o.status ≠ .PARTIALLY_FILLED := by
    intro hpf
    exact hInv.pfNoTask o homem hpf t (List.get?_mem hget) hoid.symm
  constructor
  · exact hInv.idLt
  · exact hInv.idNodup
  · exact hInv.fillLe
  · exact hInv.filledEq
  · exact hInv.eqFilled
  · exact hInv.zeroFill
  · intro x hx hpf t' ht'
    rcases hmemtasks t' ht' with h | h
    · rw [h, hoid2, ← hoid]
      intro he
      exact absurd hpf (by rw [id_unique hInv.idNodup hx homem he.symm] at hpf ⊢; exact hnotpf hpf |>.elim)
    · exact hInv.pfNoTask x hx hpf t' (mem_slot h)
  · intro t' ht'
    rcases hmemtasks t' ht' with h | h
    · exact ⟨o, homem, by rw [h, hoid2, hoid], hst, by rw [h]; exact htoi2⟩
    · exact hInv.taskOrder t' (mem_slot h)
  · intro oid
    have hc := countP_slot hget (fun x => x.fillCap && x.oid == oid)
    have hc2 : (s.tasks.take i ++ [t₂] ++ s.tasks.drop (i + 1)).countP
        (fun x => x.fillCap && x.oid == oid) =
        (s.tasks.take i).countP (fun x => x.fillCap && x.oid == oid) +
        (if (t₂.fillCap && t₂.oid == oid) = true then 1 else 0) +
        (s.tasks.drop (i + 1)).countP (fun x => x.fillCap && x.oid == oid) := by
      rw [List.countP_append, List.countP_append, List.countP_cons]
      simp only [List.countP_nil]
      omega
    have hsame : (if (t₂.fillCap && t₂.oid == oid) = true then 1 else 0) =
        (if (t.fillCap && t.oid == oid) = true then 1 else 0) := by
      rw [hcap2, hcap, hoid2]
    have := hInv.fillCapUnique oid
    simp only []
    rw [hc2, hsame]
    omega
  · intro t' ht' hexp t'' ht'' hoid'
    have ht'2 : t' ∈ s.tasks.take i ++ s.tasks.drop (i + 1) := by
      rcases hmemtasks t' ht' with h | h
      · rw [h] at hexp
        rw [hexp2] at hexp
        exact Bool.noConfusion hexp
      · exact h
    rcases hmemtasks t'' ht'' with h | h
    · exfalso
      have hoideq : t.oid = t'.oid := by rw [← hoid2, ← h]; exact hoid'
      have := hInv.expireShape t' (mem_slot ht'2) hexp t (List.get?_mem hget) hoideq
      rcases this with h2 | h2
      · rw [Task.fillCap_isExpire hcap] at h2
        exact Bool.noConfusion h2
      · rw [hpoll] at h2
        exact Bool.noConfusion h2
    · exact hInv.expireShape t' (mem_slot ht'2) hexp t'' (mem_slot h) hoid'
  · intro tr htr
    have : (createTrade s o q p v).trades = s.trades ++ [{
        id := s.tradeIdCounter
        orderId := o.id
        symbol := o.symbol
        side := o.side
        quantity := q
        price := p
        timestamp := s.now
        commission := calculateCommission q p v
        venue := v }] := rfl
    simp only [this] at htr
    rcases List.mem_append.mp htr with h | h
    · exact hInv.tradeOrder tr h
    · simp at h
      exact ⟨o, homem, by rw [h], hst⟩

/-- Invariant preservation for a stop/stop-limit trigger: the order's
`type` field is rewritten and the trigger poll is replaced by the fill (or
poll-plus-expiry) tasks of the re-dispatched order type. -/
theorem inv_fire_trigger {s : OMS} (hInv : Inv s) {i : ℕ} {t : Task}
    (hget : s.tasks.get? i = some t) (hcap : t.fillCap = true) (hpoll : t.isPoll = false)
    {o : Order} (homem : o ∈ s.orders) (hoid : o.id = t.oid) (hfill0 : o.fillQuantity = 0)
    {newO : Order}
    (hid : newO.id = o.id) (hfq : newO.fillQuantity = o.fillQuantity)
    (hq : newO.quantity = o.quantity) (hstat : newO.status = o.status)
    {repl : List Task} (v : Venue)
    (hrepl : repl = [.marketFill t.oid v] ∨ repl = [.limitPoll t.oid v, .limitExpire t.oid]) :
    Inv { setOrder s newO with tasks := s.tasks.take i ++ repl ++ s.tasks.drop (i + 1) } := by
  have hmemtasks : ∀ t' ∈ s.tasks.take i ++ repl ++ s.tasks.drop (i + 1),
      t' ∈ repl ∨ t' ∈ s.tasks.take i ++ s.tasks.drop (i + 1) := by
    intro t' ht'
    rcases List.mem_append.mp ht' with h | h
    · rcases List.mem_append.mp h with h | h
      · exact Or.inr (List.mem_append.mpr (Or.inl h))
      · exact Or.inl h
    · exact Or.inr (List.mem_append.mpr (Or.inr h))
  have hreploid : ∀ t' ∈ repl, t'.oid = t.oid := by
    intro t' ht'
    rcases hrepl with h | h <;> rw [h] at ht' <;> rcases List.mem_cons.mp ht' with h2 | h2
    · rw [h2]; rfl
    · simp at h2
    · rw [h2]; rfl
    · rcases List.mem_cons.mp h2 with h3 | h3
      · rw [h3]; rfl
      · simp at h3
  have hreplexp : ∀ t' ∈ repl, t'.isExpire = true → repl = [.limitPoll t.oid v, .limitExpire t.oid] := by
    intro t' ht' hexp
    rcases hrepl with h | h
    · rw [h] at ht'
      rcases List.mem_cons.mp ht' with h2 | h2
      · rw [h2] at hexp
        exact absurd hexp (by simp [Task.isExpire])
      · simp at h2
    · exact h
  have hst : o.status ≠ .REJECTED := by
    obtain ⟨o', ho'mem, ho'id, ho'st, _⟩ := hInv.taskOrder t (List.get?_mem hget)
    have : o' = o := id_unique hInv.idNodup ho'mem homem (by rw [ho'id, hoid])
    rw [← this]
    exact ho'st
  have hnotpf : o.status ≠ .PARTIALLY_FILLED := by
    intro hpf
    exact hInv.pfNoTask o homem hpf t (List.get?_mem hget) hoid.symm
  have hex : ∃ x ∈ s.orders, x.id = newO.id := ⟨o, homem, (hid.symm)⟩
  have hmemset : ∀ x ∈ (setOrder s newO).orders, x = newO ∨ (x ∈ s.orders ∧ x.id ≠ newO.id) :=
    fun x hx => mem_setOrder' hx
  have hkeep : ∀ x ∈ s.orders, x.id ≠ newO.id → x ∈ (setOrder s newO).orders :=
    fun x hx hne => mem_setOrder_keep hx hne
  have hself : newO ∈ (setOrder s newO).orders := mem_setOrder_self s newO
  constructor
  · intro x hx
    simp only [setOrder_orderIdCounter]
    rcases hmemset x hx with h | h
    · rw [h, hid]; exact hInv.idLt o homem
    · exact hInv.idLt x h.1
  · simp only []
    rw [setOrder_map_id hex]
    exact hInv.idNodup
  · intro x hx
    rcases hmemset x hx with h | h
    · rw [h, hfq, hq]; exact hInv.fillLe o homem
    · exact hInv.fillLe x h.1
  · intro x hx h2
    rcases hmemset x hx with h | h
    · rw [h] at h2 ⊢
      rw [hstat] at h2
      rw [hfq, hq]
      exact hInv.filledEq o homem h2
    · exact hInv.filledEq x h.1 h2
  · intro x hx h2 h3
    rcases hmemset x hx with h | h
    · rw [h] at h2 h3 ⊢
      rw [hstat]
      rw [hfq, hq] at h2
      rw [hq] at h3
      exact hInv.eqFilled o homem h2 h3
    · exact hInv.eqFilled x h.1 h2 h3
  · intro x hx h2
    rcases hmemset x hx with h | h
    · rw [h] at h2 ⊢
      rw [hstat] at h2
      rw [hfq]
      exact hInv.zeroFill o homem h2
    · exact hInv.zeroFill x h.1 h2
  · intro x hx hpf t' ht'
    rcases hmemset x hx with h | h
    · exfalso
      rw [h, hstat] at hpf
      exact hnotpf hpf
    · rcases hmemtasks t' ht' with h2 | h2
      · rw [hreploid t' h2, ← hoid]
        intro he
        exact h.2 (by rw [hid, ← he])
      · exact hInv.pfNoTask x h.1 hpf t' (mem_slot h2)
  · intro t' ht'
    rcases hmemtasks t' ht' with h | h
    · refine ⟨newO, hself, by rw [hid, hoid, hreploid t' h], by rw [hstat]; exact hst, ?_⟩
      have hf0 : newO.fillQuantity = 0 := by rw [hfq, hfill0]
      rcases hrepl with h2 | h2 <;> rw [h2] at h
      · rcases List.mem_cons.mp h with h3 | h3
        · rw [h3]; exact hf0
        · simp at h3
      · rcases List.mem_cons.mp h with h3 | h3
        · rw [h3]; exact hf0
        · rcases List.mem_cons.mp h3 with h4 | h4
          · rw [h4]; trivial
          · simp at h4
    · obtain ⟨o'', ho''mem, ho''id, ho''st, ho''toi⟩ := hInv.taskOrder t' (mem_slot h)
      have hne : o''.id ≠ newO.id := by
        rw [hid, ho''id]
        intro he
        exact no_other_tasks hInv hget hcap hpoll h (he.trans hoid)
      exact ⟨o'', hkeep o'' ho''mem hne, ho''id, ho''st, ho''toi⟩
  · intro oid
    have hc := countP_slot hget (fun x => x.fillCap && x.oid == oid)
    have hcrepl : repl.countP (fun x => x.fillCap && x.oid == oid) =
        (if (t.fillCap && t.oid == oid) = true then 1 else 0) := by
      have hpm : ((Task.marketFill t.oid v).fillCap && (Task.marketFill t.oid v).oid == oid)
          = (t.fillCap && t.oid == oid) := by rw [hcap]; rfl
      have hpl : ((Task.limitPoll t.oid v).fillCap && (Task.limitPoll t.oid v).oid == oid)
          = (t.fillCap && t.oid == oid) := by rw [hcap]; rfl
      have hpe : ((Task.limitExpire t.oid).fillCap && (Task.limitExpire t.oid).oid == oid)
          = false := rfl
      rcases hrepl with h | h <;> rw [h]
      · rw [List.countP_singleton, hpm]
      · rw [List.countP_cons, List.countP_singleton, hpe, hpl]
        simp
    have h2 : (s.tasks.take i ++ repl ++ s.tasks.drop (i + 1)).countP
        (fun x => x.fillCap && x.oid == oid) =
        (s.tasks.take i).countP (fun x => x.fillCap && x.oid == oid) +
        repl.countP (fun x => x.fillCap && x.oid == oid) +
        (s.tasks.drop (i + 1)).countP (fun x => x.fillCap && x.oid == oid) := by
      rw [List.countP_append, List.countP_append]
    have := hInv.fillCapUnique oid
    simp only []
    rw [h2, hcrepl]
    omega
  · intro t' ht' hexp t'' ht'' hoid'
    rcases hmemtasks t' ht' with h | h
    · have hrepl2 := hreplexp t' h hexp
      rcases hmemtasks t'' ht'' with h2 | h2
      · rw [hrepl2] at h2
        rcases List.mem_cons.mp h2 with h3 | h3
        · right; rw [h3]; rfl
        · rcases List.mem_cons.mp h3 with h4 | h4
          · left; rw [h4]; rfl
          · simp at h4
      · exfalso
        have : t''.oid = t.oid := by rw [hoid', hreploid t' h]
        exact no_other_tasks hInv hget hcap hpoll h2 this
    · rcases hmemtasks t'' ht'' with h2 | h2
      · exfalso
        have ht'oid : t'.oid ≠ t.oid := no_other_tasks hInv hget hcap hpoll h
        exact ht'oid (by rw [← hoid', hreploid t'' h2])
      · exact hInv.expireShape t' (mem_slot h) hexp t'' (mem_slot h2) hoid'
  · intro tr htr
    simp only [setOrder_trades] at htr
    obtain ⟨o'', ho''mem, ho''id, ho''st⟩ := hInv.tradeOrder tr htr
    by_cases hcase : o''.id = newO.id
    · refine ⟨newO, hself, by rw [hcase] at ho''id; exact ho''id, by rw [hstat]; exact hst⟩
    · exact ⟨o'', hkeep o'' ho''mem hcase, ho''id, ho''st⟩

theorem TaskOrderInv_congr {t : Task} {o o' : Order} (hf : o'.fillQuantity = o.fillQuantity)
    (hq : o'.quantity = o.quantity) (h : TaskOrderInv t o) : TaskOrderInv t o' := by
  cases t <;> simp_all [TaskOrderInv]

/-- Invariant preservation for marking a SUBMITTED order CANCELLED (used by
both `cancelOrder` and the time-in-force expiry), possibly together with
dropping some scheduled tasks. -/
theorem inv_cancel_update {s : OMS} (hInv : Inv s) {o : Order}
    (homem : o ∈ s.orders) (hsub : o.status = .SUBMITTED)
    {l : List Task} (hl : List.Sublist l s.tasks) :
    Inv { setOrder s { o with status := .CANCELLED } with tasks := l } := by
  set newO : Order := { o with status := .CANCELLED } with hnew
  have hfill0 : o.fillQuantity = 0 := hInv.zeroFill o homem (Or.inl hsub)
  have hex : ∃ x ∈ s.orders, x.id = newO.id := ⟨o, homem, rfl⟩
  have hmemset : ∀ x ∈ (setOrder s newO).orders, x = newO ∨ (x ∈ s.orders ∧ x.id ≠ newO.id) :=
    fun x hx => mem_setOrder' hx
  have hkeep : ∀ x ∈ s.orders, x.id ≠ newO.id → x ∈ (setOrder s newO).orders :=
    fun x hx hne => mem_setOrder_keep hx hne
  have hself : newO ∈ (setOrder s newO).orders := mem_setOrder_self s newO
  constructor
  · intro x hx
    simp only [setOrder_orderIdCounter]
    rcases hmemset x hx with h | h
    · rw [h]; exact hInv.idLt o homem
    · exact hInv.idLt x h.1
  · simp only []
    rw [setOrder_map_id hex]
    exact hInv.idNodup
  · intro x hx
    rcases hmemset x hx with h | h
    · rw [h]; exact hInv.fillLe o homem
    · exact hInv.fillLe x h.1
  · intro x hx h2
    rcases hmemset x hx with h | h
    · rw [h] at h2
      exact absurd h2 (by rw [hnew]; simp)
    · exact hInv.filledEq x h.1 h2
  · intro x hx h2 h3
    rcases hmemset x hx with h | h
    · exfalso
      rw [h] at h2 h3
      rw [hnew] at h2 h3
      simp at h2 h3
      rw [hfill0] at h2
      omega
    · exact hInv.eqFilled x h.1 h2 h3
  · intro x hx h2
    rcases hmemset x hx with h | h
    · rw [h]
      exact hfill0
    · exact hInv.zeroFill x h.1 h2
  · intro x hx hpf t' ht'
    rcases hmemset x hx with h | h
    · rw [h] at hpf
      exact absurd hpf (by rw [hnew]; simp)
    · exact hInv.pfNoTask x h.1 hpf t' (hl.subset ht')
  · intro t' ht'
    obtain ⟨o'', ho''mem, ho''id, ho''st, ho''toi⟩ := hInv.taskOrder t' (hl.subset ht')
    by_cases hcase : o''.id = newO.id
    · have ho''eq : o'' = o := id_unique hInv.idNodup ho''mem homem hcase
      refine ⟨newO, hself, by rw [← hcase]; exact ho''id, by rw [hnew]; simp, ?_⟩
      exact TaskOrderInv_congr (by rw [hnew]) (by rw [hnew]) (ho''eq ▸ ho''toi)
    · exact ⟨o'', hkeep o'' ho''mem hcase, ho''id, ho''st, ho''toi⟩
  · intro oid
    simp only []
    exact le_trans (hl.countP_le _) (hInv.fillCapUnique oid)
  · intro t' ht' hexp t'' ht'' hoid'
    exact hInv.expireShape t' (hl.subset ht') hexp t'' (hl.subset ht'') hoid'
  · intro tr htr
    simp only [setOrder_trades] at htr
    obtain ⟨o'', ho''mem, ho''id, ho''st⟩ := hInv.tradeOrder tr htr
    by_cases hcase : o''.id = newO.id
    · refine ⟨newO, hself, by rw [← hcase]; exact ho''id, by rw [hnew]; simp⟩
    · exact ⟨o'', hkeep o'' ho''mem hcase, ho''id, ho''st⟩

/-- Specification of the tasks armed by `dispatchTasks` for a zero-fill
order. -/
theorem dispatchTasks_spec' (s : OMS) (o : Order) (venue : Venue) (r : SubmitRand)
    (hfill0 : o.fillQuantity = 0) :
    ∃ ts : List Task,
      dispatchTasks s o venue r = { s with tasks := s.tasks ++ ts } ∧
      (∀ t ∈ ts, t.oid = o.id ∧ TaskOrderInv t o) ∧
      (∀ oid : ℕ, ts.countP (fun x => x.fillCap && x.oid == oid) ≤ 1) ∧
      (∀ t ∈ ts, t.isExpire = true → ∀ t' ∈ ts, t'.isExpire = true ∨ t'.isPoll = true) := by
  unfold dispatchTasks
  cases htype : o.type
  case MARKET =>
    refine ⟨[.marketFill o.id venue], rfl, ?_, ?_, ?_⟩
    · intro t ht
      rcases List.mem_cons.mp ht with h | h
      · rw [h]; exact ⟨rfl, hfill0⟩
      · simp at h
    · intro oid
      rw [List.countP_singleton]
      split <;> omega
    · intro t ht hexp
      rcases List.mem_cons.mp ht with h | h
      · rw [h] at hexp; exact absurd hexp (by simp [Task.isExpire])
      · simp at h
  case LIMIT =>
    refine ⟨[.limitPoll o.id venue, .limitExpire o.id], rfl, ?_, ?_, ?_⟩
    · intro t ht
      rcases List.mem_cons.mp ht with h | h
      · rw [h]; exact ⟨rfl, hfill0⟩
      · rcases List.mem_cons.mp h with h2 | h2
        · rw [h2]; exact ⟨rfl, trivial⟩
        · simp at h2
    · intro oid
      rw [List.countP_cons, List.countP_singleton]
      have hpe : ((Task.limitExpire o.id).fillCap && (Task.limitExpire o.id).oid == oid)
          = false := rfl
      rw [hpe]
      simp only [Bool.false_eq_true, if_false]
      split <;> omega
    · intro t ht hexp t' ht'
      rcases List.mem_cons.mp ht' with h | h
      · right; rw [h]; rfl
      · rcases List.mem_cons.mp h with h2 | h2
        · left; rw [h2]; rfl
        · simp at h2
  case STOP =>
    refine ⟨[.stopPoll o.id venue], rfl, ?_, ?_, ?_⟩
    · intro t ht
      rcases List.mem_cons.mp ht with h | h
      · rw [h]; exact ⟨rfl, hfill0⟩
      · simp at h
    · intro oid
      rw [List.countP_singleton]
      split <;> omega
    · intro t ht hexp
      rcases List.mem_cons.mp ht with h | h
      · rw [h] at hexp; exact absurd hexp (by simp [Task.isExpire])
      · simp at h
  case STOP_LIMIT =>
    refine ⟨[.stopLimitPoll o.id venue], rfl, ?_, ?_, ?_⟩
    · intro t ht
      rcases List.mem_cons.mp ht with h | h
      · rw [h]; exact ⟨rfl, hfill0⟩
      · simp at h
    · intro oid
      rw [List.countP_singleton]
      split <;> omega
    · intro t ht hexp
      rcases List.mem_cons.mp ht with h | h
      · rw [h] at hexp; exact absurd hexp (by simp [Task.isExpire])
      · simp at h
  case ICEBERG =>
    refine ⟨[.icebergSlice o.id venue
      (match o.displayQuantity with
       | some d => if d = 0 then o.quantity / 10 else d
       | none => o.quantity / 10) o.quantity 0 0], rfl, ?_, ?_, ?_⟩
    · intro t ht
      rcases List.mem_cons.mp ht with h | h
      · rw [h]
        exact ⟨rfl, hfill0, by omega⟩
      · simp at h
    · intro oid
      rw [List.countP_singleton]
      split <;> omega
    · intro t ht hexp
      rcases List.mem_cons.mp ht with h | h
      · rw [h] at hexp; exact absurd hexp (by simp [Task.isExpire])
      · simp at h
  case TWAP =>
    refine ⟨[.twapSlice o.id venue (o.quantity / 20) 0 0 0], rfl, ?_, ?_, ?_⟩
    · intro t ht
      rcases List.mem_cons.mp ht with h | h
      · rw [h]
        exact ⟨rfl, hfill0, rfl, by omega, by omega⟩
      · simp at h
    · intro oid
      rw [List.countP_singleton]
      split <;> omega
    · intro t ht hexp
      rcases List.mem_cons.mp ht with h | h
      · rw [h] at hexp; exact absurd hexp (by simp [Task.isExpire])
      · simp at h
  case VWAP =>
    refine ⟨[.vwapSlice o.id venue (calculateHistoricalVWAP r.hVwapU) 0 0 0],
      rfl, ?_, ?_, ?_⟩
    · intro t ht
      rcases List.mem_cons.mp ht with h | h
      · rw [h]
        refine ⟨rfl, hfill0, ?_, by omega⟩
        simp [vwapExec]
      · simp at h
    · intro oid
      rw [List.countP_singleton]
      split <;> omega
    · intro t ht hexp
      rcases List.mem_cons.mp ht with h | h
      · rw [h] at hexp; exact absurd hexp (by simp [Task.isExpire])
      · simp at h

/-- Invariant preservation for inserting a fresh-id SUBMITTED or REJECTED
order with zero fill. -/
theorem inv_insert_fresh {s : OMS} (hInv : Inv s) {newO : Order}
    (hid : newO.id = s.orderIdCounter) (hfill : newO.fillQuantity = 0)
    (hstatus : newO.status = .SUBMITTED ∨ newO.status = .REJECTED) :
    Inv (setOrder { s with orderIdCounter := s.orderIdCounter + 1 } newO) := by
  set s0 : OMS := { s with orderIdCounter := s.orderIdCounter + 1 } with hs0
  have hfr : ∀ x ∈ s0.orders, x.id ≠ newO.id := by
    intro x hx he
    have := hInv.idLt x hx
    rw [he, hid] at this
    omega
  have hmemset : ∀ x ∈ (setOrder s0 newO).orders, x = newO ∨ (x ∈ s.orders ∧ x.id ≠ newO.id) :=
    fun x hx => @mem_setOrder' s0 newO x hx
  have hkeep : ∀ x ∈ s.orders, x ∈ (setOrder s0 newO).orders :=
    fun x hx => @mem_setOrder_keep s0 newO x hx (hfr x hx)
  have hself : newO ∈ (setOrder s0 newO).orders := mem_setOrder_self s0 newO
  have htasks : (setOrder s0 newO).tasks = s.tasks := setOrder_tasks s0 newO
  have htrades : (setOrder s0 newO).trades = s.trades := setOrder_trades s0 newO
  constructor
  · intro x hx
    rw [setOrder_orderIdCounter]
    show x.id < s.orderIdCounter + 1
    rcases hmemset x hx with h | h
    · rw [h, hid]
      omega
    · have := hInv.idLt x h.1
      omega
  · rw [setOrder_map_id_fresh hfr]
    apply List.Nodup.append hInv.idNodup (List.nodup_singleton newO.id)
    intro a ha hb
    simp at hb
    rcases List.mem_map.mp ha with ⟨x, hx, he⟩
    exact hfr x hx (by rw [he, hb])
  · intro x hx
    rcases hmemset x hx with h | h
    · rw [h, hfill]
      exact Nat.zero_le _
    · exact hInv.fillLe x h.1
  · intro x hx h2
    rcases hmemset x hx with h | h
    · rw [h] at h2
      rcases hstatus with h3 | h3 <;> rw [h3] at h2 <;> exact OrderStatus.noConfusion h2
    · exact hInv.filledEq x h.1 h2
  · intro x hx h2 h3
    rcases hmemset x hx with h | h
    · exfalso
      rw [h, hfill] at h2
      rw [h] at h3
      omega
    · exact hInv.eqFilled x h.1 h2 h3
  · intro x hx h2
    rcases hmemset x hx with h | h
    · rw [h, hfill]
    · exact hInv.zeroFill x h.1 h2
  · intro x hx hpf t' ht'
    rw [htasks] at ht'
    rcases hmemset x hx with h | h
    · rw [h] at hpf
      rcases hstatus with h3 | h3 <;> rw [h3] at hpf <;> exact absurd hpf (by simp)
    · exact hInv.pfNoTask x h.1 hpf t' ht'
  · intro t' ht'
    rw [htasks] at ht'
    obtain ⟨o'', ho''mem, ho''id, ho''st, ho''toi⟩ := hInv.taskOrder t' ht'
    exact ⟨o'', hkeep o'' ho''mem, ho''id, ho''st, ho''toi⟩
  · intro oid
    rw [htasks]
    exact hInv.fillCapUnique oid
  · intro t' ht' hexp t'' ht'' hoid'
    rw [htasks] at ht' ht''
    exact hInv.expireShape t' ht' hexp t'' ht'' hoid'
  · intro tr htr
    rw [htrades] at htr
    obtain ⟨o'', ho''mem, ho''id, ho''st⟩ := hInv.tradeOrder tr htr
    exact ⟨o'', hkeep o'' ho''mem, ho''id, ho''st⟩

/-- Invariant preservation for arming the execution-algorithm tasks of a
just-inserted order that has no scheduled task yet. -/
theorem inv_tasks_extend {s : OMS} (hInv : Inv s) {o : Order} (homem : o ∈ s.orders)
    (hzero_task : ∀ t ∈ s.tasks, t.oid ≠ o.id)
    (hnotpf : o.status ≠ .PARTIALLY_FILLED) (hnotrej : o.status ≠ .REJECTED)
    {ts : List Task} (hts : ∀ t ∈ ts, t.oid = o.id ∧ TaskOrderInv t o)
    (hcount : ∀ oid : ℕ, ts.countP (fun x => x.fillCap && x.oid == oid) ≤ 1)
    (hshape : ∀ t ∈ ts, t.isExpire = true → ∀ t' ∈ ts, t'.isExpire = true ∨ t'.isPoll = true) :
    Inv { s with tasks := s.tasks ++ ts } := by
  constructor
  · exact hInv.idLt
  · exact hInv.idNodup
  · exact hInv.fillLe
  · exact hInv.filledEq
  · exact hInv.eqFilled
  · exact hInv.zeroFill
  · intro x hx hpf t' ht'
    rcases List.mem_append.mp ht' with h | h
    · exact hInv.pfNoTask x hx hpf t' h
    · rw [(hts t' h).1]
      intro he
      rw [id_unique hInv.idNodup homem hx he] at hnotpf
      exact hnotpf hpf
  · intro t' ht'
    rcases List.mem_append.mp ht' with h | h
    · exact hInv.taskOrder t' h
    · exact ⟨o, homem, (hts t' h).1.symm, hnotrej, (hts t' h).2⟩
  · intro oid
    rw [List.countP_append]
    by_cases hcase : oid = o.id
    · have hz : s.tasks.countP (fun x => x.fillCap && x.oid == oid) = 0 := by
        rw [List.countP_eq_zero]
        intro a ha hpa
        simp at hpa
        exact hzero_task a ha (by rw [← hcase]; exact hpa.2)
      rw [hz]
      simpa using hcount oid
    · have hz : ts.countP (fun x => x.fillCap && x.oid == oid) = 0 := by
        rw [List.countP_eq_zero]
        intro a ha hpa
        simp at hpa
        exact hcase (by rw [← hpa.2, (hts a ha).1])
      rw [hz]
      simpa using hInv.fillCapUnique oid
  · intro t' ht' hexp t'' ht'' hoid'
    rcases List.mem_append.mp ht' with h | h
    · rcases List.mem_append.mp ht'' with h2 | h2
      · exact hInv.expireShape t' h hexp t'' h2 hoid'
      · exfalso
        exact hzero_task t' h (by rw [← hoid', (hts t'' h2).1])
    · rcases List.mem_append.mp ht'' with h2 | h2
      · exfalso
        exact hzero_task t'' h2 (by rw [hoid', (hts t' h).1])
      · exact hshape t' h hexp t'' h2
  · exact hInv.tradeOrder

theorem inv_submit {s : OMS} (hInv : Inv s) (log : ℚ → ℚ) (req : OrderRequest)
    (r : SubmitRand) : Inv (submitOrder log s req r).2 := by
  unfold submitOrder
  simp only []
  split
  case isTrue hrisk =>
    show Inv (dispatchTasks _ _ _ _)
    have hInv1 : Inv (setOrder { s with orderIdCounter := s.orderIdCounter + 1 }
        { mkOrder s req with status := OrderStatus.SUBMITTED }) :=
      inv_insert_fresh hInv rfl rfl (Or.inl rfl)
    obtain ⟨ts, heq, htoi, hcount, hshape⟩ := dispatchTasks_spec'
      (setOrder { s with orderIdCounter := s.orderIdCounter + 1 }
        { mkOrder s req with status := OrderStatus.SUBMITTED })
      { mkOrder s req with status := OrderStatus.SUBMITTED }
      (selectOptimalVenue log r (mkOrder s req)) r rfl
    rw [heq]
    apply inv_tasks_extend hInv1 (mem_setOrder_self _ _)
    · intro t ht he
      rw [setOrder_tasks] at ht
      obtain ⟨o'', ho''mem, ho''id, _, _⟩ := hInv.taskOrder t ht
      have := hInv.idLt o'' ho''mem
      rw [ho''id, he] at this
      simp [mkOrder] at this
    · simp
    · simp
    · exact htoi
    · exact hcount
    · exact hshape
  case isFalse hrisk =>
    show Inv (setOrder _ _)
    exact inv_insert_fresh hInv rfl rfl (Or.inr rfl)

theorem stepEvent_runTask_some {log : ℚ → ℚ} {s : OMS} {i : ℕ} {r : Rand} {t : Task}
    (hget : s.tasks.get? i = some t) :
    stepEvent log s (.runTask i r) =
      { (fireTask log s t r).1 with
        tasks :=
          match (fireTask log s t r).2.2 with
          | some orderId =>
            (s.tasks.take i ++ (fireTask log s t r).2.1 ++ s.tasks.drop (i + 1)).filter
              (fun t' => !(match t' with | .limitPoll oid _ => oid = orderId | _ => false))
          | none => s.tasks.take i ++ (fireTask log s t r).2.1 ++ s.tasks.drop (i + 1) } := by
  simp only [stepEvent]
  rw [hget]

theorem executeTrade_eq (s : OMS) (order : Order) (q : ℕ) (p : ℚ) (v : Venue) :
    executeTrade s order q p v = setOrder (createTrade s order q p v)
      { order with
        fillQuantity := order.fillQuantity + q
        avgFillPrice := (order.avgFillPrice * ((order.fillQuantity + q - q : ℕ) : ℚ) +
          p * (q : ℚ)) / ((order.fillQuantity + q : ℕ) : ℚ)
        commission := order.commission + calculateCommission q p v
        status := if order.fillQuantity + q ≥ order.quantity then .FILLED
          else .PARTIALLY_FILLED } := rfl

theorem inv_run_marketFill {log : ℚ → ℚ} {s : OMS} (hInv : Inv s) {i : ℕ} {r : Rand}
    {oid : ℕ} {venue : Venue} (hget : s.tasks.get? i = some (.marketFill oid venue)) :
    Inv (stepEvent log s (.runTask i r)) := by
  obtain ⟨o, homem, hoid, hnrej, htoi⟩ :=
    hInv.taskOrder (.marketFill oid venue) (List.get?_mem hget)
  have hgetO : getOrder s oid = some o := by
    rw [show oid = (Task.marketFill oid venue).oid from rfl, ← hoid]
    exact getOrder_eq_of_mem hInv.idNodup homem
  have hfill0 : o.fillQuantity = 0 := htoi
  have hfire : fireTask log s (.marketFill oid venue) r =
      (executeTrade s o o.quantity
        (if o.side = .BUY then (100 + (r.u1 - 1/2) * 10) * (1 + calculateSlippage log o venue)
         else (100 + (r.u1 - 1/2) * 10) * (1 - calculateSlippage log o venue)) venue,
       [], none) := by
    simp only [fireTask]
    rw [hgetO]
  rw [stepEvent_runTask_some hget, hfire]
  simp only [List.append_nil]
  rw [executeTrade_eq]
  refine inv_fire_fill hInv hget rfl homem hoid ?_ ?_ ?_ ?_ ?_ ?_ _ _ _
  · rfl
  · rfl
  · simp [hfill0]
  · simp [Nat.le_add_left, hfill0]
  · simp [Nat.le_add_left]
  · intro hpf
    simp [Nat.le_add_left] at hpf

theorem inv_keep {s : OMS} (hInv : Inv s) {i : ℕ} {t : Task}
    (hget : s.tasks.get? i = some t) :
    Inv { s with tasks := s.tasks.take i ++ [t] ++ s.tasks.drop (i + 1) } := by
  have heq : s.tasks.take i ++ [t] ++ s.tasks.drop (i + 1) = s.tasks := by
    rw [List.append_assoc]
    exact (get?_decomp hget).symm
  rw [heq]
  exact hInv

theorem inv_run_limitPoll {log : ℚ → ℚ} {s : OMS} (hInv : Inv s) {i : ℕ} {r : Rand}
    {oid : ℕ} {venue : Venue} (hget : s.tasks.get? i = some (.limitPoll oid venue)) :
    Inv (stepEvent log s (.runTask i r)) := by
  obtain ⟨o, homem, hoid, hnrej, htoi⟩ :=
    hInv.taskOrder (.limitPoll oid venue) (List.get?_mem hget)
  have hgetO : getOrder s oid = some o := by
    rw [show oid = (Task.limitPoll oid venue).oid from rfl, ← hoid]
    exact getOrder_eq_of_mem hInv.idNodup homem
  have hfill0 : o.fillQuantity = 0 := htoi
  have hfire : fireTask log s (.limitPoll oid venue) r =
      (if (if o.side = .BUY then simulateMarketPrice r.u1 ≤ o.price.getD 0
           else simulateMarketPrice r.u1 ≥ o.price.getD 0) ∧ r.u2 > 3/10 then
        (executeTrade s o o.quantity (o.price.getD 0) venue, [], none)
       else (s, [.limitPoll oid venue], none)) := by
    simp only [fireTask]
    rw [hgetO]
  rw [stepEvent_runTask_some hget, hfire]
  by_cases hc : ((if o.side = .BUY then simulateMarketPrice r.u1 ≤ o.price.getD 0
      else simulateMarketPrice r.u1 ≥ o.price.getD 0) ∧ r.u2 > 3/10)
  · rw [if_pos hc]
    show Inv { executeTrade s o o.quantity (o.price.getD 0) venue with
      tasks := s.tasks.take i ++ [] ++ s.tasks.drop (i + 1) }
    simp only [List.append_nil]
    rw [executeTrade_eq]
    refine inv_fire_fill hInv hget rfl homem hoid ?_ ?_ ?_ ?_ ?_ ?_ _ _ _
    · rfl
    · rfl
    · simp [hfill0]
    · simp [Nat.le_add_left, hfill0]
    · simp [Nat.le_add_left]
    · intro hpf
      simp [Nat.le_add_left] at hpf
  · rw [if_neg hc]
    show Inv { s with tasks := s.tasks.take i ++ [Task.limitPoll oid venue] ++ s.tasks.drop (i + 1) }
    exact inv_keep hInv hget

theorem inv_run_stopPoll {log : ℚ → ℚ} {s : OMS} (hInv : Inv s) {i : ℕ} {r : Rand}
    {oid : ℕ} {venue : Venue} (hget : s.tasks.get? i = some (.stopPoll oid venue)) :
    Inv (stepEvent log s (.runTask i r)) := by
  obtain ⟨o, homem, hoid, hnrej, htoi⟩ :=
    hInv.taskOrder (.stopPoll oid venue) (List.get?_mem hget)
  have hgetO : getOrder s oid = some o := by
    rw [show oid = (Task.stopPoll oid venue).oid from rfl, ← hoid]
    exact getOrder_eq_of_mem hInv.idNodup homem
  have hfill0 : o.fillQuantity = 0 := htoi
  have hfire : fireTask log s (.stopPoll oid venue) r =
      (if (if o.side = .BUY then simulateMarketPrice r.u1 ≥ o.stopPrice.getD 0
           else simulateMarketPrice r.u1 ≤ o.stopPrice.getD 0) then
        (setOrder s { o with type := .MARKET }, [.marketFill oid venue], none)
       else (s, [.stopPoll oid venue], none)) := by
    simp only [fireTask]
    rw [hgetO]
  rw [stepEvent_runTask_some hget, hfire]
  by_cases hc : (if o.side = .BUY then simulateMarketPrice r.u1 ≥ o.stopPrice.getD 0
      else simulateMarketPrice r.u1 ≤ o.stopPrice.getD 0)
  · rw [if_pos hc]
    show Inv { setOrder s { o with type := OrderType.MARKET } with
      tasks := s.tasks.take i ++ [Task.marketFill oid venue] ++ s.tasks.drop (i + 1) }
    refine inv_fire_trigger hInv hget rfl rfl homem hoid hfill0 ?_ ?_ ?_ ?_ venue (Or.inl rfl)
    · rfl
    · rfl
    · rfl
    · rfl
  · rw [if_neg hc]
    show Inv { s with tasks := s.tasks.take i ++ [Task.stopPoll oid venue] ++ s.tasks.drop (i + 1) }
    exact inv_keep hInv hget

theorem inv_run_stopLimitPoll {log : ℚ → ℚ} {s : OMS} (hInv : Inv s) {i : ℕ} {r : Rand}
    {oid : ℕ} {venue : Venue} (hget : s.tasks.get? i = some (.stopLimitPoll oid venue)) :
    Inv (stepEvent log s (.runTask i r)) := by
  obtain ⟨o, homem, hoid, hnrej, htoi⟩ :=
    hInv.taskOrder (.stopLimitPoll oid venue) (List.get?_mem hget)
  have hgetO : getOrder s oid = some o := by
    rw [show oid = (Task.stopLimitPoll oid venue).oid from rfl, ← hoid]
    exact getOrder_eq_of_mem hInv.idNodup homem
  have hfill0 : o.fillQuantity = 0 := htoi
  have hfire : fireTask log s (.stopLimitPoll oid venue) r =
      (if (if o.side = .BUY then simulateMarketPrice r.u1 ≥ o.stopPrice.getD 0
           else simulateMarketPrice r.u1 ≤ o.stopPrice.getD 0) then
        (setOrder s { o with type := .LIMIT },
          [.limitPoll oid venue, .limitExpire oid], none)
       else (s, [.stopLimitPoll oid venue], none)) := by
    simp only [fireTask]
    rw [hgetO]
  rw [stepEvent_runTask_some hget, hfire]
  by_cases hc : (if o.side = .BUY then simulateMarketPrice r.u1 ≥ o.stopPrice.getD 0
      else simulateMarketPrice r.u1 ≤ o.stopPrice.getD 0)
  · rw [if_pos hc]
    show Inv { setOrder s { o with type := OrderType.LIMIT } with
      tasks := s.tasks.take i ++ [Task.limitPoll oid venue, Task.limitExpire oid] ++
        s.tasks.drop (i + 1) }
    refine inv_fire_trigger hInv hget rfl rfl homem hoid hfill0 ?_ ?_ ?_ ?_ venue (Or.inr rfl)
    · rfl
    · rfl
    · rfl
    · rfl
  · rw [if_neg hc]
    show Inv { s with
      tasks := s.tasks.take i ++ [Task.stopLimitPoll oid venue] ++ s.tasks.drop (i + 1) }
    exact inv_keep hInv hget

theorem inv_run_limitExpire {log : ℚ → ℚ} {s : OMS} (hInv : Inv s) {i : ℕ} {r : Rand}
    {oid : ℕ} (hget : s.tasks.get? i = some (.limitExpire oid)) :
    Inv (stepEvent log s (.runTask i r)) := by
  obtain ⟨o, homem, hoid, hnrej, htoi⟩ :=
    hInv.taskOrder (.limitExpire oid) (List.get?_mem hget)
  have hgetO : getOrder s oid = some o := by
    rw [show oid = (Task.limitExpire oid).oid from rfl, ← hoid]
    exact getOrder_eq_of_mem hInv.idNodup homem
  have hfire : fireTask log s (.limitExpire oid) r =
      (if o.status = .SUBMITTED then
        (setOrder s { o with status := .CANCELLED }, [], some oid)
       else (s, [], some oid)) := by
    simp only [fireTask]
    rw [hgetO]
  have hsub : List.Sublist ((s.tasks.take i ++ [] ++ s.tasks.drop (i + 1)).filter
      (fun t' => !(match t' with | .limitPoll oid' _ => oid' = oid | _ => false))) s.tasks := by
    refine List.Sublist.trans (List.filter_sublist _) ?_
    simp only [List.append_nil]
    exact slot_sublist s i hget
  rw [stepEvent_runTask_some hget, hfire]
  by_cases hc : o.status = .SUBMITTED
  · rw [if_pos hc]
    show Inv { setOrder s { o with status := OrderStatus.CANCELLED } with
      tasks := (s.tasks.take i ++ [] ++ s.tasks.drop (i + 1)).filter
        (fun t' => !(match t' with | .limitPoll oid' _ => oid' = oid | _ => false)) }
    exact inv_cancel_update hInv homem hc hsub
  · rw [if_neg hc]
    show Inv { s with
      tasks := (s.tasks.take i ++ [] ++ s.tasks.drop (i + 1)).filter
        (fun t' => !(match t' with | .limitPoll oid' _ => oid' = oid | _ => false)) }
    exact inv_tasks_sublist hInv hsub

theorem inv_drop_slot {s : OMS} (hInv : Inv s) {i : ℕ} {t : Task}
    (hget : s.tasks.get? i = some t) :
    Inv { s with tasks := s.tasks.take i ++ [] ++ s.tasks.drop (i + 1) } := by
  simp only [List.append_nil]
  exact inv_tasks_sublist hInv (slot_sublist s i hget)

theorem inv_run_icebergSlice {log : ℚ → ℚ} {s : OMS} (hInv : Inv s) {i : ℕ} {r : Rand}
    (hr : r.Valid) {oid : ℕ} {venue : Venue} {dq rem tQty : ℕ} {tPx : ℚ}
    (hget : s.tasks.get? i = some (.icebergSlice oid venue dq rem tQty tPx)) :
    Inv (stepEvent log s (.runTask i r)) := by
  obtain ⟨o, homem, hoid, hnrej, htoi⟩ :=
    hInv.taskOrder (.icebergSlice oid venue dq rem tQty tPx) (List.get?_mem hget)
  have hgetO : getOrder s oid = some o := by
    rw [show oid = (Task.icebergSlice oid venue dq rem tQty tPx).oid from rfl, ← hoid]
    exact getOrder_eq_of_mem hInv.idNodup homem
  obtain ⟨hfill0, hsum⟩ := htoi
  by_cases h0 : rem = 0
  · have hfire : fireTask log s (.icebergSlice oid venue dq rem tQty tPx) r = (s, [], none) := by
      simp only [fireTask, hgetO]
      rw [if_pos h0]
    rw [stepEvent_runTask_some hget, hfire]
    exact inv_drop_slot hInv hget
  · have hfle : ⌊((min dq rem : ℕ) : ℚ) * (8/10 + r.u2 * (2/10))⌋₊ ≤ min dq rem := by
      have h1 : ((min dq rem : ℕ) : ℚ) * (8/10 + r.u2 * (2/10)) ≤ ((min dq rem : ℕ) : ℚ) := by
        have hu2 : 8/10 + r.u2 * (2/10) ≤ 1 := by
          have := hr.2.2.2
          nlinarith
        have hpos : (0 : ℚ) ≤ ((min dq rem : ℕ) : ℚ) := Nat.cast_nonneg _
        nlinarith
      calc ⌊((min dq rem : ℕ) : ℚ) * (8/10 + r.u2 * (2/10))⌋₊
          ≤ ⌊((min dq rem : ℕ) : ℚ)⌋₊ := Nat.floor_le_floor h1
        _ = min dq rem := Nat.floor_natCast _
    have hfrem : ⌊((min dq rem : ℕ) : ℚ) * (8/10 + r.u2 * (2/10))⌋₊ ≤ rem :=
      le_trans hfle (min_le_right dq rem)
    by_cases hf0 : ⌊((min dq rem : ℕ) : ℚ) * (8/10 + r.u2 * (2/10))⌋₊ = 0
    · have hfire : fireTask log s (.icebergSlice oid venue dq rem tQty tPx) r =
          (s, [], none) := by
        simp only [fireTask, hgetO]
        rw [if_neg h0, if_pos hf0]
      rw [stepEvent_runTask_some hget, hfire]
      exact inv_drop_slot hInv hget
    · by_cases hrem1 : rem - ⌊((min dq rem : ℕ) : ℚ) * (8/10 + r.u2 * (2/10))⌋₊ > 0
      · have hfire : fireTask log s (.icebergSlice oid venue dq rem tQty tPx) r =
            (createTrade s o ⌊((min dq rem : ℕ) : ℚ) * (8/10 + r.u2 * (2/10))⌋₊
              (o.price.getD 0 + (r.u1 - 1/2) * (2/100)) venue,
             [.icebergSlice oid venue dq
                (rem - ⌊((min dq rem : ℕ) : ℚ) * (8/10 + r.u2 * (2/10))⌋₊)
                (tQty + ⌊((min dq rem : ℕ) : ℚ) * (8/10 + r.u2 * (2/10))⌋₊)
                (tPx + (o.price.getD 0 + (r.u1 - 1/2) * (2/100)) *
                  (⌊((min dq rem : ℕ) : ℚ) * (8/10 + r.u2 * (2/10))⌋₊ : ℚ))], none) := by
          simp only [fireTask, hgetO]
          rw [if_neg h0, if_neg hf0, if_pos hrem1]
        rw [stepEvent_runTask_some hget, hfire]
        dsimp only
        refine inv_fire_slice hInv hget rfl rfl homem hoid ?_ ?_ ?_ ?_ _ _ _
        · rfl
        · rfl
        · rfl
        · exact ⟨hfill0, by omega⟩
      · have hfire : fireTask log s (.icebergSlice oid venue dq rem tQty tPx) r =
            (setOrder (createTrade s o ⌊((min dq rem : ℕ) : ℚ) * (8/10 + r.u2 * (2/10))⌋₊
              (o.price.getD 0 + (r.u1 - 1/2) * (2/100)) venue)
              { o with
                fillQuantity := tQty + ⌊((min dq rem : ℕ) : ℚ) * (8/10 + r.u2 * (2/10))⌋₊
                avgFillPrice := (tPx + (o.price.getD 0 + (r.u1 - 1/2) * (2/100)) *
                  (⌊((min dq rem : ℕ) : ℚ) * (8/10 + r.u2 * (2/10))⌋₊ : ℚ)) /
                  ((tQty + ⌊((min dq rem : ℕ) : ℚ) * (8/10 + r.u2 * (2/10))⌋₊ : ℕ) : ℚ)
                status := if tQty + ⌊((min dq rem : ℕ) : ℚ) * (8/10 + r.u2 * (2/10))⌋₊ =
                    o.quantity then .FILLED else .PARTIALLY_FILLED }, [], none) := by
          simp only [fireTask, hgetO]
          rw [if_neg h0, if_neg hf0, if_neg hrem1]
        rw [stepEvent_runTask_some hget, hfire]
        dsimp only
        simp only [List.append_nil]
        refine inv_fire_fill hInv hget rfl homem hoid ?_ ?_ ?_ ?_ ?_ ?_ _ _ _
        · rfl
        · rfl
        · show tQty + ⌊((min dq rem : ℕ) : ℚ) * (8/10 + r.u2 * (2/10))⌋₊ ≤ o.quantity
          omega
        · show (if tQty + ⌊((min dq rem : ℕ) : ℚ) * (8/10 + r.u2 * (2/10))⌋₊ = o.quantity
              then OrderStatus.FILLED else OrderStatus.PARTIALLY_FILLED) = .FILLED ↔
            tQty + ⌊((min dq rem : ℕ) : ℚ) * (8/10 + r.u2 * (2/10))⌋₊ = o.quantity
          split <;> simp_all
        · show (if tQty + ⌊((min dq rem : ℕ) : ℚ) * (8/10 + r.u2 * (2/10))⌋₊ = o.quantity
              then OrderStatus.FILLED else OrderStatus.PARTIALLY_FILLED) = .FILLED ∨
            (if tQty + ⌊((min dq rem : ℕ) : ℚ) * (8/10 + r.u2 * (2/10))⌋₊ = o.quantity
              then OrderStatus.FILLED else OrderStatus.PARTIALLY_FILLED) = .PARTIALLY_FILLED
          split
          · exact Or.inl rfl
          · exact Or.inr rfl
        · intro _
          rfl

theorem inv_run_twapSlice {log : ℚ → ℚ} {s : OMS} (hInv : Inv s) {i : ℕ} {r : Rand}
    {oid : ℕ} {venue : Venue} {sliceSize executed : ℕ} {tv : ℚ} {count : ℕ}
    (hget : s.tasks.get? i = some (.twapSlice oid venue sliceSize executed tv count)) :
    Inv (stepEvent log s (.runTask i r)) := by
  obtain ⟨o, homem, hoid, hnrej, htoi⟩ :=
    hInv.taskOrder (.twapSlice oid venue sliceSize executed tv count) (List.get?_mem hget)
  have hgetO : getOrder s oid = some o := by
    rw [show oid = (Task.twapSlice oid venue sliceSize executed tv count).oid from rfl, ← hoid]
    exact getOrder_eq_of_mem hInv.idNodup homem
  obtain ⟨hfill0, hss, hexec, hcnt⟩ := htoi
  have hguard : ¬ (count ≥ 20) := by omega
  have hdivle : o.quantity / 20 * 20 ≤ o.quantity := Nat.div_mul_le_self o.quantity 20
  by_cases hmid : count + 1 < 20
  · have h19 : ¬ (count = 19) := by omega
    have hfire : fireTask log s (.twapSlice oid venue sliceSize executed tv count) r =
        (createTrade s o sliceSize
          (if o.side = .BUY then
            simulateMarketPrice r.u1 * (1 + calculateSlippage log { o with quantity := sliceSize } venue)
           else
            simulateMarketPrice r.u1 * (1 - calculateSlippage log { o with quantity := sliceSize } venue))
          venue,
         [.twapSlice oid venue sliceSize (executed + sliceSize)
           (tv + (if o.side = .BUY then
              simulateMarketPrice r.u1 * (1 + calculateSlippage log { o with quantity := sliceSize } venue)
            else
              simulateMarketPrice r.u1 * (1 - calculateSlippage log { o with quantity := sliceSize } venue)) *
             (sliceSize : ℚ)) (count + 1)], none) := by
      simp only [fireTask, hgetO]
      rw [if_neg hguard, if_neg h19, if_pos hmid]
    rw [stepEvent_runTask_some hget, hfire]
    dsimp only
    refine inv_fire_slice hInv hget rfl rfl homem hoid ?_ ?_ ?_ ?_ _ _ _
    · rfl
    · rfl
    · rfl
    · refine ⟨hfill0, hss, ?_, by omega⟩
      rw [hexec, hss]
      ring
  · have h19 : count = 19 := by omega
    have hexecle : executed ≤ o.quantity := by
      rw [hexec, h19]
      omega
    have hfire : fireTask log s (.twapSlice oid venue sliceSize executed tv count) r =
        (setOrder (createTrade s o (o.quantity - executed)
          (if o.side = .BUY then
            simulateMarketPrice r.u1 *
              (1 + calculateSlippage log { o with quantity := o.quantity - executed } venue)
           else
            simulateMarketPrice r.u1 *
              (1 - calculateSlippage log { o with quantity := o.quantity - executed } venue))
          venue)
          { o with
            fillQuantity := executed + (o.quantity - executed)
            avgFillPrice := (tv + (if o.side = .BUY then
                simulateMarketPrice r.u1 *
                  (1 + calculateSlippage log { o with quantity := o.quantity - executed } venue)
              else
                simulateMarketPrice r.u1 *
                  (1 - calculateSlippage log { o with quantity := o.quantity - executed } venue)) *
              ((o.quantity - executed : ℕ) : ℚ)) /
              ((executed + (o.quantity - executed) : ℕ) : ℚ)
            status := .FILLED }, [], none) := by
      simp only [fireTask, hgetO]
      rw [if_neg hguard, if_pos h19, if_neg hmid]
    rw [stepEvent_runTask_some hget, hfire]
    dsimp only
    simp only [List.append_nil]
    refine inv_fire_fill hInv hget rfl homem hoid ?_ ?_ ?_ ?_ ?_ ?_ _ _ _
    · rfl
    · rfl
    · show executed + (o.quantity - executed) ≤ o.quantity
      omega
    · show OrderStatus.FILLED = OrderStatus.FILLED ↔
        executed + (o.quantity - executed) = o.quantity
      simp
      omega
    · exact Or.inl rfl
    · intro hpf
      exact absurd hpf (by simp)

theorem inv_run_vwapSlice {log : ℚ → ℚ} {s : OMS} (hInv : Inv s) {i : ℕ} {r : Rand}
    {oid : ℕ} {venue : Venue} {hV : ℚ} {executed : ℕ} {tv : ℚ} {count : ℕ}
    (hget : s.tasks.get? i = some (.vwapSlice oid venue hV executed tv count)) :
    Inv (stepEvent log s (.runTask i r)) := by
  obtain ⟨o, homem, hoid, hnrej, htoi⟩ :=
    hInv.taskOrder (.vwapSlice oid venue hV executed tv count) (List.get?_mem hget)
  have hgetO : getOrder s oid = some o := by
    rw [show oid = (Task.vwapSlice oid venue hV executed tv count).oid from rfl, ← hoid]
    exact getOrder_eq_of_mem hInv.idNodup homem
  obtain ⟨hfill0, hexec, hcnt⟩ := htoi
  have hguard : ¬ (count ≥ 15) := by omega
  have hexec1 : executed + ⌊(o.quantity : ℚ) * getVolumeWeight count 15⌋₊ =
      vwapExec o.quantity (count + 1) := by
    rw [hexec, vwapExec_succ]
  have hexec1le : executed + ⌊(o.quantity : ℚ) * getVolumeWeight count 15⌋₊ ≤ o.quantity := by
    rw [hexec1]
    exact vwapExec_le o.quantity (count + 1) (by omega)
  by_cases hmid : (count + 1 < 15 ∧
      executed + ⌊(o.quantity : ℚ) * getVolumeWeight count 15⌋₊ < o.quantity)
  · have hfire : fireTask log s (.vwapSlice oid venue hV executed tv count) r =
        (createTrade s o ⌊(o.quantity : ℚ) * getVolumeWeight count 15⌋₊
          (calculateVWAPFillPrice (simulateMarketPrice r.u1) o.side
            (if |(simulateMarketPrice r.u1 - hV) / hV| > 2/100 then 8/10 else 5/10)) venue,
         [.vwapSlice oid venue hV
           (executed + ⌊(o.quantity : ℚ) * getVolumeWeight count 15⌋₊)
           (tv + calculateVWAPFillPrice (simulateMarketPrice r.u1) o.side
             (if |(simulateMarketPrice r.u1 - hV) / hV| > 2/100 then 8/10 else 5/10) *
             ((⌊(o.quantity : ℚ) * getVolumeWeight count 15⌋₊ : ℕ) : ℚ)) (count + 1)], none) := by
      simp only [fireTask, hgetO]
      rw [if_neg hguard, if_pos hmid]
    rw [stepEvent_runTask_some hget, hfire]
    dsimp only
    refine inv_fire_slice hInv hget rfl rfl homem hoid ?_ ?_ ?_ ?_ _ _ _
    · rfl
    · rfl
    · rfl
    · exact ⟨hfill0, hexec1, by omega⟩
  · have hfire : fireTask log s (.vwapSlice oid venue hV executed tv count) r =
        (setOrder (createTrade s o ⌊(o.quantity : ℚ) * getVolumeWeight count 15⌋₊
          (calculateVWAPFillPrice (simulateMarketPrice r.u1) o.side
            (if |(simulateMarketPrice r.u1 - hV) / hV| > 2/100 then 8/10 else 5/10)) venue)
          { o with
            fillQuantity := executed + ⌊(o.quantity : ℚ) * getVolumeWeight count 15⌋₊
            avgFillPrice := (tv + calculateVWAPFillPrice (simulateMarketPrice r.u1) o.side
              (if |(simulateMarketPrice r.u1 - hV) / hV| > 2/100 then 8/10 else 5/10) *
              ((⌊(o.quantity : ℚ) * getVolumeWeight count 15⌋₊ : ℕ) : ℚ)) /
              ((executed + ⌊(o.quantity : ℚ) * getVolumeWeight count 15⌋₊ : ℕ) : ℚ)
            status := if executed + ⌊(o.quantity : ℚ) * getVolumeWeight count 15⌋₊ = o.quantity
              then .FILLED else .PARTIALLY_FILLED }, [], none) := by
      simp only [fireTask, hgetO]
      rw [if_neg hguard, if_neg hmid]
    rw [stepEvent_runTask_some hget, hfire]
    dsimp only
    simp only [List.append_nil]
    refine inv_fire_fill hInv hget rfl homem hoid ?_ ?_ ?_ ?_ ?_ ?_ _ _ _
    · rfl
    · rfl
    · exact hexec1le
    · show (if executed + ⌊(o.quantity : ℚ) * getVolumeWeight count 15⌋₊ = o.quantity
          then OrderStatus.FILLED else OrderStatus.PARTIALLY_FILLED) = .FILLED ↔
        executed + ⌊(o.quantity : ℚ) * getVolumeWeight count 15⌋₊ = o.quantity
      split <;> simp_all
    · show (if executed + ⌊(o.quantity : ℚ) * getVolumeWeight count 15⌋₊ = o.quantity
          then OrderStatus.FILLED else OrderStatus.PARTIALLY_FILLED) = .FILLED ∨
        (if executed + ⌊(o.quantity : ℚ) * getVolumeWeight count 15⌋₊ = o.quantity
          then OrderStatus.FILLED else OrderStatus.PARTIALLY_FILLED) = .PARTIALLY_FILLED
      split
      · exact Or.inl rfl
      · exact Or.inr rfl
    · intro _
      rfl

/-- The global invariant is preserved by every valid event. -/
theorem inv_step {log : ℚ → ℚ} {s : OMS} (hInv : Inv s) {e : Event} (hv : e.Valid) :
    Inv (stepEvent log s e) := by
  cases e with
  | submit req r => exact inv_submit hInv log req r
  | cancel oid =>
    show Inv (cancelOrder s oid).2
    rcases hgo : getOrder s oid with _ | o
    · have heq : (cancelOrder s oid).2 = s := by
        simp only [cancelOrder, hgo]
      rw [heq]
      exact hInv
    · by_cases hst : o.status = .SUBMITTED
      · have heq : (cancelOrder s oid).2 = setOrder s { o with status := .CANCELLED } := by
          simp only [cancelOrder, hgo]
          rw [if_pos hst]
        rw [heq]
        have h3 := inv_cancel_update hInv (getOrder_mem hgo).1 hst (List.Sublist.refl s.tasks)
        have h4 : ({ setOrder s { o with status := OrderStatus.CANCELLED } with
            tasks := s.tasks } : OMS) = setOrder s { o with status := OrderStatus.CANCELLED } := by
          rw [← setOrder_tasks s { o with status := OrderStatus.CANCELLED }]
        rw [← h4]
        exact h3
      · have heq : (cancelOrder s oid).2 = s := by
          simp only [cancelOrder, hgo]
          rw [if_neg hst]
        rw [heq]
        exact hInv
  | runTask i r =>
    rcases hget : s.tasks.get? i with _ | t
    · have heq : stepEvent log s (.runTask i r) = s := by
        simp only [stepEvent]
        rw [hget]
      rw [heq]
      exact hInv
    · cases t with
      | marketFill oid venue => exact inv_run_marketFill hInv hget
      | limitPoll oid venue => exact inv_run_limitPoll hInv hget
      | limitExpire oid => exact inv_run_limitExpire hInv hget
      | stopPoll oid venue => exact inv_run_stopPoll hInv hget
      | stopLimitPoll oid venue => exact inv_run_stopLimitPoll hInv hget
      | icebergSlice oid venue dq rem tQty tPx => exact inv_run_icebergSlice hInv hv hget
      | twapSlice oid venue sliceSize executed tv count => exact inv_run_twapSlice hInv hget
      | vwapSlice oid venue hV executed tv count => exact inv_run_vwapSlice hInv hget
  | tick =>
    show Inv { s with now := s.now + 1 }
    exact ⟨hInv.idLt, hInv.idNodup, hInv.fillLe, hInv.filledEq, hInv.eqFilled, hInv.zeroFill,
      hInv.pfNoTask, hInv.taskOrder, hInv.fillCapUnique, hInv.expireShape, hInv.tradeOrder⟩

/-- The invariant holds along every valid run. -/
theorem Steps_inv {log : ℚ → ℚ} {s1 s2 : OMS} (h : Steps log s1 s2) (hInv : Inv s1) :
    Inv s2 := by
  induction h with
  | refl => exact hInv
  | tail e hsteps hv ih => exact inv_step ih hv

/-- Every state reachable from the fresh system satisfies the invariant. -/
theorem reachable_inv {log : ℚ → ℚ} {s : OMS} (h : Steps log OMS.init s) : Inv s :=
  Steps_inv h Inv.init

theorem selectOptimalVenue_spec (log : ℚ → ℚ) (r : SubmitRand) (order : Order) :
    ∃ m : Venue × ℚ,
      firstMaxByScore (venues.map (fun v => (v, calculateVenueScore log r order v))) = some m ∧
      selectOptimalVenue log r order = m.1 ∧
      m.2 = calculateVenueScore log r order m.1 ∧ m.1 ∈ venues := by
  set f := fun v => (v, calculateVenueScore log r order v) with hf
  obtain ⟨m, hm⟩ : ∃ m, firstMaxByScore (venues.map f) = some m := by
    rcases hs : venues.map f with _ | ⟨x, xs⟩
    · exact absurd hs (by simp [venues])
    · exact Option.ne_none_iff_exists'.mp (firstMaxByScore_ne_none x xs)
  refine ⟨m, hm, ?_, ?_, ?_⟩
  · show ((sortByScoreDesc (venues.map f)).headD (Venue.NYSE, 0)).1 = m.1
    rw [List.headD_eq_head?_getD, sortByScoreDesc_head, hm]
    rfl
  · have := firstMaxByScore_mem hm
    rcases List.mem_map.mp this with ⟨v, _, he⟩
    rw [← he]
  · have := firstMaxByScore_mem hm
    rcases List.mem_map.mp this with ⟨v, hv, he⟩
    rw [← he]
    exact hv

/-- C5: each candidate venue's composite score equals
`0.40·liquidity + 0.25·fillProbability + 0.20·(1 − feeRate)·100
− 0.10·marketImpact + 0.15·(1/latency)·10` clamped below at `0`, and
`selectOptimalVenue` returns the candidate with the highest score, ties
resolving to the earlier venue in declaration order. -/
theorem C5_venue_score_and_selection (log : ℚ → ℚ) (r : SubmitRand) (order : Order) :
    (∀ v : Venue, calculateVenueScore log r order v =
        max 0 ((40/100) * getLiquidityScore r v + (25/100) * getFillProbability r order v +
          (20/100) * ((1 - venueFees v) * 100) - (10/100) * getMarketImpact log order v +
          (15/100) * ((1 / venueLatency v) * 10)) ∧
      0 ≤ calculateVenueScore log r order v) ∧
    selectOptimalVenue log r order ∈ venues ∧
    (∀ v ∈ venues, calculateVenueScore log r order v ≤
      calculateVenueScore log r order (selectOptimalVenue log r order)) ∧
    ∃ idx : ℕ, venues.get? idx = some (selectOptimalVenue log r order) ∧
      ∀ j, j < idx → ∀ w, venues.get? j = some w →
        calculateVenueScore log r order w <
          calculateVenueScore log r order (selectOptimalVenue log r order) := by
  obtain ⟨m, hm, hsel, hm2, hmem⟩ := selectOptimalVenue_spec log r order
  refine ⟨?_, ?_, ?_, ?_⟩
  · intro v
    constructor
    · unfold calculateVenueScore
      congr 1
      ring
    · exact le_max_left 0 _
  · rw [hsel]
    exact hmem
  · intro v hv
    have hvmem : (v, calculateVenueScore log r order v) ∈
        venues.map (fun v => (v, calculateVenueScore log r order v)) :=
      List.mem_map_of_mem _ hv
    have := firstMaxByScore_isMax hm _ hvmem
    rw [hsel, ← hm2]
    exact this
  · obtain ⟨idx, hidx, hlt⟩ := firstMaxByScore_earliest hm
    refine ⟨idx, ?_, ?_⟩
    · rw [List.get?_map] at hidx
      rcases hv : venues.get? idx with _ | v
      · rw [hv] at hidx
        exact Option.noConfusion hidx
      · rw [hv] at hidx
        simp at hidx
        rw [hsel, ← hidx]
    · intro j hj w hw
      have hsc : (venues.map (fun v => (v, calculateVenueScore log r order v))).get? j =
          some (w, calculateVenueScore log r order w) := by
        rw [List.get?_map, hw]
        rfl
      have := hlt j hj _ hsc
      rw [hsel, ← hm2]
      exact this

theorem floorRatDiv27 (m k : ℕ) (x : ℚ) (hx : x = (m : ℚ) / 27) (hk : m / 27 = k) :
    ⌊x⌋₊ = k := by
  rw [hx, show ((27 : ℚ)) = ((27 : ℕ) : ℚ) by norm_num, Nat.floor_div_nat,
    Nat.floor_natCast, hk]

theorem vwapExec_2000 : vwapExec 2000 15 = 1666 := by
  have e0 : ⌊(2000 : ℚ) * getVolumeWeight 0 15⌋₊ = 200 :=
    floorRatDiv27 5400 200 _ (by norm_num [getVolumeWeight]) (by norm_num)
  have e1 : ⌊(2000 : ℚ) * getVolumeWeight 1 15⌋₊ = 166 :=
    floorRatDiv27 4504 166 _ (by norm_num [getVolumeWeight]) (by norm_num)
  have e2 : ⌊(2000 : ℚ) * getVolumeWeight 2 15⌋₊ = 138 :=
    floorRatDiv27 3736 138 _ (by norm_num [getVolumeWeight]) (by norm_num)
  have e3 : ⌊(2000 : ℚ) * getVolumeWeight 3 15⌋₊ = 114 :=
    floorRatDiv27 3096 114 _ (by norm_num [getVolumeWeight]) (by norm_num)
  have e4 : ⌊(2000 : ℚ) * getVolumeWeight 4 15⌋₊ = 95 :=
    floorRatDiv27 2584 95 _ (by norm_num [getVolumeWeight]) (by norm_num)
  have e5 : ⌊(2000 : ℚ) * getVolumeWeight 5 15⌋₊ = 81 :=
    floorRatDiv27 2200 81 _ (by norm_num [getVolumeWeight]) (by norm_num)
  have e6 : ⌊(2000 : ℚ) * getVolumeWeight 6 15⌋₊ = 72 :=
    floorRatDiv27 1944 72 _ (by norm_num [getVolumeWeight]) (by norm_num)
  have e7 : ⌊(2000 : ℚ) * getVolumeWeight 7 15⌋₊ = 67 :=
    floorRatDiv27 1816 67 _ (by norm_num [getVolumeWeight]) (by norm_num)
  have e8 : ⌊(2000 : ℚ) * getVolumeWeight 8 15⌋₊ = 67 :=
    floorRatDiv27 1816 67 _ (by norm_num [getVolumeWeight]) (by norm_num)
  have e9 : ⌊(2000 : ℚ) * getVolumeWeight 9 15⌋₊ = 72 :=
    floorRatDiv27 1944 72 _ (by norm_num [getVolumeWeight]) (by norm_num)
  have e10 : ⌊(2000 : ℚ) * getVolumeWeight 10 15⌋₊ = 81 :=
    floorRatDiv27 2200 81 _ (by norm_num [getVolumeWeight]) (by norm_num)
  have e11 : ⌊(2000 : ℚ) * getVolumeWeight 11 15⌋₊ = 95 :=
    floorRatDiv27 2584 95 _ (by norm_num [getVolumeWeight]) (by norm_num)
  have e12 : ⌊(2000 : ℚ) * getVolumeWeight 12 15⌋₊ = 114 :=
    floorRatDiv27 3096 114 _ (by norm_num [getVolumeWeight]) (by norm_num)
  have e13 : ⌊(2000 : ℚ) * getVolumeWeight 13 15⌋₊ = 138 :=
    floorRatDiv27 3736 138 _ (by norm_num [getVolumeWeight]) (by norm_num)
  have e14 : ⌊(2000 : ℚ) * getVolumeWeight 14 15⌋₊ = 166 :=
    floorRatDiv27 4504 166 _ (by norm_num [getVolumeWeight]) (by norm_num)
  unfold vwapExec
  rw [Finset.sum_range_succ, Finset.sum_range_succ, Finset.sum_range_succ,
    Finset.sum_range_succ, Finset.sum_range_succ, Finset.sum_range_succ,
    Finset.sum_range_succ, Finset.sum_range_succ, Finset.sum_range_succ,
    Finset.sum_range_succ, Finset.sum_range_succ, Finset.sum_range_succ,
    Finset.sum_range_succ, Finset.sum_range_succ, Finset.sum_range_succ,
    Finset.sum_range_zero]
  push_cast
  rw [e0, e1, e2, e3, e4, e5, e6, e7, e8, e9, e10, e11, e12, e13, e14]

/-- C7 (counterexample): the 15 slice weights do not sum to approximately
1 — for the spec's own example quantity 2000 the floored slice quantities
cover only 1666 of 2000 shares, a shortfall far beyond the at-most-14
shares that mere rounding of 15 slices could explain. -/
theorem C7_counterexample :
    ¬ (∀ Q : ℕ, Q ≤ 14 + vwapExec Q 15) := by
  intro h
  have h1 := h 2000
  rw [vwapExec_2000] at h1
  omega

/-- C7 (amended): the slice weights of `getVolumeWeight` sum to exactly
`1129/1350 ≈ 0.836`, so the per-slice quantities `⌊Q·weight(i)⌋` cover,
up to rounding, only the fraction `1129/1350` of the requested quantity. -/
theorem C7_amended_weight_sum :
    (Finset.range 15).sum (fun i => getVolumeWeight i 15) = 1129/1350 ∧
    ∀ Q : ℕ, (vwapExec Q 15 : ℚ) ≤ (Q : ℚ) * (1129/1350) ∧
      (Q : ℚ) * (1129/1350) - 15 < (vwapExec Q 15 : ℚ) := by
  refine ⟨sumWeights15_eq, ?_⟩
  intro Q
  refine ⟨vwapExec_cast_le Q 15 le_rfl, ?_⟩
  have hsum : (Q : ℚ) * (1129/1350) =
      (Finset.range 15).sum (fun i => (Q : ℚ) * getVolumeWeight i 15) := by
    rw [← Finset.mul_sum, sumWeights15_eq]
  have hlt : (Finset.range 15).sum (fun i => (Q : ℚ) * getVolumeWeight i 15) <
      (Finset.range 15).sum (fun i => (⌊(Q : ℚ) * getVolumeWeight i 15⌋₊ : ℚ) + 1) := by
    apply Finset.sum_lt_sum_of_nonempty
    · exact Finset.nonempty_range_iff.mpr (by omega)
    · intro i _
      exact Nat.lt_floor_add_one _
  have hsplit : (Finset.range 15).sum (fun i => (⌊(Q : ℚ) * getVolumeWeight i 15⌋₊ : ℚ) + 1) =
      (vwapExec Q 15 : ℚ) + 15 := by
    rw [Finset.sum_add_distrib]
    unfold vwapExec
    push_cast
    simp
  rw [hsum]
  rw [hsplit] at hlt
  linarith

theorem getOrder_single (s : OMS) (o : Order) (h : s.orders = [o]) :
    getOrder s o.id = some o := by
  unfold getOrder
  rw [h]
  exact List.find?_cons_of_pos _ (by simp)

theorem setOrder_single {s : OMS} {o : Order} (h : s.orders = [o]) (newO : Order)
    (hid : newO.id = o.id) : (setOrder s newO).orders = [newO] := by
  unfold setOrder
  rw [h]
  rw [if_pos (by simp [hid])]
  simp [hid]

theorem twap_step_mid (log : ℚ → ℚ) (r : Rand) (o : Order) (v : Venue) (tv : ℚ) {k : ℕ}
    (hk : k < 19) (c2 n : ℕ) (trs : List Trade) :
    stepEvent log (twapMid o v trs tv k c2 n) (.runTask 0 r) =
      twapMid o v (trs ++ [{
        id := c2
        orderId := o.id
        symbol := o.symbol
        side := o.side
        quantity := o.quantity / 20
        price := twapFillPrice log r o v (o.quantity / 20)
        timestamp := n
        commission := calculateCommission (o.quantity / 20)
          (twapFillPrice log r o v (o.quantity / 20)) v
        venue := v }])
        (tv + twapFillPrice log r o v (o.quantity / 20) * ((o.quantity / 20 : ℕ) : ℚ))
        (k + 1) (c2 + 1) n := by
  have hget : (twapMid o v trs tv k c2 n).tasks.get? 0 =
      some (.twapSlice o.id v (o.quantity / 20) (k * (o.quantity / 20)) tv k) := rfl
  have hgetO : getOrder (twapMid o v trs tv k c2 n) o.id = some o :=
    getOrder_single _ o rfl
  have hfire : fireTask log (twapMid o v trs tv k c2 n)
      (.twapSlice o.id v (o.quantity / 20) (k * (o.quantity / 20)) tv k) r =
      (createTrade (twapMid o v trs tv k c2 n) o (o.quantity / 20)
        (twapFillPrice log r o v (o.quantity / 20)) v,
       [.twapSlice o.id v (o.quantity / 20) (k * (o.quantity / 20) + o.quantity / 20)
         (tv + twapFillPrice log r o v (o.quantity / 20) * ((o.quantity / 20 : ℕ) : ℚ))
         (k + 1)], none) := by
    simp only [fireTask, hgetO]
    rw [if_neg (by omega : ¬ k ≥ 20), if_neg (by omega : ¬ k = 19),
      if_pos (by omega : k + 1 < 20)]
    rfl
  rw [stepEvent_runTask_some hget, hfire]
  dsimp only
  unfold twapMid
  simp only [OMS.mk.injEq]
  refine ⟨rfl, rfl, ?_, rfl, rfl, rfl⟩
  show [] ++ _ ++ [] = _
  rw [show (k + 1) * (o.quantity / 20) = k * (o.quantity / 20) + o.quantity / 20 by ring]
  simp

theorem twap_step_final (log : ℚ → ℚ) (r : Rand) (o : Order) (v : Venue) (tv : ℚ)
    (c2 n : ℕ) (trs : List Trade) :
    ∃ (av : ℚ) (lastTr : Trade),
      stepEvent log (twapMid o v trs tv 19 c2 n) (.runTask 0 r) =
        { orders := [{ o with
            fillQuantity := o.quantity
            avgFillPrice := av
            status := .FILLED }]
          trades := trs ++ [lastTr]
          tasks := []
          orderIdCounter := 2
          tradeIdCounter := c2 + 1
          now := n } ∧
      lastTr.orderId = o.id ∧ lastTr.quantity = o.quantity - 19 * (o.quantity / 20) ∧
      lastTr.timestamp = n := by
  have hget : (twapMid o v trs tv 19 c2 n).tasks.get? 0 =
      some (.twapSlice o.id v (o.quantity / 20) (19 * (o.quantity / 20)) tv 19) := rfl
  have hgetO : getOrder (twapMid o v trs tv 19 c2 n) o.id = some o :=
    getOrder_single _ o rfl
  have hdiv : 19 * (o.quantity / 20) ≤ o.quantity := by
    have := Nat.div_mul_le_self o.quantity 20
    omega
  set lastq := o.quantity - 19 * (o.quantity / 20) with hlastq
  set px := twapFillPrice log r o v lastq with hpx
  have hfire : fireTask log (twapMid o v trs tv 19 c2 n)
      (.twapSlice o.id v (o.quantity / 20) (19 * (o.quantity / 20)) tv 19) r =
      (setOrder (createTrade (twapMid o v trs tv 19 c2 n) o lastq px v)
        { o with
          fillQuantity := 19 * (o.quantity / 20) + lastq
          avgFillPrice := (tv + px * ((lastq : ℕ) : ℚ)) /
            ((19 * (o.quantity / 20) + lastq : ℕ) : ℚ)
          status := .FILLED }, [], none) := by
    simp only [fireTask, hgetO]
    norm_num
    rw [hpx]
    unfold twapFillPrice
    rcases o.side with _ | _ <;> rfl
  refine ⟨(tv + px * ((lastq : ℕ) : ℚ)) / ((19 * (o.quantity / 20) + lastq : ℕ) : ℚ),
    { id := c2
      orderId := o.id
      symbol := o.symbol
      side := o.side
      quantity := lastq
      price := px
      timestamp := n
      commission := calculateCommission lastq px v
      venue := v }, ?_, rfl, rfl, rfl⟩
  rw [stepEvent_runTask_some hget, hfire]
  dsimp only
  simp only [OMS.mk.injEq]
  have hords := @setOrder_single (createTrade (twapMid o v trs tv 19 c2 n) o lastq px v) o rfl
    { o with
      fillQuantity := 19 * (o.quantity / 20) + lastq
      avgFillPrice := (tv + px * ((lastq : ℕ) : ℚ)) /
        ((19 * (o.quantity / 20) + lastq : ℕ) : ℚ)
      status := .FILLED } rfl
  refine ⟨?_, by rw [setOrder_trades]; rfl, by rfl, by rw [setOrder_orderIdCounter]; rfl,
    by rw [setOrder_tradeIdCounter]; rfl, by rw [setOrder_now]; rfl⟩
  rw [hords]
  rw [show 19 * (o.quantity / 20) + lastq = o.quantity by omega]

theorem twap_run_mid (log : ℚ → ℚ) (o : Order) (v : Venue) :
    ∀ (rs : List Rand) (k : ℕ), k + rs.length ≤ 19 →
    ∀ (trs : List Trade) (tv : ℚ) (c2 n : ℕ),
    ∃ (trs' : List Trade) (tv' : ℚ),
      rs.foldl (fun s r => stepEvent log s (.runTask 0 r)) (twapMid o v trs tv k c2 n) =
        twapMid o v (trs ++ trs') tv' (k + rs.length) (c2 + rs.length) n ∧
      trs'.length = rs.length ∧
      ∀ tr ∈ trs', tr.orderId = o.id ∧ tr.quantity = o.quantity / 20 ∧ tr.timestamp = n := by
  intro rs
  induction rs with
  | nil =>
    intro k hk trs tv c2 n
    exact ⟨[], tv, by simp, rfl, by simp⟩
  | cons r rs ih =>
    intro k hk trs tv c2 n
    have hk19 : k < 19 := by
      simp only [List.length_cons] at hk; omega
    rw [List.foldl_cons]
    have hstep := twap_step_mid log r o v tv hk19 c2 n trs
    rw [hstep]
    obtain ⟨trs', tv', heq, hlen, hall⟩ :=
      ih (k + 1) (by simp only [List.length_cons] at hk; omega)
        (trs ++ [{
          id := c2
          orderId := o.id
          symbol := o.symbol
          side := o.side
          quantity := o.quantity / 20
          price := twapFillPrice log r o v (o.quantity / 20)
          timestamp := n
          commission := calculateCommission (o.quantity / 20)
            (twapFillPrice log r o v (o.quantity / 20)) v
          venue := v }])
        (tv + twapFillPrice log r o v (o.quantity / 20) * ((o.quantity / 20 : ℕ) : ℚ))
        (c2 + 1) n
    refine ⟨{
        id := c2
        orderId := o.id
        symbol := o.symbol
        side := o.side
        quantity := o.quantity / 20
        price := twapFillPrice log r o v (o.quantity / 20)
        timestamp := n
        commission := calculateCommission (o.quantity / 20)
          (twapFillPrice log r o v (o.quantity / 20)) v
        venue := v } :: trs', tv', ?_, ?_, ?_⟩
    · rw [heq, List.append_assoc]
      simp only [List.singleton_append, List.length_cons]
      rw [show k + 1 + rs.length = k + (rs.length + 1) from by omega,
        show c2 + 1 + rs.length = c2 + (rs.length + 1) from by omega]
    · simp [hlen]
    · intro tr htr
      rcases List.mem_cons.mp htr with h | h
      · subst h; exact ⟨rfl, rfl, rfl⟩
      · exact hall tr h

/-- If every trade in a list has the same quantity, the quantities sum to
the length times that quantity. -/
theorem trades_quantity_sum (l : List Trade) (c : ℕ) (h : ∀ tr ∈ l, tr.quantity = c) :
    (l.map Trade.quantity).sum = l.length * c := by
  induction l with
  | nil => simp
  | cons t ts ih =>
    simp only [List.map_cons, List.sum_cons, List.length_cons]
    rw [h t (List.mem_cons_self t ts), ih (fun tr htr => h tr (List.mem_cons_of_mem t htr))]
    ring

theorem twap_submit (log : ℚ → ℚ) (sym : String) (side : Side) (Q : ℕ) (stp : Option ℚ)
    (dq : Option ℕ) (tif : TimeInForce) (r0 : SubmitRand) (hQ : Q ≤ 50000) :
    submitOrder log OMS.init ⟨sym, side, .TWAP, Q, none, stp, dq, tif⟩ r0 =
      (1, twapMid
        { id := 1
          symbol := sym
          side := side
          type := .TWAP
          quantity := Q
          price := none
          stopPrice := stp
          displayQuantity := dq
          timeInForce := tif
          status := .SUBMITTED
          fillQuantity := 0
          avgFillPrice := 0
          commission := 0
          timestamp := 0 }
        (selectOptimalVenue log r0 (mkOrder OMS.init ⟨sym, side, .TWAP, Q, none, stp, dq, tif⟩))
        [] 0 0 1 0) := by
  have hrisk : preTradeRiskCheck
      { OMS.init with orderIdCounter := OMS.init.orderIdCounter + 1 }
      (mkOrder OMS.init ⟨sym, side, .TWAP, Q, none, stp, dq, tif⟩) = true := by
    have hQ' : ¬ ((Q : ℚ) * 100 > 5000000) := by
      have h1 : (Q : ℚ) ≤ 50000 := by exact_mod_cast hQ
      push_neg
      linarith
    simp only [preTradeRiskCheck, mkOrder]
    rw [if_neg (by omega : ¬ Q > 50000), if_neg hQ']
    rfl
  simp only [submitOrder]
  rw [if_pos hrisk]
  simp only [twapMid, Nat.zero_mul]
  rfl

/-- C6: an accepted TWAP order of quantity `Q` executes exactly 20 slices:
after the 20 timer callbacks fire there are exactly 20 trades for the
order, slices 0..18 each of size `Q / 20` (floor division) and the last
slice absorbing the remainder `Q - 19 * (Q / 20)`, the trade quantities
sum to exactly `Q`, and the order ends with `fillQuantity = Q` and status
`FILLED`. -/
theorem C6_twap_twenty_slices (log : ℚ → ℚ) (sym : String) (side : Side) (Q : ℕ)
    (stp : Option ℚ) (dq : Option ℕ) (tif : TimeInForce) (r0 : SubmitRand)
    (hQ : Q ≤ 50000) (rs : List Rand) (hlen : rs.length = 20) :
    ∃ (oid : ℕ) (s1 s2 : OMS),
      submitOrder log OMS.init ⟨sym, side, .TWAP, Q, none, stp, dq, tif⟩ r0 = (oid, s1) ∧
      rs.foldl (fun s r => stepEvent log s (.runTask 0 r)) s1 = s2 ∧
      s2.trades.length = 20 ∧
      (∀ tr ∈ s2.trades, tr.orderId = oid) ∧
      (∀ j : ℕ, j < 19 → ∃ tr, s2.trades.get? j = some tr ∧ tr.quantity = Q / 20) ∧
      (∃ tr, s2.trades.get? 19 = some tr ∧ tr.quantity = Q - 19 * (Q / 20)) ∧
      (s2.trades.map Trade.quantity).sum = Q ∧
      ∃ o2, getOrder s2 oid = some o2 ∧ o2.fillQuantity = Q ∧ o2.status = .FILLED := by
  have hdiv : 19 * (Q / 20) ≤ Q := by
    have := Nat.div_mul_le_self Q 20
    omega
  have hne : rs ≠ [] := by
    intro h
    rw [h] at hlen
    simp at hlen
  have hsplit := List.dropLast_append_getLast hne
  have hlen19 : rs.dropLast.length = 19 := by
    rw [List.length_dropLast, hlen]
  set o1 : Order :=
    { id := 1
      symbol := sym
      side := side
      type := .TWAP
      quantity := Q
      price := none
      stopPrice := stp
      displayQuantity := dq
      timeInForce := tif
      status := .SUBMITTED
      fillQuantity := 0
      avgFillPrice := 0
      commission := 0
      timestamp := 0 } with ho1
  set v : Venue :=
    selectOptimalVenue log r0 (mkOrder OMS.init ⟨sym, side, .TWAP, Q, none, stp, dq, tif⟩)
    with hv
  obtain ⟨trs', tv', heq, hlen', hall⟩ :=
    twap_run_mid log o1 v rs.dropLast 0 (by omega) [] 0 1 0
  rw [hlen19] at heq hlen'
  norm_num at heq
  obtain ⟨av, lastTr, hfin, hloid, hlqty, hlts⟩ :=
    twap_step_final log (rs.getLast hne) o1 v tv' 20 0 trs'
  refine ⟨1, twapMid o1 v [] 0 0 1 0,
    { orders := [{ o1 with
        fillQuantity := o1.quantity
        avgFillPrice := av
        status := .FILLED }]
      trades := trs' ++ [lastTr]
      tasks := []
      orderIdCounter := 2
      tradeIdCounter := 20 + 1
      now := 0 },
    twap_submit log sym side Q stp dq tif r0 hQ, ?_, ?_, ?_, ?_, ?_, ?_, ?_⟩
  · rw [← hsplit, List.foldl_append, heq, List.foldl_cons, List.foldl_nil]
    exact hfin
  · rw [List.length_append, hlen']
    rfl
  · intro tr htr
    rcases List.mem_append.mp htr with h | h
    · exact (hall tr h).1
    · rw [List.mem_singleton.mp h]
      exact hloid
  · intro j hj
    have hj' : j < trs'.length := by omega
    rw [show (trs' ++ [lastTr]).get? j = trs'.get? j from List.get?_append hj']
    exact ⟨trs'.get ⟨j, hj'⟩, List.get?_eq_get hj',
      (hall _ (trs'.get_mem j hj')).2.1⟩
  · refine ⟨lastTr, ?_, hlqty⟩
    rw [List.get?_append_right (by omega), hlen']
    rfl
  · rw [List.map_append, List.sum_append]
    rw [trades_quantity_sum trs' (Q / 20) (fun tr htr => (hall tr htr).2.1), hlen']
    simp only [List.map_cons, List.map_nil, List.sum_cons, List.sum_nil]
    rw [hlqty]
    show 19 * (Q / 20) + (Q - 19 * (Q / 20) + 0) = Q
    omega
  · exact ⟨{ o1 with
        fillQuantity := o1.quantity
        avgFillPrice := av
        status := .FILLED },
      getOrder_single _ { o1 with
        fillQuantity := o1.quantity
        avgFillPrice := av
        status := .FILLED } rfl, rfl, rfl⟩

/-- Witness for C6 at quantity 2000: the hypotheses hold concretely. -/
theorem C6_twap_twenty_slices_witness :
    2000 ≤ 50000 ∧ (List.replicate 20 (⟨1/2, 1/2⟩ : Rand)).length = 20 ∧
    (∃ (oid : ℕ) (s1 s2 : OMS),
      submitOrder (fun _ => 0) OMS.init
        ⟨"AAPL", .BUY, .TWAP, 2000, none, none, none, .GTC⟩
        ⟨fun _ => 1/2, fun _ => 1/2, 1/2⟩ = (oid, s1) ∧
      (List.replicate 20 (⟨1/2, 1/2⟩ : Rand)).foldl
        (fun s r => stepEvent (fun _ => 0) s (.runTask 0 r)) s1 = s2 ∧
      s2.trades.length = 20 ∧
      (∀ tr ∈ s2.trades, tr.orderId = oid) ∧
      (∀ j : ℕ, j < 19 → ∃ tr, s2.trades.get? j = some tr ∧ tr.quantity = 2000 / 20) ∧
      (∃ tr, s2.trades.get? 19 = some tr ∧ tr.quantity = 2000 - 19 * (2000 / 20)) ∧
      (s2.trades.map Trade.quantity).sum = 2000 ∧
      ∃ o2, getOrder s2 oid = some o2 ∧ o2.fillQuantity = 2000 ∧ o2.status = .FILLED) :=
  ⟨by norm_num, by simp,
    C6_twap_twenty_slices (fun _ => 0) "AAPL" .BUY 2000 none none .GTC
      ⟨fun _ => 1/2, fun _ => 1/2, 1/2⟩ (by norm_num)
      (List.replicate 20 ⟨1/2, 1/2⟩) (by simp)⟩

/-- A priced-at-market request of quantity at most 50000 passes the risk
gate on the fresh system, and the post-submit state records exactly the
one `SUBMITTED` order. -/
theorem submit_accept_state (log : ℚ → ℚ) (req : OrderRequest) (r0 : SubmitRand)
    (hq : req.quantity ≤ 50000) (hp : req.price = none) :
    ∃ ts : List Task,
      stepEvent log OMS.init (.submit req r0) =
        { orders := [{ mkOrder OMS.init req with status := .SUBMITTED }]
          trades := []
          tasks := ts
          orderIdCounter := 2
          tradeIdCounter := 1
          now := 0 } := by
  have h1 : ¬ (req.quantity > 50000) := by omega
  have h2 : ¬ ((req.quantity : ℚ) * 100 > 5000000) := by
    have h3 : (req.quantity : ℚ) ≤ 50000 := by exact_mod_cast hq
    push_neg
    linarith
  have hrisk : preTradeRiskCheck
      { OMS.init with orderIdCounter := OMS.init.orderIdCounter + 1 }
      (mkOrder OMS.init req) = true := by
    simp only [preTradeRiskCheck, mkOrder, hp]
    rw [if_neg h1, if_neg h2]
    rfl
  obtain ⟨ts, hd, -, -, -⟩ := dispatchTasks_spec'
    (setOrder { OMS.init with orderIdCounter := OMS.init.orderIdCounter + 1 }
      { mkOrder OMS.init req with status := .SUBMITTED })
    { mkOrder OMS.init req with status := .SUBMITTED }
    (selectOptimalVenue log r0 (mkOrder OMS.init req)) r0 rfl
  refine ⟨ts, ?_⟩
  show (submitOrder log OMS.init req r0).2 = _
  simp only [submitOrder]
  rw [if_pos hrisk, hd]
  rfl

/-- Counterexample to C1 as stated: a zero-quantity order is accepted by
the risk gate and recorded as `SUBMITTED` with `fillQuantity = 0 =
quantity`, so "fillQuantity equals the requested quantity iff the status
is FILLED" fails (the left side holds, the right does not). -/
theorem C1_counterexample :
    ¬ (∀ (log : ℚ → ℚ) (s : OMS), Steps log OMS.init s → ∀ o ∈ s.orders,
        o.fillQuantity ≤ o.quantity ∧
        (o.fillQuantity = o.quantity ↔ o.status = .FILLED)) := by
  intro h
  have hval : (Event.submit ⟨"AAPL", .BUY, .MARKET, 0, none, none, none, .GTC⟩
      ⟨fun _ => 1/2, fun _ => 1/2, 1/2⟩).Valid :=
    ⟨fun v => by norm_num, by norm_num, by norm_num⟩
  have hsteps : Steps (fun _ => 0) OMS.init
      (stepEvent (fun _ => 0) OMS.init
        (.submit ⟨"AAPL", .BUY, .MARKET, 0, none, none, none, .GTC⟩
          ⟨fun _ => 1/2, fun _ => 1/2, 1/2⟩)) :=
    Steps.tail _ (Steps.refl OMS.init) hval
  obtain ⟨ts, hstate⟩ := submit_accept_state (fun _ => 0)
    ⟨"AAPL", .BUY, .MARKET, 0, none, none, none, .GTC⟩
    ⟨fun _ => 1/2, fun _ => 1/2, 1/2⟩ (by norm_num) rfl
  have horders : (stepEvent (fun _ => 0) OMS.init
      (.submit ⟨"AAPL", .BUY, .MARKET, 0, none, none, none, .GTC⟩
        ⟨fun _ => 1/2, fun _ => 1/2, 1/2⟩)).orders =
      [{ id := 1
         symbol := "AAPL"
         side := .BUY
         type := .MARKET
         quantity := 0
         price := none
         stopPrice := none
         displayQuantity := none
         timeInForce := .GTC
         status := .SUBMITTED
         fillQuantity := 0
         avgFillPrice := 0
         commission := 0
         timestamp := 0 }] := by
    rw [hstate]
    rfl
  have h2 := h (fun _ => 0) _ hsteps
      { id := 1
        symbol := "AAPL"
        side := .BUY
        type := .MARKET
        quantity := 0
        price := none
        stopPrice := none
        displayQuantity := none
        timeInForce := .GTC
        status := .SUBMITTED
        fillQuantity := 0
        avgFillPrice := 0
        commission := 0
        timestamp := 0 }
      (by rw [horders]; exact List.mem_singleton_self _)
  have h3 := h2.2.mp rfl
  simp at h3

/-- C1 (amended): along every valid run, every recorded order satisfies
`fillQuantity ≤ quantity` (the lower bound `0 ≤ fillQuantity` holds by the
`ℕ` embedding of the non-negative JS counter); status `FILLED` forces
`fillQuantity = quantity`; and conversely `fillQuantity = quantity` with
`quantity` positive forces status `FILLED`.  The positivity proviso is
necessary: a zero-quantity order stays `SUBMITTED` with a trivially full
fill of 0. -/
theorem C1_fill_bounds (log : ℚ → ℚ) (s : OMS) (hs : Steps log OMS.init s) :
    ∀ o ∈ s.orders, o.fillQuantity ≤ o.quantity ∧
      (o.status = .FILLED → o.fillQuantity = o.quantity) ∧
      (o.fillQuantity = o.quantity → 0 < o.quantity → o.status = .FILLED) := by
  have hInv := reachable_inv hs
  exact fun o ho =>
    ⟨hInv.fillLe o ho, hInv.filledEq o ho, fun h1 h2 => hInv.eqFilled o ho h1 h2⟩

/-- Witness for C1 (amended): the freshly submitted 100-share market order
satisfies the bounds. -/
theorem C1_fill_bounds_witness :
    ({ id := 1
       symbol := "AAPL"
       side := .BUY
       type := .MARKET
       quantity := 100
       price := none
       stopPrice := none
       displayQuantity := none
       timeInForce := .GTC
       status := .SUBMITTED
       fillQuantity := 0
       avgFillPrice := 0
       commission := 0
       timestamp := 0 } : Order).fillQuantity ≤ 100 ∧
    (({ id := 1
        symbol := "AAPL"
        side := .BUY
        type := .MARKET
        quantity := 100
        price := none
        stopPrice := none
        displayQuantity := none
        timeInForce := .GTC
        status := .SUBMITTED
        fillQuantity := 0
        avgFillPrice := 0
        commission := 0
        timestamp := 0 } : Order).status = .FILLED → (0 : ℕ) = 100) ∧
    ((0 : ℕ) = 100 → 0 < 100 →
      ({ id := 1
         symbol := "AAPL"
         side := .BUY
         type := .MARKET
         quantity := 100
         price := none
         stopPrice := none
         displayQuantity := none
         timeInForce := .GTC
         status := .SUBMITTED
         fillQuantity := 0
         avgFillPrice := 0
         commission := 0
         timestamp := 0 } : Order).status = .FILLED) := by
  obtain ⟨ts, hstate⟩ := submit_accept_state (fun _ => 0)
    ⟨"AAPL", .BUY, .MARKET, 100, none, none, none, .GTC⟩
    ⟨fun _ => 1/2, fun _ => 1/2, 1/2⟩ (by norm_num) rfl
  exact C1_fill_bounds (fun _ => 0) _
    (Steps.tail (.submit ⟨"AAPL", .BUY, .MARKET, 100, none, none, none, .GTC⟩
        ⟨fun _ => 1/2, fun _ => 1/2, 1/2⟩)
      (Steps.refl OMS.init)
      ⟨fun v => by norm_num, by norm_num, by norm_num⟩)
    _ (by rw [hstate]; exact List.mem_singleton_self _)

/-- C3: in every reachable state, `cancelOrder orderId` returns `true` and
sets the order's status to `CANCELLED` exactly when the order exists and
its status is `SUBMITTED`, or `PARTIALLY_FILLED` with a pending task for it
(the latter disjunct is vacuous in reachable states: a `PARTIALLY_FILLED`
order never has a pending task); for every other order id or status it
returns `false` and leaves the state unchanged. -/
theorem C3_cancel_iff (log : ℚ → ℚ) (s : OMS) (hs : Steps log OMS.init s) (oid : ℕ) :
    ((cancelOrder s oid).1 = true ↔
      ∃ o, getOrder s oid = some o ∧
        (o.status = .SUBMITTED ∨
          (o.status = .PARTIALLY_FILLED ∧ ∃ t ∈ s.tasks, t.oid = oid))) ∧
    ((cancelOrder s oid).1 = true →
      ∃ o, getOrder s oid = some o ∧
        (cancelOrder s oid).2 = setOrder s { o with status := .CANCELLED }) ∧
    ((cancelOrder s oid).1 = false → (cancelOrder s oid).2 = s) := by
  have hInv := reachable_inv hs
  rcases hget : getOrder s oid with _ | o
  · have hcan : cancelOrder s oid = (false, s) := by
      simp only [cancelOrder, hget]
    rw [hcan]
    refine ⟨?_, fun h => absurd h (by simp), fun _ => rfl⟩
    constructor
    · intro h
      exact absurd h (by simp)
    · rintro ⟨o, ho, -⟩
      exact absurd ho (by simp)
  · by_cases hst : o.status = OrderStatus.SUBMITTED
    · have hcan : cancelOrder s oid =
          (true, setOrder s { o with status := .CANCELLED }) := by
        simp only [cancelOrder, hget, if_pos hst]
      rw [hcan]
      exact ⟨⟨fun _ => ⟨o, rfl, .inl hst⟩, fun _ => rfl⟩,
        fun _ => ⟨o, rfl, rfl⟩, fun h => absurd h (by simp)⟩
    · have hcan : cancelOrder s oid = (false, s) := by
        simp only [cancelOrder, hget, if_neg hst]
      rw [hcan]
      refine ⟨?_, fun h => absurd h (by simp), fun _ => rfl⟩
      constructor
      · intro h
        exact absurd h (by simp)
      · rintro ⟨o', ho', hdisj⟩
        rw [Option.some_inj] at ho'
        subst ho'
        rcases hdisj with h | ⟨hpf, t, ht, htoid⟩
        · exact absurd h hst
        · obtain ⟨homem, hoid⟩ := getOrder_mem hget
          exact absurd (htoid.trans hoid.symm) (hInv.pfNoTask o homem hpf t ht)

theorem oneSubmitState_reachable : Steps (fun _ => 0) OMS.init oneSubmitState :=
  Steps.tail (.submit ⟨"AAPL", .BUY, .MARKET, 100, none, none, none, .GTC⟩
      ⟨fun _ => 1/2, fun _ => 1/2, 1/2⟩)
    (Steps.refl OMS.init)
    ⟨fun v => by norm_num, by norm_num, by norm_num⟩

/-- Witness for C3: in the state after submitting one market order, the
characterisation holds for order id 1 (cancellation succeeds there). -/
theorem C3_cancel_iff_witness :
    ((cancelOrder oneSubmitState 1).1 = true ↔
      ∃ o, getOrder oneSubmitState 1 = some o ∧
        (o.status = .SUBMITTED ∨
          (o.status = .PARTIALLY_FILLED ∧ ∃ t ∈ oneSubmitState.tasks, t.oid = 1))) ∧
    ((cancelOrder oneSubmitState 1).1 = true →
      ∃ o, getOrder oneSubmitState 1 = some o ∧
        (cancelOrder oneSubmitState 1).2 =
          setOrder oneSubmitState { o with status := .CANCELLED }) ∧
    ((cancelOrder oneSubmitState 1).1 = false →
      (cancelOrder oneSubmitState 1).2 = oneSubmitState) :=
  C3_cancel_iff (fun _ => 0) oneSubmitState oneSubmitState_reachable 1

/-- C10: on every reachable state, `submitOrder` returns the current value
of the order-id counter — an id no previously recorded order carries, so
ids are fresh and strictly increasing across calls — and bumps the counter
by one; immediately after the call, `getOrder` on the returned id yields
the recorded order, with status `SUBMITTED` when the risk gate passed and
`REJECTED` when it failed. -/
theorem C10_fresh_id (log : ℚ → ℚ) (s : OMS) (hs : Steps log OMS.init s)
    (req : OrderRequest) (r : SubmitRand) :
    (submitOrder log s req r).1 = s.orderIdCounter ∧
    (∀ o ∈ s.orders, o.id ≠ s.orderIdCounter) ∧
    (submitOrder log s req r).2.orderIdCounter = s.orderIdCounter + 1 ∧
    getOrder (submitOrder log s req r).2 s.orderIdCounter =
      some { mkOrder s req with status :=
        if (preTradeRiskCheck { s with orderIdCounter := s.orderIdCounter + 1 }
            (mkOrder s req) = true)
        then OrderStatus.SUBMITTED else OrderStatus.REJECTED } := by
  have hInv := reachable_inv hs
  have hfresh : ∀ o ∈ s.orders, o.id ≠ s.orderIdCounter :=
    fun o ho => Nat.ne_of_lt (hInv.idLt o ho)
  by_cases hrisk : preTradeRiskCheck { s with orderIdCounter := s.orderIdCounter + 1 }
      (mkOrder s req) = true
  · obtain ⟨ts, hd, -, -, -⟩ := dispatchTasks_spec'
      (setOrder { s with orderIdCounter := s.orderIdCounter + 1 }
        { mkOrder s req with status := .SUBMITTED })
      { mkOrder s req with status := .SUBMITTED }
      (selectOptimalVenue log r (mkOrder s req)) r rfl
    have hsub2 : (submitOrder log s req r).2 =
        { setOrder { s with orderIdCounter := s.orderIdCounter + 1 }
            { mkOrder s req with status := .SUBMITTED } with
          tasks := (setOrder { s with orderIdCounter := s.orderIdCounter + 1 }
            { mkOrder s req with status := .SUBMITTED }).tasks ++ ts } := by
      simp only [submitOrder]
      rw [if_pos hrisk, hd]
    have hsub1 : (submitOrder log s req r).1 = s.orderIdCounter := by
      simp only [submitOrder]
      rw [if_pos hrisk]
      rfl
    refine ⟨hsub1, hfresh, ?_, ?_⟩
    · rw [hsub2]
      rw [show ({ setOrder { s with orderIdCounter := s.orderIdCounter + 1 }
            { mkOrder s req with status := .SUBMITTED } with
          tasks := (setOrder { s with orderIdCounter := s.orderIdCounter + 1 }
            { mkOrder s req with status := .SUBMITTED }).tasks ++ ts } : OMS).orderIdCounter =
          (setOrder { s with orderIdCounter := s.orderIdCounter + 1 }
            { mkOrder s req with status := .SUBMITTED }).orderIdCounter from rfl,
        setOrder_orderIdCounter]
    · rw [hsub2, if_pos hrisk]
      exact getOrder_setOrder_self
        { s with orderIdCounter := s.orderIdCounter + 1 }
        { mkOrder s req with status := .SUBMITTED }
  · have hsub2 : (submitOrder log s req r).2 =
        setOrder { s with orderIdCounter := s.orderIdCounter + 1 }
          { mkOrder s req with status := .REJECTED } := by
      simp only [submitOrder]
      rw [if_neg hrisk]
    have hsub1 : (submitOrder log s req r).1 = s.orderIdCounter := by
      simp only [submitOrder]
      rw [if_neg hrisk]
      rfl
    refine ⟨hsub1, hfresh, ?_, ?_⟩
    · rw [hsub2, setOrder_orderIdCounter]
    · rw [hsub2, if_neg hrisk]
      exact getOrder_setOrder_self
        { s with orderIdCounter := s.orderIdCounter + 1 }
        { mkOrder s req with status := .REJECTED }

/-- Witness for C10: the first call on the fresh system returns id 1 and
records the order queryably. -/
theorem C10_fresh_id_witness :
    (submitOrder (fun _ => 0) OMS.init
      ⟨"AAPL", .BUY, .MARKET, 100, none, none, none, .GTC⟩
      ⟨fun _ => 1/2, fun _ => 1/2, 1/2⟩).1 = OMS.init.orderIdCounter ∧
    (∀ o ∈ OMS.init.orders, o.id ≠ OMS.init.orderIdCounter) ∧
    (submitOrder (fun _ => 0) OMS.init
      ⟨"AAPL", .BUY, .MARKET, 100, none, none, none, .GTC⟩
      ⟨fun _ => 1/2, fun _ => 1/2, 1/2⟩).2.orderIdCounter =
      OMS.init.orderIdCounter + 1 ∧
    getOrder (submitOrder (fun _ => 0) OMS.init
      ⟨"AAPL", .BUY, .MARKET, 100, none, none, none, .GTC⟩
      ⟨fun _ => 1/2, fun _ => 1/2, 1/2⟩).2 OMS.init.orderIdCounter =
      some { mkOrder OMS.init ⟨"AAPL", .BUY, .MARKET, 100, none, none, none, .GTC⟩ with
        status :=
          if (preTradeRiskCheck
              { OMS.init with orderIdCounter := OMS.init.orderIdCounter + 1 }
              (mkOrder OMS.init ⟨"AAPL", .BUY, .MARKET, 100, none, none, none, .GTC⟩) = true)
          then OrderStatus.SUBMITTED else OrderStatus.REJECTED } :=
  C10_fresh_id (fun _ => 0) OMS.init (Steps.refl OMS.init)
    ⟨"AAPL", .BUY, .MARKET, 100, none, none, none, .GTC⟩
    ⟨fun _ => 1/2, fun _ => 1/2, 1/2⟩

theorem FrameOK.refl (s : OMS) (oid : ℕ) : FrameOK s s oid :=
  ⟨fun _ hx _ => hx, fun _ htr => .inl htr, Eq.refl _⟩

theorem FrameOK.trans {s s' s'' : OMS} {oid : ℕ} (h1 : FrameOK s s' oid)
    (h2 : FrameOK s' s'' oid) : FrameOK s s'' oid :=
  ⟨fun x hx hne => h2.1 x (h1.1 x hx hne) hne,
   fun tr htr =>
     match h2.2.1 tr htr with
     | .inl h => h1.2.1 tr h
     | .inr h => .inr h,
   h2.2.2.trans h1.2.2⟩

theorem frame_setOrder (s : OMS) {newO : Order} {oid : ℕ} (hid : newO.id = oid) :
    FrameOK s (setOrder s newO) oid :=
  ⟨fun x hx hne => mem_setOrder_keep hx (by rw [hid]; exact hne),
   fun tr htr => .inl (by rwa [setOrder_trades] at htr),
   setOrder_orderIdCounter _ _⟩

theorem frame_createTrade (s : OMS) {o : Order} {oid : ℕ} (hid : o.id = oid)
    (q : ℕ) (p : ℚ) (v : Venue) : FrameOK s (createTrade s o q p v) oid := by
  refine ⟨fun x hx _ => ?_, fun tr htr => ?_, createTrade_orderIdCounter s o q p v⟩
  · rw [createTrade_orders]
    exact hx
  · simp only [createTrade] at htr
    rcases List.mem_append.mp htr with h | h
    · exact .inl h
    · refine .inr ?_
      rw [List.mem_singleton.mp h]
      exact hid

/-- Every branch of every timer callback mutates the ledgers only on behalf
of the fired task's order. -/
theorem fireTask_frame (log : ℚ → ℚ) (s : OMS) (t : Task) (r : Rand) :
    FrameOK s (fireTask log s t r).1 t.oid := by
  cases t with
  | marketFill oid v =>
    rcases hget : getOrder s oid with _ | o
    · simp only [fireTask, hget]
      exact FrameOK.refl s _
    · have ho : o.id = oid := (getOrder_mem hget).2
      simp only [fireTask, hget]
      repeat' split
      all_goals first
        | exact FrameOK.refl s _
        | exact frame_setOrder _ ho
        | exact frame_createTrade s ho _ _ _
        | exact FrameOK.trans (frame_createTrade s ho _ _ _) (frame_setOrder _ ho)
  | limitPoll oid v =>
    rcases hget : getOrder s oid with _ | o
    · simp only [fireTask, hget]
      exact FrameOK.refl s _
    · have ho : o.id = oid := (getOrder_mem hget).2
      simp only [fireTask, hget]
      repeat' split
      all_goals first
        | exact FrameOK.refl s _
        | exact frame_setOrder _ ho
        | exact frame_createTrade s ho _ _ _
        | exact FrameOK.trans (frame_createTrade s ho _ _ _) (frame_setOrder _ ho)
  | limitExpire oid =>
    rcases hget : getOrder s oid with _ | o
    · simp only [fireTask, hget]
      exact FrameOK.refl s _
    · have ho : o.id = oid := (getOrder_mem hget).2
      simp only [fireTask, hget]
      repeat' split
      all_goals first
        | exact FrameOK.refl s _
        | exact frame_setOrder _ ho
        | exact frame_createTrade s ho _ _ _
        | exact FrameOK.trans (frame_createTrade s ho _ _ _) (frame_setOrder _ ho)
  | stopPoll oid v =>
    rcases hget : getOrder s oid with _ | o
    · simp only [fireTask, hget]
      exact FrameOK.refl s _
    · have ho : o.id = oid := (getOrder_mem hget).2
      simp only [fireTask, hget]
      repeat' split
      all_goals first
        | exact FrameOK.refl s _
        | exact frame_setOrder _ ho
        | exact frame_createTrade s ho _ _ _
        | exact FrameOK.trans (frame_createTrade s ho _ _ _) (frame_setOrder _ ho)
  | stopLimitPoll oid v =>
    rcases hget : getOrder s oid with _ | o
    · simp only [fireTask, hget]
      exact FrameOK.refl s _
    · have ho : o.id = oid := (getOrder_mem hget).2
      simp only [fireTask, hget]
      repeat' split
      all_goals first
        | exact FrameOK.refl s _
        | exact frame_setOrder _ ho
        | exact frame_createTrade s ho _ _ _
        | exact FrameOK.trans (frame_createTrade s ho _ _ _) (frame_setOrder _ ho)
  | icebergSlice oid v dq rem tfq tfp =>
    rcases hget : getOrder s oid with _ | o
    · simp only [fireTask, hget]
      exact FrameOK.refl s _
    · have ho : o.id = oid := (getOrder_mem hget).2
      simp only [fireTask, hget]
      repeat' split
      all_goals first
        | exact FrameOK.refl s _
        | exact frame_setOrder _ ho
        | exact frame_createTrade s ho _ _ _
        | exact FrameOK.trans (frame_createTrade s ho _ _ _) (frame_setOrder _ ho)
  | twapSlice oid v sz ex tv cnt =>
    rcases hget : getOrder s oid with _ | o
    · simp only [fireTask, hget]
      exact FrameOK.refl s _
    · have ho : o.id = oid := (getOrder_mem hget).2
      simp only [fireTask, hget]
      repeat' split
      all_goals first
        | exact FrameOK.refl s _
        | exact frame_setOrder _ ho
        | exact frame_createTrade s ho _ _ _
        | exact FrameOK.trans (frame_createTrade s ho _ _ _) (frame_setOrder _ ho)
  | vwapSlice oid v hv ex tv cnt =>
    rcases hget : getOrder s oid with _ | o
    · simp only [fireTask, hget]
      exact FrameOK.refl s _
    · have ho : o.id = oid := (getOrder_mem hget).2
      simp only [fireTask, hget]
      repeat' split
      all_goals first
        | exact FrameOK.refl s _
        | exact frame_setOrder _ ho
        | exact frame_createTrade s ho _ _ _
        | exact FrameOK.trans (frame_createTrade s ho _ _ _) (frame_setOrder _ ho)

theorem RejectedStays_step {log : ℚ → ℚ} {s : OMS} (hInv : Inv s) (e : Event) {oid : ℕ}
    (hR : RejectedStays oid s) : RejectedStays oid (stepEvent log s e) := by
  obtain ⟨⟨orj, horj, hid, hst⟩, hlt, htr⟩ := hR
  cases e with
  | submit req r =>
    show RejectedStays oid (submitOrder log s req r).2
    have hne1 : orj.id ≠ ({ mkOrder s req with status := OrderStatus.SUBMITTED } : Order).id := by
      rw [hid]
      exact Nat.ne_of_lt hlt
    have hne2 : orj.id ≠ ({ mkOrder s req with status := OrderStatus.REJECTED } : Order).id := by
      rw [hid]
      exact Nat.ne_of_lt hlt
    simp only [submitOrder]
    split
    case isTrue hrisk =>
      obtain ⟨ts, hd, -, -, -⟩ := dispatchTasks_spec'
        (setOrder { s with orderIdCounter := s.orderIdCounter + 1 }
          { mkOrder s req with status := .SUBMITTED })
        { mkOrder s req with status := .SUBMITTED }
        (selectOptimalVenue log r (mkOrder s req)) r rfl
      rw [hd]
      refine ⟨⟨orj, ?_, hid, hst⟩, ?_, ?_⟩
      · show orj ∈ (setOrder { s with orderIdCounter := s.orderIdCounter + 1 }
          { mkOrder s req with status := OrderStatus.SUBMITTED }).orders
        exact mem_setOrder_keep horj hne1
      · show oid < (setOrder { s with orderIdCounter := s.orderIdCounter + 1 }
          { mkOrder s req with status := OrderStatus.SUBMITTED }).orderIdCounter
        rw [setOrder_orderIdCounter]
        exact Nat.lt_succ_of_lt hlt
      · show ∀ tr ∈ (setOrder { s with orderIdCounter := s.orderIdCounter + 1 }
          { mkOrder s req with status := OrderStatus.SUBMITTED }).trades, tr.orderId ≠ oid
        rw [setOrder_trades]
        exact htr
    case isFalse hrisk =>
      refine ⟨⟨orj, mem_setOrder_keep horj hne2, hid, hst⟩, ?_, ?_⟩
      · rw [setOrder_orderIdCounter]
        exact Nat.lt_succ_of_lt hlt
      · rw [setOrder_trades]
        exact htr
  | cancel coid =>
    show RejectedStays oid (cancelOrder s coid).2
    rcases hget : getOrder s coid with _ | o
    · simp only [cancelOrder, hget]
      exact ⟨⟨orj, horj, hid, hst⟩, hlt, htr⟩
    · by_cases hsub : o.status = OrderStatus.SUBMITTED
      · simp only [cancelOrder, hget, if_pos hsub]
        have hne : orj.id ≠ o.id := by
          intro he
          have heq := id_unique hInv.idNodup horj (getOrder_mem hget).1 he
          rw [heq, hsub] at hst
          exact OrderStatus.noConfusion hst
        refine ⟨⟨orj, mem_setOrder_keep horj hne, hid, hst⟩, ?_, ?_⟩
        · rw [setOrder_orderIdCounter]
          exact hlt
        · rw [setOrder_trades]
          exact htr
      · simp only [cancelOrder, hget, if_neg hsub]
        exact ⟨⟨orj, horj, hid, hst⟩, hlt, htr⟩
  | runTask i r =>
    rcases hget : s.tasks.get? i with _ | t
    · have hstep : stepEvent log s (.runTask i r) = s := by
        simp only [stepEvent]
        rw [hget]
      rw [hstep]
      exact ⟨⟨orj, horj, hid, hst⟩, hlt, htr⟩
    · have htoid : t.oid ≠ oid := by
        obtain ⟨ot, hot, hotid, hotst, -⟩ := hInv.taskOrder t (List.get?_mem hget)
        intro he
        have heq := id_unique hInv.idNodup hot horj (by rw [hotid, he, hid])
        rw [heq] at hotst
        exact hotst hst
      obtain ⟨hords, htrs, hcnt⟩ := fireTask_frame log s t r
      rw [stepEvent_runTask_some hget]
      refine ⟨⟨orj, ?_, hid, hst⟩, ?_, ?_⟩
      · exact hords orj horj (by rw [hid]; exact fun h => htoid h.symm)
      · show oid < (fireTask log s t r).1.orderIdCounter
        rw [hcnt]
        exact hlt
      · show ∀ tr ∈ (fireTask log s t r).1.trades, tr.orderId ≠ oid
        intro tr htrmem
        rcases htrs tr htrmem with h | h
        · exact htr tr h
        · rw [h]
          exact htoid
  | tick =>
    exact ⟨⟨orj, horj, hid, hst⟩, hlt, htr⟩

theorem RejectedStays_Steps {log : ℚ → ℚ} {s1 s2 : OMS} (h : Steps log s1 s2)
    (hInv : Inv s1) {oid : ℕ} (hR : RejectedStays oid s1) : RejectedStays oid s2 := by
  induction h with
  | refl => exact hR
  | tail e hsteps hv ih => exact RejectedStays_step (Steps_inv hsteps hInv) e ih

/-- C9: on every reachable state, when the pre-trade risk check fails,
`submitOrder` returns the fresh id immediately and records the order with
status `REJECTED`; the rejected order remains queryable via `getOrder`, no
venue is selected, no execution timer is armed and no trade is added — and
along every further valid run no trade is ever recorded for that id. -/
theorem C9_reject_path (log : ℚ → ℚ) (s : OMS) (hs : Steps log OMS.init s)
    (req : OrderRequest) (r : SubmitRand)
    (hfail : preTradeRiskCheck { s with orderIdCounter := s.orderIdCounter + 1 }
      (mkOrder s req) = false) :
    (submitOrder log s req r).1 = s.orderIdCounter ∧
    getOrder (submitOrder log s req r).2 s.orderIdCounter =
      some { mkOrder s req with status := .REJECTED } ∧
    submitVenueChoice log s req r = none ∧
    (submitOrder log s req r).2.tasks = s.tasks ∧
    (submitOrder log s req r).2.trades = s.trades ∧
    ∀ s2, Steps log (submitOrder log s req r).2 s2 →
      ∀ tr ∈ s2.trades, tr.orderId ≠ s.orderIdCounter := by
  have hInv := reachable_inv hs
  have hfail' : ¬ (preTradeRiskCheck { s with orderIdCounter := s.orderIdCounter + 1 }
      (mkOrder s req) = true) := by
    rw [hfail]
    exact Bool.false_ne_true
  have hsub2 : (submitOrder log s req r).2 =
      setOrder { s with orderIdCounter := s.orderIdCounter + 1 }
        { mkOrder s req with status := .REJECTED } := by
    simp only [submitOrder]
    rw [if_neg hfail']
  refine ⟨?_, ?_, ?_, ?_, ?_, ?_⟩
  · simp only [submitOrder]
    rw [if_neg hfail']
    rfl
  · rw [hsub2]
    exact getOrder_setOrder_self
      { s with orderIdCounter := s.orderIdCounter + 1 }
      { mkOrder s req with status := .REJECTED }
  · simp only [submitVenueChoice]
    rw [if_neg hfail']
  · rw [hsub2, setOrder_tasks]
  · rw [hsub2, setOrder_trades]
  · intro s2 hsteps2 tr htrmem
    have hInv1 : Inv (submitOrder log s req r).2 := inv_submit hInv log req r
    have hR : RejectedStays s.orderIdCounter (submitOrder log s req r).2 := by
      rw [hsub2]
      refine ⟨⟨{ mkOrder s req with status := .REJECTED },
        mem_setOrder_self _ _, Eq.refl _, Eq.refl _⟩, ?_, ?_⟩
      · rw [setOrder_orderIdCounter]
        exact Nat.lt_succ_self _
      · rw [setOrder_trades]
        intro tr' htr'
        obtain ⟨o', ho', hoid', -⟩ := hInv.tradeOrder tr' htr'
        rw [← hoid']
        exact Nat.ne_of_lt (hInv.idLt o' ho')
    exact (RejectedStays_Steps hsteps2 hInv1 hR).2.2 tr htrmem

/-- Witness for C9: an over-sized request (quantity 60000 > 50000) on the
fresh system is rejected and its id never trades. -/
theorem C9_reject_path_witness :
    (submitOrder (fun _ => 0) OMS.init
      ⟨"AAPL", .BUY, .MARKET, 60000, none, none, none, .GTC⟩
      ⟨fun _ => 1/2, fun _ => 1/2, 1/2⟩).1 = OMS.init.orderIdCounter ∧
    getOrder (submitOrder (fun _ => 0) OMS.init
      ⟨"AAPL", .BUY, .MARKET, 60000, none, none, none, .GTC⟩
      ⟨fun _ => 1/2, fun _ => 1/2, 1/2⟩).2 OMS.init.orderIdCounter =
      some { mkOrder OMS.init ⟨"AAPL", .BUY, .MARKET, 60000, none, none, none, .GTC⟩ with
        status := .REJECTED } ∧
    submitVenueChoice (fun _ => 0) OMS.init
      ⟨"AAPL", .BUY, .MARKET, 60000, none, none, none, .GTC⟩
      ⟨fun _ => 1/2, fun _ => 1/2, 1/2⟩ = none ∧
    (submitOrder (fun _ => 0) OMS.init
      ⟨"AAPL", .BUY, .MARKET, 60000, none, none, none, .GTC⟩
      ⟨fun _ => 1/2, fun _ => 1/2, 1/2⟩).2.tasks = OMS.init.tasks ∧
    (submitOrder (fun _ => 0) OMS.init
      ⟨"AAPL", .BUY, .MARKET, 60000, none, none, none, .GTC⟩
      ⟨fun _ => 1/2, fun _ => 1/2, 1/2⟩).2.trades = OMS.init.trades ∧
    ∀ s2, Steps (fun _ => 0) (submitOrder (fun _ => 0) OMS.init
        ⟨"AAPL", .BUY, .MARKET, 60000, none, none, none, .GTC⟩
        ⟨fun _ => 1/2, fun _ => 1/2, 1/2⟩).2 s2 →
      ∀ tr ∈ s2.trades, tr.orderId ≠ OMS.init.orderIdCounter :=
  C9_reject_path (fun _ => 0) OMS.init (Steps.refl OMS.init)
    ⟨"AAPL", .BUY, .MARKET, 60000, none, none, none, .GTC⟩
    ⟨fun _ => 1/2, fun _ => 1/2, 1/2⟩ rfl

/-- C4: recording a fill of quantity `q` at price `p` on venue `v` against
an order (the `executeTrade` recorder) appends exactly one `Trade`, sets
the cumulative fill to `oldQty + q`, the average fill price to
`(oldAvg * oldQty + p * q) / (oldQty + q)`, grows the commission by
`q * p * feeRate v`, and sets the status to `FILLED` when the new
cumulative fill equals the requested quantity and to `PARTIALLY_FILLED`
otherwise.  The hypothesis `oldQty + q ≤ quantity` holds at every call
site (the source compares with `≥`, which then agrees with equality). -/
theorem C4_executeTrade_spec (s : OMS) (o : Order) (q : ℕ) (p : ℚ) (v : Venue)
    (hle : o.fillQuantity + q ≤ o.quantity) :
    (executeTrade s o q p v).trades = s.trades ++ [{
      id := s.tradeIdCounter
      orderId := o.id
      symbol := o.symbol
      side := o.side
      quantity := q
      price := p
      timestamp := s.now
      commission := (q : ℚ) * p * venueFees v
      venue := v }] ∧
    ∃ o', getOrder (executeTrade s o q p v) o.id = some o' ∧
      o'.fillQuantity = o.fillQuantity + q ∧
      o'.avgFillPrice =
        (o.avgFillPrice * (o.fillQuantity : ℚ) + p * (q : ℚ)) /
          ((o.fillQuantity + q : ℕ) : ℚ) ∧
      o'.commission = o.commission + (q : ℚ) * p * venueFees v ∧
      o'.status = (if o.fillQuantity + q = o.quantity then OrderStatus.FILLED
        else OrderStatus.PARTIALLY_FILLED) := by
  rw [executeTrade_eq]
  constructor
  · rw [setOrder_trades]
    rfl
  · refine ⟨_, getOrder_setOrder_self _ _, rfl, ?_, rfl, ?_⟩
    · show (o.avgFillPrice * ((o.fillQuantity + q - q : ℕ) : ℚ) + p * (q : ℚ)) /
        ((o.fillQuantity + q : ℕ) : ℚ) = _
      rw [show o.fillQuantity + q - q = o.fillQuantity from by omega]
    · show (if o.fillQuantity + q ≥ o.quantity then OrderStatus.FILLED
        else OrderStatus.PARTIALLY_FILLED) = _
      by_cases he : o.fillQuantity + q = o.quantity
      · rw [if_pos (by omega), if_pos he]
      · rw [if_neg (by omega), if_neg he]

/-- Witness for C4: a 100-share fill at price 50 on IEX against a fresh
100-share order books one trade and fills the order. -/
theorem C4_executeTrade_spec_witness :
    (executeTrade OMS.init
      { id := 1
        symbol := "AAPL"
        side := .BUY
        type := .MARKET
        quantity := 100
        price := none
        stopPrice := none
        displayQuantity := none
        timeInForce := .GTC
        status := .SUBMITTED
        fillQuantity := 0
        avgFillPrice := 0
        commission := 0
        timestamp := 0 } 100 50 .IEX).trades = OMS.init.trades ++ [{
      id := OMS.init.tradeIdCounter
      orderId := 1
      symbol := "AAPL"
      side := .BUY
      quantity := 100
      price := 50
      timestamp := OMS.init.now
      commission := (100 : ℚ) * 50 * venueFees .IEX
      venue := .IEX }] ∧
    ∃ o', getOrder (executeTrade OMS.init
      { id := 1
        symbol := "AAPL"
        side := .BUY
        type := .MARKET
        quantity := 100
        price := none
        stopPrice := none
        displayQuantity := none
        timeInForce := .GTC
        status := .SUBMITTED
        fillQuantity := 0
        avgFillPrice := 0
        commission := 0
        timestamp := 0 } 100 50 .IEX) 1 = some o' ∧
      o'.fillQuantity = 0 + 100 ∧
      o'.avgFillPrice = ((0 : ℚ) * ((0 : ℕ) : ℚ) + 50 * ((100 : ℕ) : ℚ)) /
        ((0 + 100 : ℕ) : ℚ) ∧
      o'.commission = (0 : ℚ) + (100 : ℚ) * 50 * venueFees .IEX ∧
      o'.status = (if 0 + 100 = 100 then OrderStatus.FILLED
        else OrderStatus.PARTIALLY_FILLED) :=
  C4_executeTrade_spec OMS.init
    { id := 1
      symbol := "AAPL"
      side := .BUY
      type := .MARKET
      quantity := 100
      price := none
      stopPrice := none
      displayQuantity := none
      timeInForce := .GTC
      status := .SUBMITTED
      fillQuantity := 0
      avgFillPrice := 0
      commission := 0
      timestamp := 0 } 100 50 .IEX (by norm_num)

theorem IdPreserved.same (o : Order) : IdPreserved o o :=
  ⟨Eq.refl _, Eq.refl _, Eq.refl _, Eq.refl _, Eq.refl _, Eq.refl _, Eq.refl _,
   Eq.refl _, .inl (Eq.refl _)⟩

theorem exists_id_frame_setOrder {s s1 : OMS} (hords : s1.orders = s.orders)
    {o newO : Order} (homem : o ∈ s.orders) (hpres : IdPreserved o newO) :
    ∀ o' ∈ (setOrder s1 newO).orders, ∃ o0 ∈ s.orders, IdPreserved o0 o' := by
  intro o' ho'
  rcases mem_setOrder ho' with h | h
  · exact ⟨o, homem, h ▸ hpres⟩
  · rw [hords] at h
    exact ⟨o', h, IdPreserved.same o'⟩

/-- Every branch of every timer callback rewrites at most the fill fields
and — in the stop triggers — the `type` of its order; every other order is
untouched. -/
theorem fireTask_id_frame (log : ℚ → ℚ) (s : OMS) (t : Task) (r : Rand) :
    ∀ o' ∈ (fireTask log s t r).1.orders, ∃ o ∈ s.orders, IdPreserved o o' := by
  cases t with
  | marketFill oid v =>
    rcases hget : getOrder s oid with _ | o
    · simp only [fireTask, hget]
      exact fun o' h => ⟨o', h, IdPreserved.same o'⟩
    · have homem := (getOrder_mem hget).1
      simp only [fireTask, hget]
      repeat' split
      all_goals first
        | exact fun o' h => ⟨o', h, IdPreserved.same o'⟩
        | exact fun o' h =>
            ⟨o', (by rwa [createTrade_orders] at h), IdPreserved.same o'⟩
        | exact exists_id_frame_setOrder (Eq.refl _) homem
            ⟨Eq.refl _, Eq.refl _, Eq.refl _, Eq.refl _, Eq.refl _, Eq.refl _,
             Eq.refl _, Eq.refl _, .inl (Eq.refl _)⟩
        | exact exists_id_frame_setOrder (Eq.refl _) homem
            ⟨Eq.refl _, Eq.refl _, Eq.refl _, Eq.refl _, Eq.refl _, Eq.refl _,
             Eq.refl _, Eq.refl _, .inr (.inl (Eq.refl _))⟩
        | exact exists_id_frame_setOrder (Eq.refl _) homem
            ⟨Eq.refl _, Eq.refl _, Eq.refl _, Eq.refl _, Eq.refl _, Eq.refl _,
             Eq.refl _, Eq.refl _, .inr (.inr (Eq.refl _))⟩
        | exact exists_id_frame_setOrder (createTrade_orders _ _ _ _ _) homem
            ⟨Eq.refl _, Eq.refl _, Eq.refl _, Eq.refl _, Eq.refl _, Eq.refl _,
             Eq.refl _, Eq.refl _, .inl (Eq.refl _)⟩
  | limitPoll oid v =>
    rcases hget : getOrder s oid with _ | o
    · simp only [fireTask, hget]
      exact fun o' h => ⟨o', h, IdPreserved.same o'⟩
    · have homem := (getOrder_mem hget).1
      simp only [fireTask, hget]
      repeat' split
      all_goals first
        | exact fun o' h => ⟨o', h, IdPreserved.same o'⟩
        | exact fun o' h =>
            ⟨o', (by rwa [createTrade_orders] at h), IdPreserved.same o'⟩
        | exact exists_id_frame_setOrder (Eq.refl _) homem
            ⟨Eq.refl _, Eq.refl _, Eq.refl _, Eq.refl _, Eq.refl _, Eq.refl _,
             Eq.refl _, Eq.refl _, .inl (Eq.refl _)⟩
        | exact exists_id_frame_setOrder (Eq.refl _) homem
            ⟨Eq.refl _, Eq.refl _, Eq.refl _, Eq.refl _, Eq.refl _, Eq.refl _,
             Eq.refl _, Eq.refl _, .inr (.inl (Eq.refl _))⟩
        | exact exists_id_frame_setOrder (Eq.refl _) homem
            ⟨Eq.refl _, Eq.refl _, Eq.refl _, Eq.refl _, Eq.refl _, Eq.refl _,
             Eq.refl _, Eq.refl _, .inr (.inr (Eq.refl _))⟩
        | exact exists_id_frame_setOrder (createTrade_orders _ _ _ _ _) homem
            ⟨Eq.refl _, Eq.refl _, Eq.refl _, Eq.refl _, Eq.refl _, Eq.refl _,
             Eq.refl _, Eq.refl _, .inl (Eq.refl _)⟩
  | limitExpire oid =>
    rcases hget : getOrder s oid with _ | o
    · simp only [fireTask, hget]
      exact fun o' h => ⟨o', h, IdPreserved.same o'⟩
    · have homem := (getOrder_mem hget).1
      simp only [fireTask, hget]
      repeat' split
      all_goals first
        | exact fun o' h => ⟨o', h, IdPreserved.same o'⟩
        | exact exists_id_frame_setOrder (Eq.refl _) homem
            ⟨Eq.refl _, Eq.refl _, Eq.refl _, Eq.refl _, Eq.refl _, Eq.refl _,
             Eq.refl _, Eq.refl _, .inl (Eq.refl _)⟩
  | stopPoll oid v =>
    rcases hget : getOrder s oid with _ | o
    · simp only [fireTask, hget]
      exact fun o' h => ⟨o', h, IdPreserved.same o'⟩
    · have homem := (getOrder_mem hget).1
      simp only [fireTask, hget]
      repeat' split
      all_goals first
        | exact fun o' h => ⟨o', h, IdPreserved.same o'⟩
        | exact exists_id_frame_setOrder (Eq.refl _) homem
            ⟨Eq.refl _, Eq.refl _, Eq.refl _, Eq.refl _, Eq.refl _, Eq.refl _,
             Eq.refl _, Eq.refl _, .inr (.inl (Eq.refl _))⟩
  | stopLimitPoll oid v =>
    rcases hget : getOrder s oid with _ | o
    · simp only [fireTask, hget]
      exact fun o' h => ⟨o', h, IdPreserved.same o'⟩
    · have homem := (getOrder_mem hget).1
      simp only [fireTask, hget]
      repeat' split
      all_goals first
        | exact fun o' h => ⟨o', h, IdPreserved.same o'⟩
        | exact exists_id_frame_setOrder (Eq.refl _) homem
            ⟨Eq.refl _, Eq.refl _, Eq.refl _, Eq.refl _, Eq.refl _, Eq.refl _,
             Eq.refl _, Eq.refl _, .inr (.inr (Eq.refl _))⟩
  | icebergSlice oid v dq rem tfq tfp =>
    rcases hget : getOrder s oid with _ | o
    · simp only [fireTask, hget]
      exact fun o' h => ⟨o', h, IdPreserved.same o'⟩
    · have homem := (getOrder_mem hget).1
      simp only [fireTask, hget]
      repeat' split
      all_goals first
        | exact fun o' h => ⟨o', h, IdPreserved.same o'⟩
        | exact fun o' h =>
            ⟨o', (by rwa [createTrade_orders] at h), IdPreserved.same o'⟩
        | exact exists_id_frame_setOrder (createTrade_orders _ _ _ _ _) homem
            ⟨Eq.refl _, Eq.refl _, Eq.refl _, Eq.refl _, Eq.refl _, Eq.refl _,
             Eq.refl _, Eq.refl _, .inl (Eq.refl _)⟩
  | twapSlice oid v sz ex tv cnt =>
    rcases hget : getOrder s oid with _ | o
    · simp only [fireTask, hget]
      exact fun o' h => ⟨o', h, IdPreserved.same o'⟩
    · have homem := (getOrder_mem hget).1
      simp only [fireTask, hget]
      repeat' split
      all_goals first
        | exact fun o' h => ⟨o', h, IdPreserved.same o'⟩
        | exact fun o' h =>
            ⟨o', (by rwa [createTrade_orders] at h), IdPreserved.same o'⟩
        | exact exists_id_frame_setOrder (createTrade_orders _ _ _ _ _) homem
            ⟨Eq.refl _, Eq.refl _, Eq.refl _, Eq.refl _, Eq.refl _, Eq.refl _,
             Eq.refl _, Eq.refl _, .inl (Eq.refl _)⟩
  | vwapSlice oid v hv ex tv cnt =>
    rcases hget : getOrder s oid with _ | o
    · simp only [fireTask, hget]
      exact fun o' h => ⟨o', h, IdPreserved.same o'⟩
    · have homem := (getOrder_mem hget).1
      simp only [fireTask, hget]
      repeat' split
      all_goals first
        | exact fun o' h => ⟨o', h, IdPreserved.same o'⟩
        | exact fun o' h =>
            ⟨o', (by rwa [createTrade_orders] at h), IdPreserved.same o'⟩
        | exact exists_id_frame_setOrder (createTrade_orders _ _ _ _ _) homem
            ⟨Eq.refl _, Eq.refl _, Eq.refl _, Eq.refl _, Eq.refl _, Eq.refl _,
             Eq.refl _, Eq.refl _, .inl (Eq.refl _)⟩

/-- C8 (amended): when a timer callback of any execution algorithm fires
on a reachable state, every order in the resulting ledger descends from a
recorded order with the same id, symbol, side, quantity, price, stopPrice,
displayQuantity and timeInForce; only the fill fields (status,
fillQuantity, avgFillPrice, commission) and — contrary to the claim — the
`type` field may change, the latter only to `MARKET` (stop trigger) or
`LIMIT` (stop-limit trigger). -/
theorem C8_exec_frame (log : ℚ → ℚ) (s : OMS) (hs : Steps log OMS.init s)
    (i : ℕ) (r : Rand) :
    ∀ o' ∈ (stepEvent log s (.runTask i r)).orders, ∃ o ∈ s.orders,
      o'.id = o.id ∧ o'.symbol = o.symbol ∧ o'.side = o.side ∧
      o'.quantity = o.quantity ∧ o'.price = o.price ∧ o'.stopPrice = o.stopPrice ∧
      o'.displayQuantity = o.displayQuantity ∧ o'.timeInForce = o.timeInForce ∧
      (o'.type = o.type ∨ o'.type = .MARKET ∨ o'.type = .LIMIT) := by
  rcases hget : s.tasks.get? i with _ | t
  · have hstep : stepEvent log s (.runTask i r) = s := by
      simp only [stepEvent]
      rw [hget]
    rw [hstep]
    exact fun o' h => ⟨o', h, IdPreserved.same o'⟩
  · rw [stepEvent_runTask_some hget]
    exact fun o' h => fireTask_id_frame log s t r o' h

/-- Submitting a GTC limit order (500 shares, limit 100) on the fresh
system records it `SUBMITTED` and arms the polling interval plus the
time-in-force expiry timeout. -/
theorem limit_submit (log : ℚ → ℚ) (r0 : SubmitRand) :
    submitOrder log OMS.init ⟨"AAPL", .BUY, .LIMIT, 500, some 100, none, none, .GTC⟩ r0 =
      (1, { orders := [{
              id := 1
              symbol := "AAPL"
              side := .BUY
              type := .LIMIT
              quantity := 500
              price := some 100
              stopPrice := none
              displayQuantity := none
              timeInForce := .GTC
              status := .SUBMITTED
              fillQuantity := 0
              avgFillPrice := 0
              commission := 0
              timestamp := 0 }]
            trades := []
            tasks := [.limitPoll 1 (selectOptimalVenue log r0
                (mkOrder OMS.init ⟨"AAPL", .BUY, .LIMIT, 500, some 100, none, none, .GTC⟩)),
              .limitExpire 1]
            orderIdCounter := 2
            tradeIdCounter := 1
            now := 0 }) := by
  have hrisk : preTradeRiskCheck
      { OMS.init with orderIdCounter := OMS.init.orderIdCounter + 1 }
      (mkOrder OMS.init ⟨"AAPL", .BUY, .LIMIT, 500, some 100, none, none, .GTC⟩) = true := by
    simp only [preTradeRiskCheck, mkOrder]
    norm_num [OMS.init]
  simp only [submitOrder]
  rw [if_pos hrisk]
  rfl

theorem limitState1_reachable : Steps (fun _ => 0) OMS.init limitState1 := by
  have h : Steps (fun _ => 0) OMS.init
      (stepEvent (fun _ => 0) OMS.init
        (.submit ⟨"AAPL", .BUY, .LIMIT, 500, some 100, none, none, .GTC⟩
          ⟨fun _ => 1/2, fun _ => 1/2, 1/2⟩)) :=
    Steps.tail (.submit ⟨"AAPL", .BUY, .LIMIT, 500, some 100, none, none, .GTC⟩
        ⟨fun _ => 1/2, fun _ => 1/2, 1/2⟩) (Steps.refl OMS.init)
      ⟨fun v => by norm_num, by norm_num, by norm_num⟩
  rwa [show stepEvent (fun _ => 0) OMS.init
      (.submit ⟨"AAPL", .BUY, .LIMIT, 500, some 100, none, none, .GTC⟩
        ⟨fun _ => 1/2, fun _ => 1/2, 1/2⟩) = limitState1 from
    congrArg Prod.snd (limit_submit (fun _ => 0) ⟨fun _ => 1/2, fun _ => 1/2, 1/2⟩)] at h

/-- Witness for C8 (amended): firing the polling callback of the recorded
limit order at market price 104 (no fill, limit 100) leaves the order — so
the frame's conclusion holds of it concretely. -/
theorem C8_exec_frame_witness :
    ∃ o ∈ limitState1.orders,
      limitOrder1.id = o.id ∧ limitOrder1.symbol = o.symbol ∧
      limitOrder1.side = o.side ∧ limitOrder1.quantity = o.quantity ∧
      limitOrder1.price = o.price ∧ limitOrder1.stopPrice = o.stopPrice ∧
      limitOrder1.displayQuantity = o.displayQuantity ∧
      limitOrder1.timeInForce = o.timeInForce ∧
      (limitOrder1.type = o.type ∨ limitOrder1.type = .MARKET ∨
        limitOrder1.type = .LIMIT) := by
  have hgetO : getOrder limitState1 1 = some limitOrder1 := rfl
  have hget : limitState1.tasks.get? 0 = some (.limitPoll 1 limitVenue1) := rfl
  have hfire : fireTask (fun _ => 0) limitState1 (.limitPoll 1 limitVenue1) ⟨9/10, 1/2⟩ =
      (limitState1, [.limitPoll 1 limitVenue1], none) := by
    simp only [fireTask, hgetO]
    norm_num [simulateMarketPrice, limitOrder1]
  have hmem : limitOrder1 ∈
      (stepEvent (fun _ => 0) limitState1 (.runTask 0 ⟨9/10, 1/2⟩)).orders := by
    rw [stepEvent_runTask_some hget, hfire]
    exact List.mem_singleton_self _
  exact C8_exec_frame (fun _ => 0) limitState1 limitState1_reachable 0 ⟨9/10, 1/2⟩
    limitOrder1 hmem

/-- Submitting a stop order on the fresh system records it `SUBMITTED` and
arms exactly the stop-trigger polling callback. -/
theorem stop_submit (log : ℚ → ℚ) (r0 : SubmitRand) :
    submitOrder log OMS.init ⟨"AAPL", .BUY, .STOP, 10, none, some 100, none, .GTC⟩ r0 =
      (1, { orders := [{
              id := 1
              symbol := "AAPL"
              side := .BUY
              type := .STOP
              quantity := 10
              price := none
              stopPrice := some 100
              displayQuantity := none
              timeInForce := .GTC
              status := .SUBMITTED
              fillQuantity := 0
              avgFillPrice := 0
              commission := 0
              timestamp := 0 }]
            trades := []
            tasks := [.stopPoll 1 (selectOptimalVenue log r0
              (mkOrder OMS.init ⟨"AAPL", .BUY, .STOP, 10, none, some 100, none, .GTC⟩))]
            orderIdCounter := 2
            tradeIdCounter := 1
            now := 0 }) := by
  have hrisk : preTradeRiskCheck
      { OMS.init with orderIdCounter := OMS.init.orderIdCounter + 1 }
      (mkOrder OMS.init ⟨"AAPL", .BUY, .STOP, 10, none, some 100, none, .GTC⟩) = true := by
    simp only [preTradeRiskCheck, mkOrder]
    rw [if_neg (by norm_num : ¬ (10 : ℕ) > 50000),
      if_neg (by norm_num : ¬ ((10 : ℕ) : ℚ) * 100 > 5000000)]
    rfl
  simp only [submitOrder]
  rw [if_pos hrisk]
  rfl

/-- Counterexample to C8 as stated: the stop trigger mutates the `type`
identity field.  Submitting a BUY stop order with stop price 100 and then
firing its polling callback at market price 100 rewrites the order's type
from `STOP` to `MARKET`. -/
theorem C8_counterexample :
    ¬ (∀ (log : ℚ → ℚ) (s : OMS), Steps log OMS.init s →
        ∀ (i : ℕ) (r : Rand), r.Valid →
        ∀ o ∈ s.orders, ∀ o' ∈ (stepEvent log s (.runTask i r)).orders,
          o'.id = o.id → o'.type = o.type) := by
  intro h
  have hsub := stop_submit (fun _ => 0) ⟨fun _ => 1/2, fun _ => 1/2, 1/2⟩
  have hsteps : Steps (fun _ => 0) OMS.init
      (submitOrder (fun _ => 0) OMS.init
        ⟨"AAPL", .BUY, .STOP, 10, none, some 100, none, .GTC⟩
        ⟨fun _ => 1/2, fun _ => 1/2, 1/2⟩).2 :=
    Steps.tail (.submit ⟨"AAPL", .BUY, .STOP, 10, none, some 100, none, .GTC⟩
        ⟨fun _ => 1/2, fun _ => 1/2, 1/2⟩)
      (Steps.refl OMS.init)
      ⟨fun v => by norm_num, by norm_num, by norm_num⟩
  rw [show (submitOrder (fun _ => 0) OMS.init
      ⟨"AAPL", .BUY, .STOP, 10, none, some 100, none, .GTC⟩
      ⟨fun _ => 1/2, fun _ => 1/2, 1/2⟩).2 = _ from congrArg Prod.snd hsub] at hsteps
  set v : Venue := selectOptimalVenue (fun _ => 0) ⟨fun _ => 1/2, fun _ => 1/2, 1/2⟩
    (mkOrder OMS.init ⟨"AAPL", .BUY, .STOP, 10, none, some 100, none, .GTC⟩) with hv
  set o1 : Order := {
    id := 1
    symbol := "AAPL"
    side := .BUY
    type := .STOP
    quantity := 10
    price := none
    stopPrice := some 100
    displayQuantity := none
    timeInForce := .GTC
    status := .SUBMITTED
    fillQuantity := 0
    avgFillPrice := 0
    commission := 0
    timestamp := 0 } with ho1
  set s1 : OMS := { orders := [o1]
                    trades := []
                    tasks := [.stopPoll 1 v]
                    orderIdCounter := 2
                    tradeIdCounter := 1
                    now := 0 } with hs1
  have hget : s1.tasks.get? 0 = some (.stopPoll 1 v) := rfl
  have hgetO : getOrder s1 1 = some o1 := getOrder_single s1 o1 rfl
  have hfire : fireTask (fun _ => 0) s1 (.stopPoll 1 v) ⟨1/2, 1/2⟩ =
      (setOrder s1 { o1 with type := .MARKET }, [.marketFill 1 v], none) := by
    simp only [fireTask, hgetO]
    norm_num [simulateMarketPrice]
  have hmem' : ({ o1 with type := OrderType.MARKET } : Order) ∈
      (stepEvent (fun _ => 0) s1 (.runTask 0 ⟨1/2, 1/2⟩)).orders := by
    rw [stepEvent_runTask_some hget, hfire]
    exact mem_setOrder_self s1 { o1 with type := .MARKET }
  have hcontra := h (fun _ => 0) s1 hsteps 0 ⟨1/2, 1/2⟩
    ⟨by norm_num, by norm_num, by norm_num, by norm_num⟩
    o1 (List.mem_singleton_self o1)
    { o1 with type := .MARKET } hmem' (Eq.refl _)
  exact OrderType.noConfusion hcontra

/-- C2 fails on the code: cancelling a `SUBMITTED` limit order succeeds and
sets it `CANCELLED`, but the armed polling callback is not cleared and does
not re-check the status, so at its next wake-up it still books a 500-share
trade for the cancelled order id. -/
theorem C2_cancelled_order_still_trades :
    (cancelOrder (submitOrder (fun _ => 0) OMS.init
        ⟨"AAPL", .BUY, .LIMIT, 500, some 100, none, none, .GTC⟩
        ⟨fun _ => 1/2, fun _ => 1/2, 1/2⟩).2 1).1 = true ∧
    (∃ o, getOrder (cancelOrder (submitOrder (fun _ => 0) OMS.init
        ⟨"AAPL", .BUY, .LIMIT, 500, some 100, none, none, .GTC⟩
        ⟨fun _ => 1/2, fun _ => 1/2, 1/2⟩).2 1).2 1 = some o ∧
      o.status = .CANCELLED) ∧
    ∃ tr ∈ (stepEvent (fun _ => 0)
        (cancelOrder (submitOrder (fun _ => 0) OMS.init
          ⟨"AAPL", .BUY, .LIMIT, 500, some 100, none, none, .GTC⟩
          ⟨fun _ => 1/2, fun _ => 1/2, 1/2⟩).2 1).2
        (.runTask 0 ⟨1/5, 1/2⟩)).trades,
      tr.orderId = 1 ∧ tr.quantity = 500 := by
  have hsub := limit_submit (fun _ => 0) ⟨fun _ => 1/2, fun _ => 1/2, 1/2⟩
  set v : Venue := selectOptimalVenue (fun _ => 0) ⟨fun _ => 1/2, fun _ => 1/2, 1/2⟩
    (mkOrder OMS.init ⟨"AAPL", .BUY, .LIMIT, 500, some 100, none, none, .GTC⟩) with hv
  set lo1 : Order := {
    id := 1
    symbol := "AAPL"
    side := .BUY
    type := .LIMIT
    quantity := 500
    price := some 100
    stopPrice := none
    displayQuantity := none
    timeInForce := .GTC
    status := .SUBMITTED
    fillQuantity := 0
    avgFillPrice := 0
    commission := 0
    timestamp := 0 } with hlo1
  set s1 : OMS := { orders := [lo1]
                    trades := []
                    tasks := [.limitPoll 1 v, .limitExpire 1]
                    orderIdCounter := 2
                    tradeIdCounter := 1
                    now := 0 } with hs1
  have hsub2 : (submitOrder (fun _ => 0) OMS.init
      ⟨"AAPL", .BUY, .LIMIT, 500, some 100, none, none, .GTC⟩
      ⟨fun _ => 1/2, fun _ => 1/2, 1/2⟩).2 = s1 := congrArg Prod.snd hsub
  have hgetO1 : getOrder s1 1 = some lo1 := getOrder_single s1 lo1 rfl
  have hcan : cancelOrder s1 1 = (true, setOrder s1 { lo1 with status := .CANCELLED }) := by
    simp only [cancelOrder, hgetO1]
    rfl
  have hs2 : (cancelOrder s1 1).2 =
      { orders := [{ lo1 with status := OrderStatus.CANCELLED }]
        trades := []
        tasks := [.limitPoll 1 v, .limitExpire 1]
        orderIdCounter := 2
        tradeIdCounter := 1
        now := 0 } := by
    rw [hcan]
    rfl
  set co1 : Order := { lo1 with status := OrderStatus.CANCELLED } with hco1
  set s2 : OMS := { orders := [co1]
                    trades := []
                    tasks := [.limitPoll 1 v, .limitExpire 1]
                    orderIdCounter := 2
                    tradeIdCounter := 1
                    now := 0 } with hs2def
  have hgetO2 : getOrder s2 1 = some co1 := getOrder_single s2 co1 rfl
  have hget2 : s2.tasks.get? 0 = some (.limitPoll 1 v) := rfl
  have hfire : fireTask (fun _ => 0) s2 (.limitPoll 1 v) ⟨1/5, 1/2⟩ =
      (executeTrade s2 co1 500 100 v, [], none) := by
    simp only [fireTask, hgetO2]
    norm_num [simulateMarketPrice]
  rw [hsub2, hs2]
  refine ⟨?_, ⟨co1, hgetO2, rfl⟩, ?_⟩
  · rw [show cancelOrder s1 1 = (true, setOrder s1 { lo1 with status := .CANCELLED })
      from hcan]
  · rw [stepEvent_runTask_some hget2, hfire]
    show ∃ tr ∈ (executeTrade s2 co1 500 100 v).trades, tr.orderId = 1 ∧ tr.quantity = 500
    rw [executeTrade_eq, setOrder_trades]
    refine ⟨{ id := 1
              orderId := 1
              symbol := "AAPL"
              side := .BUY
              quantity := 500
              price := 100
              timestamp := 0
              commission := calculateCommission 500 100 v
              venue := v }, ?_, rfl, rfl⟩
    show _ ∈ ([] : List Trade) ++ [_]
    rw [List.nil_append]
    exact List.mem_singleton_self _

end QuantLab
